import Mathlib

/-!
# saint-valentin: the chapter sequencer and the reveal sequences

A shallow embedding of the state logic of the React application under `src/`:
`App.jsx` (the chapter sequencer) and `components/Chapter1.jsx` to
`components/Chapter7.jsx` (the reveal sequences).

Conventions of the embedding.

* A `useState` cell is a field of the component's `State` structure; the
  argument of `useState` is the field's value in `init`.
* A JavaScript number that holds a non-negative integer (a chapter index, a
  counter, an item id) is a `Nat` and `prev + 1` is `+ 1`: the embedding stays in
  the range in which a JavaScript number is an exact integer (below `2^53`).
* A JavaScript `Set` of numbers is a `Finset Nat`: `new Set(prev)` followed by
  `next.add(id)` is `insert id prev`, `.has` is membership, `.size` is `card`.
* An event handler is a function on the component state. React runs a handler
  with the state of the last render and re-renders before the next discrete
  event, so a handler reads the current state.
* A pending `setTimeout` is a boolean (or a count) in the state, and its firing
  is an event of the component's step function. The step function of a component
  puts no order on the firing of its timers, which allows every run the browser
  allows, and more. Where the order matters (`Chapter3`, whose pulse-reset timers
  no effect owns), the pending timers are kept in the order in which they were
  set, with the delays of the source, and a timer fires only after the timers
  that were set before it with a delay no longer than its own
  (`Chapter3.Scheduled`).
* Purely presentational fields of the content tables (colours, positions,
  sizes) are left out; the fields the logic reads are kept.
* A JavaScript string is a `String`. JavaScript counts and compares UTF-16 code
  units where this embedding counts and compares characters; the two agree on the
  texts of the application and on decimal numerals.
* The second run of the effects that `React.StrictMode` makes in a development
  build is not part of the embedding.
* A JavaScript number that is a fraction is the rational number that the double
  is equal to. A division or a subtraction (`lightIntensity`, `armorRemaining`)
  returns the double nearest to the exact result, as IEEE 754 arithmetic does
  (`Double.div`, `Double.sub`). The decimal literals of `skyProgress` are taken
  as the decimals written in the table; of these only the order, the bounds and
  the look-up are used.
-/

namespace Double

/-- The quotient `p / q` of two naturals rounded to an integer: to the nearest
one, and to the even one of the two when it is halfway between them. -/
def roundHalfEven (p q : Nat) : Nat :=
  if 2 * (p % q) < q then p / q
  else if q < 2 * (p % q) then p / q + 1
  else if (p / q) % 2 = 0 then p / q
  else p / q + 1

/-- The number of doublings that bring `p / q` to `2^52` or more, at most `fuel`
of them. -/
def scaleUp : Nat → Nat → Nat → Nat
  | 0, _, _ => 0
  | fuel + 1, p, q => if 2 ^ 52 * q ≤ p then 0 else scaleUp fuel (2 * p) q + 1

/-- The number of halvings that bring `p / q` below `2^53`, at most `fuel` of
them. -/
def scaleDown : Nat → Nat → Nat → Nat
  | 0, _, _ => 0
  | fuel + 1, p, q => if p < 2 ^ 53 * q then 0 else scaleDown fuel p (2 * q) + 1

/-- The double nearest to `p / q`, for `q` positive: the quotient is scaled by
the power of two that brings it into `[2^52, 2^53)`, rounded there to an integer
(the 53 bits of the significand), and scaled back. The scale stops at `2^1074`,
the unit of the subnormal doubles. A quotient of `2^1024` or more, which a double
rounds to `Infinity`, is outside the embedding. -/
def nearestNat (p q : Nat) : ℚ :=
  if p < 2 ^ 53 * q then
    (roundHalfEven (p * 2 ^ scaleUp 1074 p q) q : ℚ) / 2 ^ scaleUp 1074 p q
  else
    (roundHalfEven p (q * 2 ^ scaleDown 971 p q) : ℚ) * 2 ^ scaleDown 971 p q

/-- The double nearest to a rational number (round to nearest, ties to even, the
rounding of JavaScript arithmetic). -/
def nearest (x : ℚ) : ℚ :=
  if x < 0 then - nearestNat x.num.natAbs x.den else nearestNat x.num.natAbs x.den

/-- The JavaScript `a / b` on two doubles, for `b` other than zero: the double
nearest to the exact quotient. -/
def div (a b : ℚ) : ℚ := nearest (a / b)

/-- The JavaScript `a - b` on two doubles: the double nearest to the exact
difference. -/
def sub (a b : ℚ) : ℚ := nearest (a - b)

end Double

namespace App

/-- The props `App` hands down: the only function it ever passes to a chapter. -/
inductive Callback where
  | goToNextChapter
  deriving DecidableEq, Repr

/-- The components `renderChapter` can return; `Placeholder` is the `<div>` of the
`default` branch ("La suite arrive bientôt..."). -/
inductive Component where
  | Chapter1 | Chapter2 | Chapter3 | Chapter4 | Chapter5 | Chapter6 | Chapter7
  | Placeholder
  deriving DecidableEq, Repr

/-- A rendered element: the component and the `onComplete` prop it is given
(`none` when the JSX passes no such prop). -/
structure Element where
  component : Component
  onComplete : Option Callback
  deriving DecidableEq, Repr

/-- The state of `App`: its single `useState` cell. -/
structure State where
  currentChapter : Nat
  deriving DecidableEq, Repr

/-- `useState(1)`. -/
def init : State := { currentChapter := 1 }

/-- The argument of `window.scrollTo`. -/
structure ScrollToOptions where
  top : Nat
  behavior : String
  deriving DecidableEq, Repr

/-- `goToNextChapter`: `setCurrentChapter((prev) => prev + 1)` and then
`window.scrollTo({ top: 0, behavior: "smooth" })`. The result is the next state
of `App` and the scroll requests issued. -/
def goToNextChapter (s : State) : State × List ScrollToOptions :=
  ({ s with currentChapter := s.currentChapter + 1 },
   [{ top := 0, behavior := "smooth" }])

/-- The state after `goToNextChapter`. -/
def advance (s : State) : State := (goToNextChapter s).1

/-- `renderChapter`: the `switch (currentChapter)`. -/
def renderChapter (currentChapter : Nat) : Element :=
  match currentChapter with
  | 1 => { component := .Chapter1, onComplete := some .goToNextChapter }
  | 2 => { component := .Chapter2, onComplete := some .goToNextChapter }
  | 3 => { component := .Chapter3, onComplete := some .goToNextChapter }
  | 4 => { component := .Chapter4, onComplete := some .goToNextChapter }
  | 5 => { component := .Chapter5, onComplete := some .goToNextChapter }
  | 6 => { component := .Chapter6, onComplete := some .goToNextChapter }
  | 7 => { component := .Chapter7, onComplete := none }
  | _ => { component := .Placeholder, onComplete := none }

end App

namespace Chapter1

/-- The `type` of an entry of `TEXTS`. -/
inductive TextType where
  | title | text | quote
  deriving DecidableEq, Repr

/-- An entry of `TEXTS`. -/
structure TextItem where
  type : TextType
  content : String
  deriving DecidableEq, Repr

/-- The table `TEXTS`. -/
def TEXTS : List TextItem :=
  [ { type := .title, content := "L'Hiver Silencieux" },
    { type := .text, content := "Il y a des silences qui pèsent plus lourd que les mots." },
    { type := .text, content := "Des distances qui ne se mesurent ni en kilomètres, ni en mois... mais en battements de cœur retenus." },
    { type := .text, content := "La Saint-Valentin revient, comme chaque année. Et chaque année, elle murmure ton nom dans les recoins de ma mémoire." },
    { type := .quote, content := "« On m'a demandé pourquoi j'étais si silencieux. Comment leur expliquer que mon silence est la seule langue qui te reste fidèle ? »" },
    { type := .text, content := "Je n'ai pas disparu par indifférence. Je me suis tu parce que chaque mot que j'aurais pu dire aurait été une tempête déguisée en murmure." },
    { type := .text, content := "Et dans ce silence, il neige. Doucement. Comme ce soir." },
    { type := .text, content := "Touche la neige. Elle a des choses à te raconter." } ]

/-- The state of `Chapter1`: its two `useState` cells and the pending hint timer
of the mount effect. -/
structure State where
  revealedCount : Nat
  showHint : Bool
  hintTimer : Bool
  deriving DecidableEq, Repr

/-- The state after mounting: `useState(0)`, `useState(false)`, and the mount
effect has scheduled the hint timer. -/
def init : State := { revealedCount := 0, showHint := false, hintTimer := true }

/-- `handleClick`. -/
def handleClick (s : State) : State :=
  if s.revealedCount < TEXTS.length then
    { s with revealedCount := s.revealedCount + 1, showHint := false }
  else s

/-- The "Continuer..." button is rendered when `revealedCount >= TEXTS.length`. -/
def continueShown (s : State) : Bool := decide (s.revealedCount ≥ TEXTS.length)

/-- The events of a mounted `Chapter1`: a click on the page `<div>`, a click on
the "Continuer..." button, the hint timer firing. -/
inductive Event where
  | click | continueClick | hintTimeout
  deriving DecidableEq, Repr

/-- One event. The button stops propagation, so its click does not reach
`handleClick`; an event whose target is not rendered, or whose timer is not
pending, changes nothing. -/
def step (s : State) : Event → State
  | .click => handleClick s
  | .continueClick => s
  | .hintTimeout => if s.hintTimer then { s with showHint := true, hintTimer := false } else s

/-- Whether the event invokes the `onComplete` prop. -/
def completes (s : State) : Event → Bool
  | .continueClick => continueShown s
  | _ => false

/-- The state of `Chapter1` after a sequence of events. -/
def run (s : State) (es : List Event) : State := es.foldl step s

/-- Unmounting: the cleanup of the mount effect clears the hint timer. -/
def unmount (s : State) : State := { s with hintTimer := false }

/-- The number of timers of the component that are still to fire. -/
def pendingTimers (s : State) : Nat := s.hintTimer.toNat

end Chapter1

namespace Chapter3

/-- An entry of `HEARTBEATS`. -/
structure Heartbeat where
  text : String
  subtext : String
  deriving DecidableEq, Repr

/-- The table `HEARTBEATS`. -/
def HEARTBEATS : List Heartbeat :=
  [ { text := "On m'a dit que j'avais changé.",
      subtext := "Que j'étais devenu froid, distant, inaccessible." },
    { text := "Ils ne savent pas que la froideur est le prix que je paie.",
      subtext := "Pour ne pas m'effondrer chaque fois que je pense à toi." },
    { text := "J'ai construit cette armure le jour où j'ai compris...",
      subtext := "Que te perdre n'était pas un risque. C'était déjà fait." },
    { text := "Mais un cœur en armure reste un cœur.",
      subtext := "Il bat. Il saigne. Il se souvient." },
    { text := "Le mien n'a jamais appris à t'oublier.",
      subtext := "Il a juste appris à saigner en silence." },
    { text := "Et ce soir, pour toi, il enlève son armure.",
      subtext := "Pas pour revenir. Juste pour te montrer qu'il est vivant." } ]

/-- An entry of `ARMOR_PLATES` (the geometry of the fall is left out). -/
structure ArmorPlate where
  id : Nat
  angle : Nat
  deriving DecidableEq, Repr

/-- The table `ARMOR_PLATES`. -/
def ARMOR_PLATES : List ArmorPlate :=
  [ { id := 0, angle := 0 }, { id := 1, angle := 60 }, { id := 2, angle := 120 },
    { id := 3, angle := 180 }, { id := 4, angle := 240 }, { id := 5, angle := 300 } ]

/-- The state of `Chapter3`: its five `useState` cells, then the pending timers
(the hint timer of the mount effect, the final-message timer of the completion
effect, and the number of pending pulse-reset timers set by `handleClick`). -/
structure State where
  currentBeat : Nat
  fallenPlates : Finset Nat
  showFinalMessage : Bool
  showHint : Bool
  isPulsing : Bool
  hintTimer : Bool
  finalTimer : Bool
  pulseTimers : Nat
  deriving DecidableEq

/-- The state after mounting. -/
def init : State :=
  { currentBeat := 0, fallenPlates := ∅, showFinalMessage := false, showHint := false,
    isPulsing := false, hintTimer := true, finalTimer := false, pulseTimers := 0 }

/-- `handleClick`: the early return, then the pulse (with its reset timer), the
plate `currentBeat` added to `fallenPlates`, the next beat, the hint hidden. -/
def handleClick (s : State) : State :=
  if s.currentBeat ≥ HEARTBEATS.length then s
  else
    { s with
      isPulsing := true
      pulseTimers := s.pulseTimers + 1
      fallenPlates := insert s.currentBeat s.fallenPlates
      currentBeat := s.currentBeat + 1
      showHint := false }

/-- `allDone`. -/
def allDone (s : State) : Bool := decide (s.currentBeat ≥ HEARTBEATS.length)

/-- The test of the completion effect. -/
def completionTest (s : State) : Bool :=
  decide (s.fallenPlates.card = ARMOR_PLATES.length) && decide (s.currentBeat ≥ HEARTBEATS.length)

/-- The completion effect, with dependencies `[fallenPlates.size, currentBeat]`:
when one of them changed in the render from `old` to `new`, the previous timer is
cleared and a new one is set if the test holds. -/
def completionEffect (old new : State) : State :=
  if new.fallenPlates.card ≠ old.fallenPlates.card ∨ new.currentBeat ≠ old.currentBeat then
    { new with finalTimer := completionTest new }
  else new

/-- The events of a mounted `Chapter3`. -/
inductive Event where
  | click | continueClick | hintTimeout | finalTimeout | pulseTimeout
  deriving DecidableEq, Repr

/-- One event. The page `<div>` has `onClick={!allDone ? handleClick : undefined}`. -/
def step (s : State) : Event → State
  | .click => if allDone s then s else completionEffect s (handleClick s)
  | .continueClick => s
  | .hintTimeout => if s.hintTimer then { s with showHint := true, hintTimer := false } else s
  | .finalTimeout =>
      if s.finalTimer then { s with showFinalMessage := true, finalTimer := false } else s
  | .pulseTimeout =>
      if 0 < s.pulseTimers then { s with isPulsing := false, pulseTimers := s.pulseTimers - 1 }
      else s

/-- Whether the event invokes the `onComplete` prop: the button is inside the
`showFinalMessage` block. -/
def completes (s : State) : Event → Bool
  | .continueClick => s.showFinalMessage
  | _ => false

/-- The state of `Chapter3` after a sequence of events. -/
def run (s : State) (es : List Event) : State := es.foldl step s

/-- Unmounting: the cleanups of the two effects clear the hint timer and the
final-message timer. The pulse-reset timers are set by `handleClick`, outside any
effect, and nothing clears them. -/
def unmount (s : State) : State := { s with hintTimer := false, finalTimer := false }

/-- The number of timers of the component that are still to fire. -/
def pendingTimers (s : State) : Nat :=
  s.hintTimer.toNat + s.finalTimer.toNat + s.pulseTimers

/-- The invariant of `Chapter3`: the fallen plates are those numbered below the
current beat, which is at most 6, and the final-message timer is armed, or the
message shown, only at beat 6. -/
def Invariant (s : State) : Prop :=
  s.fallenPlates = Finset.range s.currentBeat ∧
  s.currentBeat ≤ HEARTBEATS.length ∧
  (s.finalTimer = true → s.currentBeat = HEARTBEATS.length) ∧
  (s.showFinalMessage = true → s.currentBeat = HEARTBEATS.length)

/-- `armorRemaining`: `1 - fallenPlates.size / ARMOR_PLATES.length`, the quotient
first, each operation in double arithmetic. -/
def armorRemaining (s : State) : ℚ :=
  Double.sub 1 (Double.div (s.fallenPlates.card : ℚ) (ARMOR_PLATES.length : ℚ))

/-- The timers `Chapter3` sets: the hint timer of the mount effect, the
final-message timer of the completion effect, a pulse-reset timer of
`handleClick`. -/
inductive Timer where
  | hint | final | pulse
  deriving DecidableEq, Repr

/-- The delay of a timer in milliseconds: the second argument of its
`setTimeout`. -/
def Timer.delay : Timer → Nat
  | .hint => 3000
  | .final => 2000
  | .pulse => 600

/-- A mounted `Chapter3` with its pending timers in the order in which they were
set, the oldest first. -/
structure Scheduled where
  state : State
  queue : List Timer
  deriving DecidableEq

/-- After mounting: the mount effect has set the hint timer; the test of the
completion effect fails. -/
def Scheduled.init : Scheduled := { state := Chapter3.init, queue := [.hint] }

/-- Whether the browser can run a pending timer of the kind `k` now, the one set
first if there are several. A timer is due `delay` milliseconds after it was set
and the browser runs the timers in the order in which they fall due, so a timer
waits for every timer that was set before it with a delay no longer than its
own. (A timer set before it with a longer delay may fall due before or after it:
both orders are allowed.) -/
def mayFire (queue : List Timer) (k : Timer) : Bool :=
  decide (k ∈ queue) && (queue.takeWhile (fun u => u ≠ k)).all (fun u => k.delay < u.delay)

/-- The pending timers after the render from `old` to `new`: when a dependency of
the completion effect changed, its cleanup clears the timer of its previous run
(if that timer is still pending) and the effect sets a new one if the test
holds. -/
def effectQueue (old new : State) (queue : List Timer) : List Timer :=
  if new.fallenPlates.card ≠ old.fallenPlates.card ∨ new.currentBeat ≠ old.currentBeat then
    queue.erase .final ++ (if completionTest new then [.final] else [])
  else queue

/-- The timer of kind `k` fires, if the browser can run it now: its callback is
the event `e` of the component. -/
def Scheduled.fire (t : Scheduled) (k : Timer) (e : Event) : Scheduled :=
  if mayFire t.queue k then { state := Chapter3.step t.state e, queue := t.queue.erase k }
  else t

/-- One event of a mounted `Chapter3` with its timers. A click that is handled
sets a pulse-reset timer, then the component renders and its effects run. -/
def Scheduled.step (t : Scheduled) : Event → Scheduled
  | .click =>
      if allDone t.state then t
      else
        { state := Chapter3.step t.state .click
          queue := effectQueue t.state (handleClick t.state) (t.queue ++ [.pulse]) }
  | .continueClick => t
  | .hintTimeout => t.fire .hint .hintTimeout
  | .finalTimeout => t.fire .final .finalTimeout
  | .pulseTimeout => t.fire .pulse .pulseTimeout

/-- The component and its timers after a sequence of events. -/
def Scheduled.run (t : Scheduled) (es : List Event) : Scheduled := es.foldl Scheduled.step t

/-- Unmounting with the timers: the cleanup of the mount effect clears the hint
timer and the cleanup of the completion effect clears the final-message timer;
no cleanup clears a pulse-reset timer. -/
def Scheduled.unmount (t : Scheduled) : Scheduled :=
  { state := Chapter3.unmount t.state, queue := (t.queue.erase .hint).erase .final }

/-- What the queue of timers and the state have in common, and the order in the
queue: no pulse-reset timer was set after the final-message timer. -/
def Scheduled.Invariant (t : Scheduled) : Prop :=
  Chapter3.Invariant t.state ∧
  t.queue.count .pulse = t.state.pulseTimers ∧
  t.queue.count .hint = t.state.hintTimer.toNat ∧
  t.queue.count .final = t.state.finalTimer.toNat ∧
  t.queue.Pairwise (fun a b => ¬ (a = .final ∧ b = .pulse)) ∧
  (t.state.showFinalMessage = true → t.state.pulseTimers = 0)

end Chapter3

namespace Chapter4

/-- An entry of `SCENES`. -/
structure Scene where
  id : Nat
  text : String
  subtext : String
  hasSilhouette : Bool
  isHer : Bool
  silhouetteCount : Option Nat
  deriving DecidableEq, Repr

/-- The table `SCENES`. -/
def SCENES : List Scene :=
  [ { id := 1, text := "Après toi, j'ai marché longtemps.",
      subtext := "Dans un désert que je ne savais même pas nommer.",
      hasSilhouette := false, isHer := false, silhouetteCount := none },
    { id := 2, text := "Des visages sont venus. Des sourires. Des mains tendues.",
      subtext := "J'ai essayé. Sincèrement. De leur donner ce qu'ils méritaient.",
      hasSilhouette := true, isHer := false, silhouetteCount := some 3 },
    { id := 3, text := "Mais chaque fois que je murmurais le mot \"amour\"...",
      subtext := "Il sonnait creux. Comme un écho dans une cathédrale vide.",
      hasSilhouette := true, isHer := false, silhouetteCount := some 2 },
    { id := 4, text := "Les visages se dissolvaient comme aquarelles sous la pluie.",
      subtext := "Ce n'était pas leur faute. C'est mon cœur qui refusait de les peindre.",
      hasSilhouette := true, isHer := false, silhouetteCount := some 4 },
    { id := 5, text := "J'ai banalisé ce qui était sacré.",
      subtext := "Le mot \"amour\" est devenu une coquille sans âme. Un son vide que je prononçais par habitude, sans jamais le ressentir.",
      hasSilhouette := false, isHer := false, silhouetteCount := none },
    { id := 6, text := "Parce que mon cœur ne languit que pour une seule personne.",
      subtext := "Et cette personne, c'est toi.",
      hasSilhouette := true, isHer := true, silhouetteCount := none },
    { id := 7, text := "Mais je ne te veux plus. Plus comme avant.",
      subtext := "Je veux juste que tu existes dans ma vie. Comme une amie. Comme une lumière lointaine qui me rappelle que la beauté existe encore.",
      hasSilhouette := false, isHer := false, silhouetteCount := none } ]

/-- The state of `Chapter4`: its three `useState` cells and the pending timers. -/
structure State where
  currentScene : Nat
  showFinalMessage : Bool
  showHint : Bool
  hintTimer : Bool
  finalTimer : Bool
  deriving DecidableEq, Repr

/-- The state after mounting. -/
def init : State :=
  { currentScene := 0, showFinalMessage := false, showHint := false,
    hintTimer := true, finalTimer := false }

/-- `handleClick`. -/
def handleClick (s : State) : State :=
  if s.currentScene < SCENES.length then
    { s with currentScene := s.currentScene + 1, showHint := false }
  else s

/-- `allDone`. -/
def allDone (s : State) : Bool := decide (s.currentScene ≥ SCENES.length)

/-- The completion effect, with dependency `[currentScene]`. -/
def completionEffect (old new : State) : State :=
  if new.currentScene ≠ old.currentScene then
    { new with finalTimer := decide (new.currentScene ≥ SCENES.length) }
  else new

/-- The events of a mounted `Chapter4`. -/
inductive Event where
  | click | continueClick | hintTimeout | finalTimeout
  deriving DecidableEq, Repr

/-- One event. The page `<div>` has `onClick={!allDone ? handleClick : undefined}`. -/
def step (s : State) : Event → State
  | .click => if allDone s then s else completionEffect s (handleClick s)
  | .continueClick => s
  | .hintTimeout => if s.hintTimer then { s with showHint := true, hintTimer := false } else s
  | .finalTimeout =>
      if s.finalTimer then { s with showFinalMessage := true, finalTimer := false } else s

/-- Whether the event invokes the `onComplete` prop. -/
def completes (s : State) : Event → Bool
  | .continueClick => s.showFinalMessage
  | _ => false

/-- The state of `Chapter4` after a sequence of events. -/
def run (s : State) (es : List Event) : State := es.foldl step s

/-- Unmounting: the cleanups of the two effects clear the hint timer and the
final-message timer. -/
def unmount (s : State) : State := { s with hintTimer := false, finalTimer := false }

/-- The number of timers of the component that are still to fire. -/
def pendingTimers (s : State) : Nat := s.hintTimer.toNat + s.finalTimer.toNat

/-- The invariant of `Chapter4`: the scene counter is at most 7, and the
final-message timer is armed, or the message shown, only at 7. -/
def Invariant (s : State) : Prop :=
  s.currentScene ≤ SCENES.length ∧
  (s.finalTimer = true → s.currentScene = SCENES.length) ∧
  (s.showFinalMessage = true → s.currentScene = SCENES.length)

end Chapter4

namespace Chapter2

/-- An entry of `ICE_BLOCKS`. -/
structure IceBlock where
  id : Nat
  flower : String
  text : String
  deriving DecidableEq, Repr

/-- The table `ICE_BLOCKS`. -/
def ICE_BLOCKS : List IceBlock :=
  [ { id := 1, flower := "🌹", text := "Ce que tu prends pour du gel est une armure de survie." },
    { id := 2, flower := "🌸", text := "Chaque silence portait ton nom comme une prière muette." },
    { id := 3, flower := "🌺", text := "Je n'ai pas gelé. J'ai préservé. Chaque souvenir, intact." },
    { id := 4, flower := "🌷", text := "La froideur n'était qu'un voile. Dessous, chaque émotion brûle encore." },
    { id := 5, flower := "🌻", text := "Sous la glace la plus épaisse, un jardin entier t'attendait." } ]

/-- The ids of the blocks that are rendered. -/
def blockIds : List Nat := ICE_BLOCKS.map (·.id)

/-- The state of `Chapter2`: its three `useState` cells and the pending
final-message timer. `showIntro` is never set by the component. -/
structure State where
  brokenIds : Finset Nat
  showFinalMessage : Bool
  showIntro : Bool
  finalTimer : Bool
  deriving DecidableEq

/-- The state after mounting. -/
def init : State :=
  { brokenIds := ∅, showFinalMessage := false, showIntro := true, finalTimer := false }

/-- `breakIce`. -/
def breakIce (id : Nat) (s : State) : State :=
  { s with brokenIds := insert id s.brokenIds }

/-- The test of the completion effect: `brokenIds.size === ICE_BLOCKS.length`. -/
def completionTest (s : State) : Bool := decide (s.brokenIds.card = ICE_BLOCKS.length)

/-- The completion effect, with dependency `[brokenIds.size]`. -/
def completionEffect (old new : State) : State :=
  if new.brokenIds.card ≠ old.brokenIds.card then
    { new with finalTimer := completionTest new }
  else new

/-- The events of a mounted `Chapter2`: a click on the block with the given id, a
click on the continue button, the final-message timer firing. -/
inductive Event where
  | iceClick (id : Nat) | continueClick | finalTimeout
  deriving DecidableEq, Repr

/-- The `onClick` of `IceBlock`: `if (!isBroken) onBreak(data.id)`, with
`isBroken = brokenIds.has(block.id)` and `onBreak = breakIce`. -/
def iceBlockClick (id : Nat) (s : State) : State :=
  if id ∉ s.brokenIds then breakIce id s else s

/-- One event. Only the blocks of `ICE_BLOCKS` are rendered. -/
def step (s : State) : Event → State
  | .iceClick id => if id ∈ blockIds then completionEffect s (iceBlockClick id s) else s
  | .continueClick => s
  | .finalTimeout =>
      if s.finalTimer then { s with showFinalMessage := true, finalTimer := false } else s

/-- Whether the event invokes the `onComplete` prop. -/
def completes (s : State) : Event → Bool
  | .continueClick => s.showFinalMessage
  | _ => false

/-- The state of `Chapter2` after a sequence of events. -/
def run (s : State) (es : List Event) : State := es.foldl step s

/-- Unmounting: the cleanup of the completion effect clears the final-message
timer. -/
def unmount (s : State) : State := { s with finalTimer := false }

/-- The number of timers of the component that are still to fire. -/
def pendingTimers (s : State) : Nat := s.finalTimer.toNat

/-- The invariant of `Chapter2`: only blocks of the table are broken, and the
final-message timer is armed, or the message shown, only with all blocks broken. -/
def Invariant (s : State) : Prop :=
  s.brokenIds ⊆ blockIds.toFinset ∧
  (s.finalTimer = true → s.brokenIds.card = ICE_BLOCKS.length) ∧
  (s.showFinalMessage = true → s.brokenIds.card = ICE_BLOCKS.length)

end Chapter2

namespace Chapter5

/-- An entry of `STARS`. -/
structure StarData where
  id : Nat
  x : Nat
  y : Nat
  size : Nat
  text : String
  connectsTo : List Nat
  deriving DecidableEq, Repr

/-- The table `STARS`. -/
def STARS : List StarData :=
  [ { id := 1, x := 25, y := 20, size := 6, connectsTo := [2],
      text := "Le premier regard. Celui qui a tout déclenché." },
    { id := 2, x := 40, y := 15, size := 5, connectsTo := [3],
      text := "Ces rires qu'on ne peut pas inventer. Purs. Absolus." },
    { id := 3, x := 55, y := 25, size := 7, connectsTo := [4],
      text := "Le jour où j'ai su que mon cœur ne m'appartenait plus." },
    { id := 4, x := 70, y := 18, size := 5, connectsTo := [5],
      text := "Les silences partagés, plus éloquents que mille discours." },
    { id := 5, x := 80, y := 35, size := 6, connectsTo := [6],
      text := "Cette promesse muette : \"Je serai là. Toujours.\"" },
    { id := 6, x := 65, y := 45, size := 8, connectsTo := [7],
      text := "Ton âme. Cette lumière rare que le monde essaie d'apprivoiser." },
    { id := 7, x := 45, y := 42, size := 5, connectsTo := [8],
      text := "Les rêves qu'on a tissés ensemble, fil à fil, étoile à étoile." },
    { id := 8, x := 30, y := 48, size := 7, connectsTo := [1],
      text := "Et cette dernière nuit. Celle où tout a basculé dans le silence." } ]

/-- The ids of the stars that are rendered. -/
def starIds : List Nat := STARS.map (·.id)

/-- The state of `Chapter5`: its four `useState` cells and the pending timers. -/
structure State where
  activeStars : Finset Nat
  currentText : String
  showFinalMessage : Bool
  showHint : Bool
  hintTimer : Bool
  finalTimer : Bool
  deriving DecidableEq

/-- The state after mounting. -/
def init : State :=
  { activeStars := ∅, currentText := "", showFinalMessage := false, showHint := false,
    hintTimer := true, finalTimer := false }

/-- `activateStar`: `STARS.find((s) => s.id === id)`, the early return when no
star has that id, then the three state updates. -/
def activateStar (id : Nat) (s : State) : State :=
  match STARS.find? (fun star => star.id == id) with
  | none => s
  | some star =>
      { s with
        activeStars := insert id s.activeStars
        currentText := star.text
        showHint := false }

/-- The test of the completion effect: `activeStars.size === STARS.length`. -/
def completionTest (s : State) : Bool := decide (s.activeStars.card = STARS.length)

/-- The completion effect, with dependency `[activeStars.size]`. -/
def completionEffect (old new : State) : State :=
  if new.activeStars.card ≠ old.activeStars.card then
    { new with finalTimer := completionTest new }
  else new

/-- The events of a mounted `Chapter5`: the two handlers of `Star` (`onClick` and
`onMouseEnter`, both calling `onActivate(star.id)`), the continue button, the
timers. -/
inductive Event where
  | starClick (id : Nat) | starMouseEnter (id : Nat)
  | continueClick | hintTimeout | finalTimeout
  deriving DecidableEq, Repr

/-- One event. Only the stars of `STARS` are rendered. -/
def step (s : State) : Event → State
  | .starClick id => if id ∈ starIds then completionEffect s (activateStar id s) else s
  | .starMouseEnter id => if id ∈ starIds then completionEffect s (activateStar id s) else s
  | .continueClick => s
  | .hintTimeout => if s.hintTimer then { s with showHint := true, hintTimer := false } else s
  | .finalTimeout =>
      if s.finalTimer then { s with showFinalMessage := true, finalTimer := false } else s

/-- Whether the event invokes the `onComplete` prop. -/
def completes (s : State) : Event → Bool
  | .continueClick => s.showFinalMessage
  | _ => false

/-- The state of `Chapter5` after a sequence of events. -/
def run (s : State) (es : List Event) : State := es.foldl step s

/-- Unmounting: the cleanups of the two effects clear the hint timer and the
final-message timer. -/
def unmount (s : State) : State := { s with hintTimer := false, finalTimer := false }

/-- The number of timers of the component that are still to fire. -/
def pendingTimers (s : State) : Nat := s.hintTimer.toNat + s.finalTimer.toNat

/-- An entry of the array `lines` of `ConstellationLines`. -/
structure Line where
  key : String
  x1 : Nat
  y1 : Nat
  x2 : Nat
  y2 : Nat
  deriving DecidableEq, Repr

/-- The order of JavaScript strings: code unit by code unit, a proper prefix
coming first. -/
def stringLt : List Char → List Char → Bool
  | _, [] => false
  | [], _ :: _ => true
  | a :: as, b :: bs =>
      if a.toNat < b.toNat then true
      else if b.toNat < a.toNat then false
      else stringLt as bs

/-- `[a, b].sort()`: without a comparison function `Array.prototype.sort` orders
the elements by their conversions to strings. -/
def sortPair (a b : Nat) : List Nat :=
  if stringLt (toString b).data (toString a).data then [b, a] else [a, b]

/-- `[star.id, targetId].sort().join("-")`. -/
def lineKey (a b : Nat) : String :=
  "-".intercalate ((sortPair a b).map toString)

/-- The callback of `star.connectsTo.forEach`: one target of one active star. -/
def addLine (stars : List StarData) (activeIds : Finset Nat) (star : StarData)
    (lines : List Line) (targetId : Nat) : List Line :=
  if targetId ∈ activeIds then
    match stars.find? (fun s => s.id == targetId) with
    | some target =>
        if (lines.find? (fun l => l.key == lineKey star.id targetId)).isNone then
          lines ++ [{ key := lineKey star.id targetId,
                      x1 := star.x, y1 := star.y, x2 := target.x, y2 := target.y }]
        else lines
    | none => lines
  else lines

/-- The callback of `stars.forEach`: one star of the table. -/
def addStar (stars : List StarData) (activeIds : Finset Nat) (lines : List Line)
    (star : StarData) : List Line :=
  if star.id ∈ activeIds then star.connectsTo.foldl (addLine stars activeIds star) lines
  else lines

/-- `ConstellationLines`: the array `lines` it computes from its props. -/
def ConstellationLines (stars : List StarData) (activeIds : Finset Nat) : List Line :=
  stars.foldl (addStar stars activeIds) []

/-- The invariant of `Chapter5`: only stars of the table are active, and the
final-message timer is armed, or the message shown, only with all stars active. -/
def Invariant (s : State) : Prop :=
  s.activeStars ⊆ starIds.toFinset ∧
  (s.finalTimer = true → s.activeStars.card = STARS.length) ∧
  (s.showFinalMessage = true → s.activeStars.card = STARS.length)

/-- What an entry of `lines` comes from: an active star of the table and one of
its targets, active too and found in the table. -/
def LineOf (stars : List StarData) (activeIds : Finset Nat) (line : Line) : Prop :=
  ∃ star ∈ stars, star.id ∈ activeIds ∧ ∃ targetId ∈ star.connectsTo, targetId ∈ activeIds ∧
    ∃ target : StarData, stars.find? (fun s => s.id == targetId) = some target ∧
      line = { key := lineKey star.id targetId,
               x1 := star.x, y1 := star.y, x2 := target.x, y2 := target.y }

end Chapter5

namespace Chapter6

/-- An entry of `SHADOWS`. -/
structure ShadowData where
  id : Nat
  whisper : String
  truth : String
  angle : Nat
  distance : Nat
  deriving DecidableEq, Repr

/-- The table `SHADOWS`. -/
def SHADOWS : List ShadowData :=
  [ { id := 1, angle := 30, distance := 85,
      whisper := "« Tu mérites mieux que quelqu'un qui se tait... »",
      truth := "Personne ne connaît la valeur de notre silence mieux que nous." },
    { id := 2, angle := 90, distance := 90,
      whisper := "« Oublie-le, il ne changera jamais... »",
      truth := "Je n'ai pas besoin de changer. J'ai besoin qu'on comprenne que ma profondeur n'est pas un défaut." },
    { id := 3, angle := 150, distance := 85,
      whisper := "« Il est trop compliqué, trop distant... »",
      truth := "La complexité n'est pas un mur. C'est un labyrinthe avec un jardin au centre." },
    { id := 4, angle := 210, distance := 88,
      whisper := "« Le bonheur, c'est la simplicité... »",
      truth := "Le bonheur n'est ni simple ni compliqué. Il est authentique. Ou il n'est rien." },
    { id := 5, angle := 270, distance := 82,
      whisper := "« Tu perds ton temps avec le passé... »",
      truth := "Ce n'est pas le passé que je protège. C'est la personne que tu es quand personne ne te regarde." },
    { id := 6, angle := 330, distance := 86,
      whisper := "« Sois comme tout le monde, c'est plus sûr... »",
      truth := "Ne laisse personne éteindre ce qui fait de toi... toi. Ta singularité est ton plus beau trésor." } ]

/-- The ids of the shadows that are rendered. -/
def shadowIds : List Nat := SHADOWS.map (·.id)

/-- The state of `Chapter6`: its five `useState` cells and the pending timers. -/
structure State where
  repelledIds : Finset Nat
  currentTruth : String
  showFinalMessage : Bool
  showHint : Bool
  containerSize : Nat
  hintTimer : Bool
  finalTimer : Bool
  deriving DecidableEq

/-- The state after the first render; the `updateSize()` call of the mount
effect is the first `resize` event. -/
def init : State :=
  { repelledIds := ∅, currentTruth := "", showFinalMessage := false, showHint := false,
    containerSize := 350, hintTimer := true, finalTimer := false }

/-- `repelShadow`: `SHADOWS.find((s) => s.id === id)`, the early return when no
shadow has that id, then the three state updates. -/
def repelShadow (id : Nat) (s : State) : State :=
  match SHADOWS.find? (fun shadow => shadow.id == id) with
  | none => s
  | some shadow =>
      { s with
        repelledIds := insert id s.repelledIds
        currentTruth := shadow.truth
        showHint := false }

/-- `updateSize`, for a window of the given inner width. -/
def updateSize (innerWidth : Nat) (s : State) : State :=
  if innerWidth < 480 then { s with containerSize := 280 }
  else if innerWidth < 768 then { s with containerSize := 340 }
  else { s with containerSize := 420 }

/-- `lightIntensity`: `repelledIds.size / SHADOWS.length`, in double arithmetic. -/
def lightIntensity (s : State) : ℚ :=
  Double.div (s.repelledIds.card : ℚ) (SHADOWS.length : ℚ)

/-- `allDone`. -/
def allDone (s : State) : Bool := decide (s.repelledIds.card = SHADOWS.length)

/-- The completion effect, with dependency `[repelledIds.size]`. -/
def completionEffect (old new : State) : State :=
  if new.repelledIds.card ≠ old.repelledIds.card then
    { new with finalTimer := allDone new }
  else new

/-- The events of a mounted `Chapter6`. A `Shadow` leaves the page through an
exit animation, during which its `onClick` is still attached, so a click on a
shadow is not restricted to the shadows that are not yet repelled. -/
inductive Event where
  | shadowClick (id : Nat) | resize (innerWidth : Nat)
  | continueClick | hintTimeout | finalTimeout
  deriving DecidableEq, Repr

/-- One event. Only the shadows of `SHADOWS` are rendered. -/
def step (s : State) : Event → State
  | .shadowClick id => if id ∈ shadowIds then completionEffect s (repelShadow id s) else s
  | .resize innerWidth => updateSize innerWidth s
  | .continueClick => s
  | .hintTimeout => if s.hintTimer then { s with showHint := true, hintTimer := false } else s
  | .finalTimeout =>
      if s.finalTimer then { s with showFinalMessage := true, finalTimer := false } else s

/-- Whether the event invokes the `onComplete` prop. -/
def completes (s : State) : Event → Bool
  | .continueClick => s.showFinalMessage
  | _ => false

/-- The state of `Chapter6` after a sequence of events. -/
def run (s : State) (es : List Event) : State := es.foldl step s

/-- Unmounting: the cleanups of the effects remove the resize listener and clear
the hint timer and the final-message timer. -/
def unmount (s : State) : State := { s with hintTimer := false, finalTimer := false }

/-- The number of timers of the component that are still to fire. -/
def pendingTimers (s : State) : Nat := s.hintTimer.toNat + s.finalTimer.toNat

/-- The invariant of `Chapter6`: only shadows of the table are repelled, and the
final-message timer is armed, or the message shown, only with all shadows
repelled. -/
def Invariant (s : State) : Prop :=
  s.repelledIds ⊆ shadowIds.toFinset ∧
  (s.finalTimer = true → s.repelledIds.card = SHADOWS.length) ∧
  (s.showFinalMessage = true → s.repelledIds.card = SHADOWS.length)

end Chapter6

namespace TypewriterText

/-- The state of a `TypewriterText` instance: the `useState` cell
`displayedCount`, the ref `completedRef.current`, and the pending tick timer. -/
structure State where
  displayedCount : Nat
  completed : Bool
  timer : Bool
  deriving DecidableEq, Repr

/-- The body of the tick effect, run after a render in which one of its
dependencies changed (the timer of the previous run is then cleared or has
fired). The boolean of the result tells whether `onComplete` was called. -/
def tickEffect (text : String) (hasOnComplete : Bool) (s : State) : State × Bool :=
  if s.displayedCount < text.length then ({ s with timer := true }, false)
  else if !s.completed && hasOnComplete then ({ s with completed := true, timer := false }, true)
  else ({ s with timer := false }, false)

/-- Mounting: `useState(0)`, `useRef(false)`, then the reset effect and the tick
effect. -/
def mount (text : String) (hasOnComplete : Bool) : State × Bool :=
  tickEffect text hasOnComplete { displayedCount := 0, completed := false, timer := false }

/-- The tick timer fires: `setDisplayedCount((prev) => prev + 1)`, then the tick
effect of the next render. -/
def tick (text : String) (hasOnComplete : Bool) (s : State) : State × Bool :=
  if s.timer then
    tickEffect text hasOnComplete { s with displayedCount := s.displayedCount + 1, timer := false }
  else (s, false)

/-- The displayed string: `text.slice(0, displayedCount)`. -/
def displayed (text : String) (s : State) : String :=
  String.mk (text.data.take s.displayedCount)

/-- The events of a mounted `TypewriterText` whose `text` does not change: the
tick timer fires, or the parent renders again. -/
inductive Event where
  | tick | parentRender
  deriving DecidableEq, Repr

/-- One event. When the parent renders again with a new `onComplete` function
(an inline arrow function is a new one at each render), the tick effect runs
again: its cleanup clears the pending timer and its body is evaluated anew. -/
def step (text : String) (hasOnComplete : Bool) (s : State) : Event → State × Bool
  | .tick => tick text hasOnComplete s
  | .parentRender => tickEffect text hasOnComplete { s with timer := false }

/-- The state of an instance after a sequence of events. -/
def run (text : String) (hasOnComplete : Bool) (s : State) (es : List Event) : State :=
  es.foldl (fun s e => (step text hasOnComplete s e).1) s

/-- The calls of `onComplete` made along a sequence of events: for each call, the
value of `displayedCount` at the call. -/
def calls (text : String) (hasOnComplete : Bool) : State → List Event → List Nat
  | _, [] => []
  | s, e :: es =>
      (if (step text hasOnComplete s e).2 then [(step text hasOnComplete s e).1.displayedCount]
       else []) ++
      calls text hasOnComplete (step text hasOnComplete s e).1 es

/-- The calls of `onComplete` made by an instance over its life: the call of the
mount, if any, and then those of the events. -/
def lifeCalls (text : String) (hasOnComplete : Bool) (es : List Event) : List Nat :=
  (if (mount text hasOnComplete).2 then [(mount text hasOnComplete).1.displayedCount] else []) ++
  calls text hasOnComplete (mount text hasOnComplete).1 es

/-- Unmounting: the cleanup of the tick effect clears the pending timer. -/
def unmount (s : State) : State := { s with timer := false }

/-- The number of timers of the instance that are still to fire. -/
def pendingTimers (s : State) : Nat := s.timer.toNat

/-- The invariant of an instance showing `text`: the count is within the text, the
timer is pending exactly while the text is incomplete, and the ref records
whether the end was reached with an `onComplete` to call. -/
def Invariant (text : String) (hasOnComplete : Bool) (s : State) : Prop :=
  s.displayedCount ≤ text.length ∧
  s.timer = decide (s.displayedCount < text.length) ∧
  (s.completed = true → s.displayedCount = text.length) ∧
  (hasOnComplete = true → s.displayedCount = text.length → s.completed = true)

end TypewriterText

namespace Chapter7

/-- An entry of `PASSAGES`. -/
structure Passage where
  id : Nat
  text : String
  skyProgress : ℚ
  deriving DecidableEq

/-- The table `PASSAGES`. -/
def PASSAGES : List Passage :=
  [ { id := 1, text := "La nuit a été longue.", skyProgress := 5 / 100 },
    { id := 2, text := "Plus longue que toutes les nuits que j'ai connues.",
      skyProgress := 12 / 100 },
    { id := 3, text := "Mais même la nuit la plus sombre finit par céder.",
      skyProgress := 22 / 100 },
    { id := 4, text := "Je ne peux plus t'aimer comme je t'aimais.", skyProgress := 32 / 100 },
    { id := 5, text := "Mais je ne peux pas non plus t'oublier.", skyProgress := 42 / 100 },
    { id := 6, text := "Alors je choisis ceci...", skyProgress := 52 / 100 },
    { id := 7, text := "Être ce jardin où tu peux revenir, juste pour respirer.",
      skyProgress := 62 / 100 },
    { id := 8, text := "Pas comme amants. Comme âmes qui se reconnaissent.",
      skyProgress := 72 / 100 },
    { id := 9, text := "Où que tu ailles, qui que tu choisisses...", skyProgress := 82 / 100 },
    { id := 10, text := "Une part de moi veillera toujours sur ton bonheur.",
      skyProgress := 92 / 100 } ]

/-- The state of `Chapter7`: its five `useState` cells, the pending timers, and
the state of the `TypewriterText` child when one is mounted. -/
structure State where
  currentPassage : Nat
  typingComplete : Bool
  showFinalMessage : Bool
  showEnding : Bool
  showHint : Bool
  hintTimer : Bool
  finalTimer : Bool
  typewriter : Option TypewriterText.State
  deriving DecidableEq

/-- The state after mounting: `currentData` is `null`, so no `TypewriterText`. -/
def init : State :=
  { currentPassage := 0, typingComplete := true, showFinalMessage := false,
    showEnding := false, showHint := false, hintTimer := true, finalTimer := false,
    typewriter := none }

/-- `handleClick`. -/
def handleClick (s : State) : State :=
  if !s.typingComplete then s
  else if s.currentPassage > PASSAGES.length then s
  else
    { s with
      currentPassage := s.currentPassage + 1
      typingComplete := false
      showHint := false }

/-- `allDone`. -/
def allDone (s : State) : Bool := decide (s.currentPassage > PASSAGES.length)

/-- `currentData`. -/
def currentData (s : State) : Option Passage :=
  if 0 < s.currentPassage ∧ s.currentPassage ≤ PASSAGES.length then
    PASSAGES.get? (s.currentPassage - 1)
  else none

/-- `skyProgress`. -/
def skyProgress (s : State) : ℚ :=
  if 0 < s.currentPassage ∧ s.currentPassage ≤ PASSAGES.length then
    ((PASSAGES.get? (s.currentPassage - 1)).map (·.skyProgress)).getD 0
  else if s.currentPassage > PASSAGES.length then 1
  else 0

/-- The render after `currentPassage` changed from `old` to `new`: the completion
effect (dependency `[currentPassage]`) runs again, and the `TypewriterText`, keyed
by `currentPassage`, is replaced by a fresh one for the new `currentData` (its
`onComplete` is `() => setTypingComplete(true)`). -/
def rerender (old new : State) : State :=
  if new.currentPassage ≠ old.currentPassage then
    let new1 := { new with finalTimer := decide (new.currentPassage > PASSAGES.length) }
    match currentData new1 with
    | none => { new1 with typewriter := none }
    | some passage =>
        let r := TypewriterText.mount passage.text true
        { new1 with typewriter := some r.1, typingComplete := new1.typingComplete || r.2 }
  else new

/-- The events of a mounted `Chapter7`: a click on the page, the tick of the
typewriter, a click on the final button, the timers. -/
inductive Event where
  | click | typewriterTick | endingClick | hintTimeout | finalTimeout
  deriving DecidableEq, Repr

/-- One event. The page `<div>` has `onClick={!allDone ? handleClick : undefined}`;
the final button, rendered when `showFinalMessage && !showEnding`, calls
`setShowEnding(true)`. -/
def step (s : State) : Event → State
  | .click => if allDone s then s else rerender s (handleClick s)
  | .typewriterTick =>
      match s.typewriter, currentData s with
      | some t, some passage =>
          let r := TypewriterText.tick passage.text true t
          { s with typewriter := some r.1, typingComplete := s.typingComplete || r.2 }
      | _, _ => s
  | .endingClick => if s.showFinalMessage && !s.showEnding then { s with showEnding := true } else s
  | .hintTimeout => if s.hintTimer then { s with showHint := true, hintTimer := false } else s
  | .finalTimeout =>
      if s.finalTimer then { s with showFinalMessage := true, finalTimer := false } else s

/-- The state of `Chapter7` after a sequence of events. -/
def run (s : State) (es : List Event) : State := es.foldl step s

/-- Reading the whole chapter: for each passage a click and then one tick per
character of its text, and a last click after the tenth passage. -/
def readAll : List Event :=
  (PASSAGES.map
    (fun p => Event.click :: List.replicate p.text.length Event.typewriterTick)).flatten ++
  [Event.click]

/-- Unmounting: the cleanups of the two effects clear the hint timer and the
final-message timer, and the `TypewriterText` child is unmounted with it. -/
def unmount (s : State) : State :=
  { s with hintTimer := false, finalTimer := false,
           typewriter := s.typewriter.map TypewriterText.unmount }

/-- The number of timers of the component and of its child that are still to
fire. -/
def pendingTimers (s : State) : Nat :=
  s.hintTimer.toNat + s.finalTimer.toNat +
    (s.typewriter.map TypewriterText.pendingTimers).getD 0

/-- The invariant of `Chapter7`: the passage counter is at most 11, and the
final-message timer is armed, or the message shown, exactly at 11. -/
def Invariant (s : State) : Prop :=
  s.currentPassage ≤ PASSAGES.length + 1 ∧
  ((s.finalTimer = true ∨ s.showFinalMessage = true) ↔
    s.currentPassage = PASSAGES.length + 1)

/-- The value of `skyProgress` in a state whose `currentPassage` is the given
number. -/
def skyProgressAt (currentPassage : Nat) : ℚ :=
  skyProgress { init with currentPassage := currentPassage }

end Chapter7

namespace Site

/-- The child that `App` has mounted, with its local state. The placeholder
`<div>` has no state and no event handler. -/
inductive Mounted where
  | chapter1 (c : Chapter1.State)
  | chapter2 (c : Chapter2.State)
  | chapter3 (c : Chapter3.State)
  | chapter4 (c : Chapter4.State)
  | chapter5 (c : Chapter5.State)
  | chapter6 (c : Chapter6.State)
  | chapter7 (c : Chapter7.State)
  | placeholder
  deriving DecidableEq

/-- The component a mounted child is an instance of. -/
def Mounted.component : Mounted → App.Component
  | .chapter1 _ => .Chapter1
  | .chapter2 _ => .Chapter2
  | .chapter3 _ => .Chapter3
  | .chapter4 _ => .Chapter4
  | .chapter5 _ => .Chapter5
  | .chapter6 _ => .Chapter6
  | .chapter7 _ => .Chapter7
  | .placeholder => .Placeholder

/-- Mounting a component: a fresh instance in its initial state. -/
def mount : App.Component → Mounted
  | .Chapter1 => .chapter1 Chapter1.init
  | .Chapter2 => .chapter2 Chapter2.init
  | .Chapter3 => .chapter3 Chapter3.init
  | .Chapter4 => .chapter4 Chapter4.init
  | .Chapter5 => .chapter5 Chapter5.init
  | .Chapter6 => .chapter6 Chapter6.init
  | .Chapter7 => .chapter7 Chapter7.init
  | .Placeholder => .placeholder

/-- The whole application: the state of `App`, the child it has mounted, and the
scroll requests issued so far (one per call of `goToNextChapter`). -/
structure State where
  app : App.State
  child : Mounted
  scrolls : List App.ScrollToOptions
  deriving DecidableEq

/-- The first render of `<App />`. -/
def init : State :=
  { app := App.init
    child := mount (App.renderChapter App.init.currentChapter).component
    scrolls := [] }

/-- An event of the application: an event of one of the chapter components. -/
inductive Event where
  | chapter1 (e : Chapter1.Event)
  | chapter2 (e : Chapter2.Event)
  | chapter3 (e : Chapter3.Event)
  | chapter4 (e : Chapter4.Event)
  | chapter5 (e : Chapter5.Event)
  | chapter6 (e : Chapter6.Event)
  | chapter7 (e : Chapter7.Event)
  deriving DecidableEq

/-- The mounted chapter calls its `onComplete` prop: the function `renderChapter`
passed it runs, `App` renders again, and the child it now returns is mounted in
place of the old one. A component that was given no `onComplete` has nothing to
call. -/
def invokeOnComplete (s : State) : State :=
  match (App.renderChapter s.app.currentChapter).onComplete with
  | some .goToNextChapter =>
      let r := App.goToNextChapter s.app
      { app := r.1
        child := mount (App.renderChapter r.1.currentChapter).component
        scrolls := s.scrolls ++ r.2 }
  | none => s

/-- One event of the application. An event of a component that is not mounted
cannot occur and changes nothing; `Chapter7` takes no props and never calls
`onComplete`. -/
def step (s : State) : Event → State
  | .chapter1 e =>
      match s.child with
      | .chapter1 c =>
          if Chapter1.completes c e then invokeOnComplete s
          else { s with child := .chapter1 (Chapter1.step c e) }
      | _ => s
  | .chapter2 e =>
      match s.child with
      | .chapter2 c =>
          if Chapter2.completes c e then invokeOnComplete s
          else { s with child := .chapter2 (Chapter2.step c e) }
      | _ => s
  | .chapter3 e =>
      match s.child with
      | .chapter3 c =>
          if Chapter3.completes c e then invokeOnComplete s
          else { s with child := .chapter3 (Chapter3.step c e) }
      | _ => s
  | .chapter4 e =>
      match s.child with
      | .chapter4 c =>
          if Chapter4.completes c e then invokeOnComplete s
          else { s with child := .chapter4 (Chapter4.step c e) }
      | _ => s
  | .chapter5 e =>
      match s.child with
      | .chapter5 c =>
          if Chapter5.completes c e then invokeOnComplete s
          else { s with child := .chapter5 (Chapter5.step c e) }
      | _ => s
  | .chapter6 e =>
      match s.child with
      | .chapter6 c =>
          if Chapter6.completes c e then invokeOnComplete s
          else { s with child := .chapter6 (Chapter6.step c e) }
      | _ => s
  | .chapter7 e =>
      match s.child with
      | .chapter7 c => { s with child := .chapter7 (Chapter7.step c e) }
      | _ => s

/-- The state after a sequence of events. -/
def run (s : State) (es : List Event) : State := es.foldl step s

/-- The states the application can be in: those a sequence of events leads to
from the first render. -/
inductive Reachable : State → Prop where
  | init : Reachable init
  | step {s : State} (e : Event) : Reachable s → Reachable (step s e)

/-- The invariant of the application: the index is one of the seven chapters and
the mounted child is the component `renderChapter` returns for it. -/
def Coherent (s : State) : Prop :=
  1 ≤ s.app.currentChapter ∧ s.app.currentChapter ≤ 7 ∧
  s.child.component = (App.renderChapter s.app.currentChapter).component

/-- A visit of the whole story: every item of every chapter is revealed, the
final-message timer fires, and the continue button is clicked, up to Chapter 7. -/
def fullVisit : List Event :=
  List.replicate 8 (.chapter1 .click) ++ [.chapter1 .continueClick] ++
  [1, 2, 3, 4, 5].map (fun id => .chapter2 (.iceClick id)) ++
    [.chapter2 .finalTimeout, .chapter2 .continueClick] ++
  List.replicate 6 (.chapter3 .click) ++ [.chapter3 .finalTimeout, .chapter3 .continueClick] ++
  List.replicate 7 (.chapter4 .click) ++ [.chapter4 .finalTimeout, .chapter4 .continueClick] ++
  [1, 2, 3, 4, 5, 6, 7, 8].map (fun id => .chapter5 (.starClick id)) ++
    [.chapter5 .finalTimeout, .chapter5 .continueClick] ++
  [1, 2, 3, 4, 5, 6].map (fun id => .chapter6 (.shadowClick id)) ++
    [.chapter6 .finalTimeout, .chapter6 .continueClick]

/-- Whether the event makes the mounted chapter call its `onComplete` prop. -/
def fires (s : State) : Event → Bool
  | .chapter1 e => match s.child with
      | .chapter1 c => Chapter1.completes c e
      | _ => false
  | .chapter2 e => match s.child with
      | .chapter2 c => Chapter2.completes c e
      | _ => false
  | .chapter3 e => match s.child with
      | .chapter3 c => Chapter3.completes c e
      | _ => false
  | .chapter4 e => match s.child with
      | .chapter4 c => Chapter4.completes c e
      | _ => false
  | .chapter5 e => match s.child with
      | .chapter5 c => Chapter5.completes c e
      | _ => false
  | .chapter6 e => match s.child with
      | .chapter6 c => Chapter6.completes c e
      | _ => false
  | .chapter7 _ => false

/-- Whether React keeps the instance of the child over a render of `App`: it does
when the element `App` returns in its place is of the same component (no element
of `renderChapter` has a `key`); otherwise the old instance is unmounted and a
new one is mounted. -/
def keepsInstance (old new : Mounted) : Bool := decide (new.component = old.component)

/-- The instances of the child are numbered in the order in which they are
mounted. When instance `i` is mounted before the event, this is the number of the
instance mounted after it: the same number when React keeps the instance, the
next one when the child is replaced. -/
def instanceAfter (i : Nat) (s : State) (e : Event) : Nat :=
  if keepsInstance s.child (step s e).child then i else i + 1

/-- The calls of `onComplete` along a sequence of events that starts in state `s`
with instance `i` mounted: for each call, the number of the instance that made
it. -/
def onCompleteCalls : Nat → State → List Event → List Nat
  | _, _, [] => []
  | i, s, e :: es =>
      if fires s e then i :: onCompleteCalls (instanceAfter i s e) (step s e) es
      else onCompleteCalls (instanceAfter i s e) (step s e) es

end Site

/-! ## The chapter sequencer (`App.jsx`) -/

namespace App

theorem advance_currentChapter (s : State) :
    (advance s).currentChapter = s.currentChapter + 1 := rfl

theorem iterate_advance_currentChapter (n : Nat) (s : State) :
    (advance^[n] s).currentChapter = s.currentChapter + n := by
  induction n generalizing s with
  | zero => rfl
  | succ k ih =>
      rw [Function.iterate_succ_apply, ih, advance_currentChapter]
      omega

theorem renderChapter_of_eight_le (i : Nat) (h : 8 ≤ i) :
    renderChapter i = { component := .Placeholder, onComplete := none } := by
  obtain ⟨k, rfl⟩ : ∃ k, i = k + 8 := ⟨i - 8, by omega⟩
  rfl

/-- C1. The sequencer starts at chapter 1; `goToNextChapter` is a total function
of the state of `App` (it takes no argument and always returns), the state it
returns has the index increased by one and is otherwise the state it was given,
and its only other effect is the scroll request to the top of the page. -/
theorem goToNextChapter_increments :
    init.currentChapter = 1 ∧
    ∀ s : State, ∃ s' : State,
      (goToNextChapter s).1 = s' ∧
      s'.currentChapter = s.currentChapter + 1 ∧
      s' = { s with currentChapter := s.currentChapter + 1 } ∧
      (goToNextChapter s).2 = [{ top := 0, behavior := "smooth" }] :=
  ⟨rfl, fun s => ⟨(goToNextChapter s).1, rfl, rfl, rfl, rfl⟩⟩

/-- C2. After `n` advances from the initial state the chapter index is `1 + n`
(so 7 after 6 advances); every advance, from any state, strictly increases the
index, so along a run the index never decreases and never comes back to a value
it had before. -/
theorem chapter_index_strictly_increasing :
    (∀ n : Nat, (advance^[n] init).currentChapter = 1 + n) ∧
    (advance^[6] init).currentChapter = 7 ∧
    (∀ s : State, s.currentChapter < (advance s).currentChapter) ∧
    (∀ n : Nat, (advance^[n] init).currentChapter < (advance^[n + 1] init).currentChapter) ∧
    (∀ m k : Nat, (advance^[m] init).currentChapter ≤ (advance^[m + k] init).currentChapter) ∧
    (∀ m k : Nat, (advance^[m] init).currentChapter = (advance^[m + k] init).currentChapter ↔
      k = 0) := by
  have key : ∀ n : Nat, (advance^[n] init).currentChapter = 1 + n := fun n => by
    rw [iterate_advance_currentChapter]; rfl
  refine ⟨key, key 6, fun s => ?_, fun n => ?_, fun m k => ?_, fun m k => ?_⟩
  · rw [advance_currentChapter]; omega
  · rw [key, key]; omega
  · rw [key, key]; omega
  · rw [key, key]; omega

/-- C4. `renderChapter` dispatches on the chapter index: index `i` in `1..7`
gives the component `Chapter<i>`, any other index gives the placeholder, and
Chapters 1 to 6 (and only they) receive `goToNextChapter` as `onComplete`. -/
theorem renderChapter_dispatch :
    renderChapter 1 = { component := .Chapter1, onComplete := some .goToNextChapter } ∧
    renderChapter 2 = { component := .Chapter2, onComplete := some .goToNextChapter } ∧
    renderChapter 3 = { component := .Chapter3, onComplete := some .goToNextChapter } ∧
    renderChapter 4 = { component := .Chapter4, onComplete := some .goToNextChapter } ∧
    renderChapter 5 = { component := .Chapter5, onComplete := some .goToNextChapter } ∧
    renderChapter 6 = { component := .Chapter6, onComplete := some .goToNextChapter } ∧
    renderChapter 7 = { component := .Chapter7, onComplete := none } ∧
    ∀ i : Nat, ¬ (1 ≤ i ∧ i ≤ 7) →
      renderChapter i = { component := .Placeholder, onComplete := none } := by
  refine ⟨rfl, rfl, rfl, rfl, rfl, rfl, rfl, fun i h => ?_⟩
  rcases Nat.lt_or_ge i 8 with h8 | h8
  · have h0 : i = 0 := by omega
    subst h0
    rfl
  · exact renderChapter_of_eight_le i h8

/-- C4, at the indices 0 and 8: both render the placeholder. -/
theorem renderChapter_dispatch_witness :
    ¬ (1 ≤ 0 ∧ 0 ≤ 7) ∧ ¬ (1 ≤ 8 ∧ 8 ≤ 7) ∧
    renderChapter 0 = { component := .Placeholder, onComplete := none } ∧
    renderChapter 8 = { component := .Placeholder, onComplete := none } :=
  ⟨by decide, by decide,
   renderChapter_dispatch.2.2.2.2.2.2.2 0 (by decide),
   renderChapter_dispatch.2.2.2.2.2.2.2 8 (by decide)⟩

end App

/-! ## The application as a whole: `App` and the chapter it has mounted -/

namespace Site

theorem renderChapter_onComplete_of_seven_le (i : Nat) (h : 7 ≤ i) :
    (App.renderChapter i).onComplete = none := by
  rcases Nat.lt_or_ge i 8 with h8 | h8
  · have h7 : i = 7 := by omega
    subst h7
    rfl
  · rw [App.renderChapter_of_eight_le i h8]

theorem invokeOnComplete_of_seven_le (s : State) (h : 7 ≤ s.app.currentChapter) :
    invokeOnComplete s = s := by
  unfold invokeOnComplete
  rw [renderChapter_onComplete_of_seven_le _ h]

/-- An event either leaves `App` alone and keeps the mounted component (only its
local state moves), or it is the `onComplete` call of one of Chapters 1 to 6. -/
theorem step_cases (s : State) (e : Event) :
    ((step s e).app = s.app ∧ (step s e).scrolls = s.scrolls ∧
      (step s e).child.component = s.child.component) ∨
    (step s e = invokeOnComplete s ∧ s.child.component ≠ .Chapter7 ∧
      s.child.component ≠ .Placeholder) := by
  cases e with
  | chapter1 e =>
      cases hc : s.child with
      | chapter1 c =>
          by_cases hcomp : Chapter1.completes c e = true
          · refine Or.inr ⟨?_, ?_, ?_⟩
            · simp only [step, hc, hcomp, if_true]
            · simp [Mounted.component]
            · simp [Mounted.component]
          · refine Or.inl ⟨?_, ?_, ?_⟩ <;> simp [step, hc, hcomp, Mounted.component]
      | _ => exact Or.inl (by simp [step, hc])
  | chapter2 e =>
      cases hc : s.child with
      | chapter2 c =>
          by_cases hcomp : Chapter2.completes c e = true
          · refine Or.inr ⟨?_, ?_, ?_⟩
            · simp only [step, hc, hcomp, if_true]
            · simp [Mounted.component]
            · simp [Mounted.component]
          · refine Or.inl ⟨?_, ?_, ?_⟩ <;> simp [step, hc, hcomp, Mounted.component]
      | _ => exact Or.inl (by simp [step, hc])
  | chapter3 e =>
      cases hc : s.child with
      | chapter3 c =>
          by_cases hcomp : Chapter3.completes c e = true
          · refine Or.inr ⟨?_, ?_, ?_⟩
            · simp only [step, hc, hcomp, if_true]
            · simp [Mounted.component]
            · simp [Mounted.component]
          · refine Or.inl ⟨?_, ?_, ?_⟩ <;> simp [step, hc, hcomp, Mounted.component]
      | _ => exact Or.inl (by simp [step, hc])
  | chapter4 e =>
      cases hc : s.child with
      | chapter4 c =>
          by_cases hcomp : Chapter4.completes c e = true
          · refine Or.inr ⟨?_, ?_, ?_⟩
            · simp only [step, hc, hcomp, if_true]
            · simp [Mounted.component]
            · simp [Mounted.component]
          · refine Or.inl ⟨?_, ?_, ?_⟩ <;> simp [step, hc, hcomp, Mounted.component]
      | _ => exact Or.inl (by simp [step, hc])
  | chapter5 e =>
      cases hc : s.child with
      | chapter5 c =>
          by_cases hcomp : Chapter5.completes c e = true
          · refine Or.inr ⟨?_, ?_, ?_⟩
            · simp only [step, hc, hcomp, if_true]
            · simp [Mounted.component]
            · simp [Mounted.component]
          · refine Or.inl ⟨?_, ?_, ?_⟩ <;> simp [step, hc, hcomp, Mounted.component]
      | _ => exact Or.inl (by simp [step, hc])
  | chapter6 e =>
      cases hc : s.child with
      | chapter6 c =>
          by_cases hcomp : Chapter6.completes c e = true
          · refine Or.inr ⟨?_, ?_, ?_⟩
            · simp only [step, hc, hcomp, if_true]
            · simp [Mounted.component]
            · simp [Mounted.component]
          · refine Or.inl ⟨?_, ?_, ?_⟩ <;> simp [step, hc, hcomp, Mounted.component]
      | _ => exact Or.inl (by simp [step, hc])
  | chapter7 e =>
      cases hc : s.child with
      | chapter7 c => exact Or.inl (by simp [step, hc, Mounted.component])
      | _ => exact Or.inl (by simp [step, hc])

theorem coherent_init : Coherent init := ⟨by decide, by decide, rfl⟩

theorem coherent_invokeOnComplete (s : State) (h : Coherent s)
    (h7 : s.child.component ≠ .Chapter7) : Coherent (invokeOnComplete s) := by
  obtain ⟨h1, h2, h3⟩ := h
  have hlt : s.app.currentChapter ≤ 6 := by
    by_contra hne
    have h77 : s.app.currentChapter = 7 := by omega
    rw [h77] at h3
    exact h7 h3
  obtain ⟨⟨i⟩, child, scrolls⟩ := s
  simp only at h1 hlt
  interval_cases i <;>
    exact ⟨Nat.le_of_ble_eq_true rfl, Nat.le_of_ble_eq_true rfl, rfl⟩

theorem coherent_step (s : State) (e : Event) (h : Coherent s) : Coherent (step s e) := by
  rcases step_cases s e with ⟨ha, _, hc⟩ | ⟨hs, h7, _⟩
  · unfold Coherent
    rw [ha, hc]
    exact h
  · rw [hs]
    exact coherent_invokeOnComplete s h h7

theorem coherent_of_reachable {s : State} (h : Reachable s) : Coherent s := by
  induction h with
  | init => exact coherent_init
  | step e _ ih => exact coherent_step _ e ih

theorem reachable_run {s : State} (h : Reachable s) (es : List Event) :
    Reachable (run s es) := by
  induction es generalizing s with
  | nil => exact h
  | cons e es ih => exact ih (Reachable.step e h)

theorem fullVisit_currentChapter : (run init fullVisit).app.currentChapter = 7 := by
  decide

/-- C3. Past the last chapter the sequencer is terminal. From index 7 on,
`renderChapter` passes no `onComplete`, the placeholder has no event at all, and
no event of the application changes the state of `App`. Hence every reachable
state has an index between 1 and 7, its mounted child is the chapter of that
index, and the placeholder branch is never rendered. -/
theorem terminal_past_last_chapter :
    (∀ i : Nat, 7 ≤ i → (App.renderChapter i).onComplete = none) ∧
    (∀ (s : State) (e : Event), s.child = .placeholder → step s e = s) ∧
    (∀ (s : State) (e : Event), 7 ≤ s.app.currentChapter → (step s e).app = s.app) ∧
    (∀ s : State, Reachable s →
      1 ≤ s.app.currentChapter ∧ s.app.currentChapter ≤ 7 ∧
      s.child.component = (App.renderChapter s.app.currentChapter).component ∧
      (App.renderChapter s.app.currentChapter).component ≠ .Placeholder ∧
      s.child ≠ .placeholder) := by
  refine ⟨renderChapter_onComplete_of_seven_le, fun s e hp => ?_, fun s e h7 => ?_,
    fun s hs => ?_⟩
  · cases e <;> simp [step, hp]
  · rcases step_cases s e with ⟨ha, _, _⟩ | ⟨hstep, _, _⟩
    · exact ha
    · rw [hstep, invokeOnComplete_of_seven_le s h7]
  · obtain ⟨h1, h2, h3⟩ := coherent_of_reachable hs
    have hne : (App.renderChapter s.app.currentChapter).component ≠ .Placeholder := by
      obtain ⟨⟨i⟩, child, scrolls⟩ := s
      simp only at h1 h2
      interval_cases i <;> simp [App.renderChapter]
    refine ⟨h1, h2, h3, hne, fun hp => hne ?_⟩
    rw [← h3, hp]
    rfl

/-- C3, at the state the full visit of the six chapters leads to: it is
reachable, its index is 7, Chapter 7 is mounted, and a further click leaves the
index at 7. -/
theorem terminal_past_last_chapter_witness :
    Reachable (run init fullVisit) ∧
    (run init fullVisit).app.currentChapter = 7 ∧
    (run init fullVisit).child.component = .Chapter7 ∧
    (step (run init fullVisit) (.chapter7 .click)).app = (run init fullVisit).app :=
  ⟨reachable_run Reachable.init fullVisit, fullVisit_currentChapter,
   ((terminal_past_last_chapter.2.2.2 (run init fullVisit)
      (reachable_run Reachable.init fullVisit)).2.2.1).trans
      (by rw [fullVisit_currentChapter]; rfl),
   terminal_past_last_chapter.2.2.1 (run init fullVisit) (.chapter7 .click)
      (by rw [fullVisit_currentChapter])⟩

end Site

/-! ## Reveal sequences driven by a counter (Chapters 1, 3, 4 and 7) -/

namespace Reveal

/-- A handler that adds one to a counter while it is below `N`, iterated. -/
theorem counter_iterate {σ : Type} (f : σ → σ) (c : σ → Nat) (N : Nat)
    (hf : ∀ s, c (f s) = if c s < N then c s + 1 else c s)
    (n : Nat) (s : σ) (h : c s ≤ N) : c (f^[n] s) = min (c s + n) N := by
  induction n generalizing s with
  | zero => simp [h]
  | succ k ih =>
      have hle : c (f s) ≤ N := by
        rw [hf]; split <;> omega
      rw [Function.iterate_succ_apply, ih (f s) hle, hf]
      split <;> omega

/-- Among the first `n` invocations, those made while the counter was below `N`
are as many as the counter shows. -/
theorem effective_clicks {σ : Type} (f : σ → σ) (c : σ → Nat) (N : Nat)
    (hf : ∀ s, c (f s) = if c s < N then c s + 1 else c s)
    (s : σ) (h : c s = 0) (n : Nat) :
    ((List.range n).filter (fun i => decide (c (f^[i] s) < N))).length = c (f^[n] s) := by
  have key : ∀ i, c (f^[i] s) = min i N := fun i => by
    rw [counter_iterate f c N hf i s (by omega), h, Nat.zero_add]
  induction n with
  | zero => simp [h]
  | succ k ih =>
      have hk0 := key k
      have hk1 := key (k + 1)
      rw [List.range_succ, List.filter_append, List.length_append, ih, hk1, hk0]
      by_cases hk : k < N
      · have hlt : c (f^[k] s) < N := by omega
        rw [List.filter_cons_of_pos (by simpa using hlt)]
        simp only [List.filter_nil, List.length_singleton]
        omega
      · have hlt : ¬ c (f^[k] s) < N := by omega
        rw [List.filter_cons_of_neg (by simpa using hlt)]
        simp only [List.filter_nil, List.length_nil]
        omega

/-- A step function whose `click` event adds one to a counter while it is below
`N` and whose other events leave the counter alone, run over a list of events. -/
theorem counter_foldl {σ ε : Type} [DecidableEq ε] (step : σ → ε → σ) (c : σ → Nat)
    (N : Nat) (click : ε)
    (hclick : ∀ s, c (step s click) = if c s < N then c s + 1 else c s)
    (hother : ∀ s e, e ≠ click → c (step s e) = c s)
    (es : List ε) (s : σ) (h : c s ≤ N) :
    c (es.foldl step s) = min (c s + es.count click) N := by
  induction es generalizing s with
  | nil => simp [h]
  | cons e es ih =>
      rw [List.foldl_cons]
      by_cases he : e = click
      · subst he
        have hle : c (step s e) ≤ N := by
          rw [hclick]; split <;> omega
        rw [ih _ hle, hclick, List.count_cons_self]
        split <;> omega
      · have hle : c (step s e) ≤ N := by rw [hother s e he]; exact h
        rw [ih _ hle, hother s e he, List.count_cons_of_ne (Ne.symm he)]

end Reveal

namespace Chapter1

theorem TEXTS_length : TEXTS.length = 8 := rfl

theorem handleClick_revealedCount (s : State) :
    (handleClick s).revealedCount =
      if s.revealedCount < 8 then s.revealedCount + 1 else s.revealedCount := by
  unfold handleClick
  rw [TEXTS_length]
  split <;> rfl

theorem step_click_revealedCount (s : State) :
    (step s .click).revealedCount =
      if s.revealedCount < 8 then s.revealedCount + 1 else s.revealedCount :=
  handleClick_revealedCount s

theorem step_other_revealedCount (s : State) (e : Event) (h : e ≠ .click) :
    (step s e).revealedCount = s.revealedCount := by
  cases e with
  | click => exact absurd rfl h
  | continueClick => rfl
  | hintTimeout =>
      simp only [step]
      split <;> rfl

theorem run_revealedCount (es : List Event) :
    (run init es).revealedCount = min (es.count .click) 8 := by
  have h := Reveal.counter_foldl step State.revealedCount 8 Event.click
    step_click_revealedCount step_other_revealedCount es init (by decide)
  simpa [init] using h

end Chapter1

namespace Chapter3

theorem HEARTBEATS_length : HEARTBEATS.length = 6 := rfl

theorem ARMOR_PLATES_length : ARMOR_PLATES.length = 6 := rfl

theorem handleClick_currentBeat (s : State) :
    (handleClick s).currentBeat =
      if s.currentBeat < 6 then s.currentBeat + 1 else s.currentBeat := by
  unfold handleClick
  rw [HEARTBEATS_length]
  by_cases h : s.currentBeat < 6
  · rw [if_neg (by omega), if_pos h]
  · rw [if_pos (by omega), if_neg h]

theorem completionEffect_currentBeat (old new : State) :
    (completionEffect old new).currentBeat = new.currentBeat := by
  unfold completionEffect
  split <;> rfl

theorem completionEffect_fallenPlates (old new : State) :
    (completionEffect old new).fallenPlates = new.fallenPlates := by
  unfold completionEffect
  split <;> rfl

theorem step_click_currentBeat (s : State) :
    (step s .click).currentBeat =
      if s.currentBeat < 6 then s.currentBeat + 1 else s.currentBeat := by
  simp only [step, allDone, HEARTBEATS_length]
  by_cases h : s.currentBeat < 6
  · rw [if_neg (by simpa using h), completionEffect_currentBeat, handleClick_currentBeat]
  · rw [if_pos (by simpa using h), if_neg h]

theorem step_other_currentBeat (s : State) (e : Event) (h : e ≠ .click) :
    (step s e).currentBeat = s.currentBeat := by
  cases e with
  | click => exact absurd rfl h
  | continueClick => rfl
  | hintTimeout => simp only [step]; split <;> rfl
  | finalTimeout => simp only [step]; split <;> rfl
  | pulseTimeout => simp only [step]; split <;> rfl

theorem run_currentBeat (es : List Event) :
    (run init es).currentBeat = min (es.count .click) 6 := by
  have h := Reveal.counter_foldl step State.currentBeat 6 Event.click
    step_click_currentBeat step_other_currentBeat es init (by decide)
  simpa [init] using h

end Chapter3

namespace Chapter4

theorem SCENES_length : SCENES.length = 7 := rfl

theorem handleClick_currentScene (s : State) :
    (handleClick s).currentScene =
      if s.currentScene < 7 then s.currentScene + 1 else s.currentScene := by
  unfold handleClick
  rw [SCENES_length]
  split <;> rfl

theorem completionEffect_currentScene (old new : State) :
    (completionEffect old new).currentScene = new.currentScene := by
  unfold completionEffect
  split <;> rfl

theorem step_click_currentScene (s : State) :
    (step s .click).currentScene =
      if s.currentScene < 7 then s.currentScene + 1 else s.currentScene := by
  simp only [step, allDone, SCENES_length]
  by_cases h : s.currentScene < 7
  · rw [if_neg (by simpa using h), completionEffect_currentScene, handleClick_currentScene]
  · rw [if_pos (by simpa using h), if_neg h]

theorem step_other_currentScene (s : State) (e : Event) (h : e ≠ .click) :
    (step s e).currentScene = s.currentScene := by
  cases e with
  | click => exact absurd rfl h
  | continueClick => rfl
  | hintTimeout => simp only [step]; split <;> rfl
  | finalTimeout => simp only [step]; split <;> rfl

theorem run_currentScene (es : List Event) :
    (run init es).currentScene = min (es.count .click) 7 := by
  have h := Reveal.counter_foldl step State.currentScene 7 Event.click
    step_click_currentScene step_other_currentScene es init (by decide)
  simpa [init] using h

end Chapter4

namespace Chapter7

theorem PASSAGES_length : PASSAGES.length = 10 := rfl

theorem handleClick_of_done (s : State) (h : s.currentPassage > 10) : handleClick s = s := by
  unfold handleClick
  rw [PASSAGES_length, if_pos h]
  split <;> rfl

theorem handleClick_currentPassage_le (s : State) :
    s.currentPassage ≤ (handleClick s).currentPassage := by
  unfold handleClick
  split
  · exact Nat.le_refl _
  · split
    · exact Nat.le_refl _
    · exact Nat.le_succ _

end Chapter7

namespace Reveal

/-- C5. In the counter-based chapters (8 texts, 6 heartbeats, 7 scenes) the
counter starts at 0 and after `n` invocations of the click handler it is
`min n N`; among the first `n` invocations, those made while the counter was
below `N` are exactly as many as the counter shows, so the counter is `k + 1`
only after exactly `k + 1` such clicks. The same holds along any sequence of
events of the chapter, with `n` the number of page clicks in it. -/
theorem counter_after_clicks :
    (Chapter1.TEXTS.length = 8 ∧ Chapter3.HEARTBEATS.length = 6 ∧ Chapter4.SCENES.length = 7) ∧
    (Chapter1.init.revealedCount = 0 ∧ Chapter3.init.currentBeat = 0 ∧
      Chapter4.init.currentScene = 0) ∧
    (∀ n : Nat,
      (Chapter1.handleClick^[n] Chapter1.init).revealedCount = min n 8 ∧
      (Chapter3.handleClick^[n] Chapter3.init).currentBeat = min n 6 ∧
      (Chapter4.handleClick^[n] Chapter4.init).currentScene = min n 7) ∧
    (∀ n : Nat,
      ((List.range n).filter (fun i => decide
        ((Chapter1.handleClick^[i] Chapter1.init).revealedCount < Chapter1.TEXTS.length))).length
        = (Chapter1.handleClick^[n] Chapter1.init).revealedCount ∧
      ((List.range n).filter (fun i => decide
        ((Chapter3.handleClick^[i] Chapter3.init).currentBeat < Chapter3.HEARTBEATS.length))).length
        = (Chapter3.handleClick^[n] Chapter3.init).currentBeat ∧
      ((List.range n).filter (fun i => decide
        ((Chapter4.handleClick^[i] Chapter4.init).currentScene < Chapter4.SCENES.length))).length
        = (Chapter4.handleClick^[n] Chapter4.init).currentScene) ∧
    (∀ es : List Chapter1.Event,
      (Chapter1.run Chapter1.init es).revealedCount = min (es.count .click) 8) ∧
    (∀ es : List Chapter3.Event,
      (Chapter3.run Chapter3.init es).currentBeat = min (es.count .click) 6) ∧
    (∀ es : List Chapter4.Event,
      (Chapter4.run Chapter4.init es).currentScene = min (es.count .click) 7) := by
  refine ⟨⟨rfl, rfl, rfl⟩, ⟨rfl, rfl, rfl⟩, fun n => ⟨?_, ?_, ?_⟩, fun n => ⟨?_, ?_, ?_⟩,
    Chapter1.run_revealedCount, Chapter3.run_currentBeat, Chapter4.run_currentScene⟩
  · have h := counter_iterate Chapter1.handleClick Chapter1.State.revealedCount 8
      Chapter1.handleClick_revealedCount n Chapter1.init (by decide)
    simpa [Chapter1.init] using h
  · have h := counter_iterate Chapter3.handleClick Chapter3.State.currentBeat 6
      Chapter3.handleClick_currentBeat n Chapter3.init (by decide)
    simpa [Chapter3.init] using h
  · have h := counter_iterate Chapter4.handleClick Chapter4.State.currentScene 7
      Chapter4.handleClick_currentScene n Chapter4.init (by decide)
    simpa [Chapter4.init] using h
  · exact effective_clicks Chapter1.handleClick Chapter1.State.revealedCount 8
      Chapter1.handleClick_revealedCount Chapter1.init rfl n
  · exact effective_clicks Chapter3.handleClick Chapter3.State.currentBeat 6
      Chapter3.handleClick_currentBeat Chapter3.init rfl n
  · exact effective_clicks Chapter4.handleClick Chapter4.State.currentScene 7
      Chapter4.handleClick_currentScene Chapter4.init rfl n

/-- C6. Advancing past the last item has no effect: in a state where the
sequence is complete, `handleClick` of Chapters 1, 3, 4 and 7 returns the state it
was given, and so does the click event of the page; hence the handler is
idempotent there. -/
theorem click_when_complete :
    (∀ s : Chapter1.State, s.revealedCount ≥ 8 →
      Chapter1.handleClick s = s ∧ Chapter1.step s .click = s ∧
      Chapter1.handleClick (Chapter1.handleClick s) = Chapter1.handleClick s) ∧
    (∀ s : Chapter3.State, s.currentBeat ≥ 6 →
      Chapter3.handleClick s = s ∧ Chapter3.step s .click = s ∧
      Chapter3.handleClick (Chapter3.handleClick s) = Chapter3.handleClick s) ∧
    (∀ s : Chapter4.State, s.currentScene ≥ 7 →
      Chapter4.handleClick s = s ∧ Chapter4.step s .click = s ∧
      Chapter4.handleClick (Chapter4.handleClick s) = Chapter4.handleClick s) ∧
    (∀ s : Chapter7.State, s.currentPassage > 10 →
      Chapter7.handleClick s = s ∧ Chapter7.step s .click = s ∧
      Chapter7.handleClick (Chapter7.handleClick s) = Chapter7.handleClick s) := by
  refine ⟨fun s h => ?_, fun s h => ?_, fun s h => ?_, fun s h => ?_⟩
  · have h1 : Chapter1.handleClick s = s := by
      unfold Chapter1.handleClick
      rw [Chapter1.TEXTS_length, if_neg (by omega)]
    exact ⟨h1, h1, by rw [h1, h1]⟩
  · have h1 : Chapter3.handleClick s = s := by
      unfold Chapter3.handleClick
      rw [Chapter3.HEARTBEATS_length, if_pos h]
    refine ⟨h1, ?_, by rw [h1, h1]⟩
    simp only [Chapter3.step, Chapter3.allDone, Chapter3.HEARTBEATS_length]
    rw [if_pos (by simpa using h)]
  · have h1 : Chapter4.handleClick s = s := by
      unfold Chapter4.handleClick
      rw [Chapter4.SCENES_length, if_neg (by omega)]
    refine ⟨h1, ?_, by rw [h1, h1]⟩
    simp only [Chapter4.step, Chapter4.allDone, Chapter4.SCENES_length]
    rw [if_pos (by simpa using h)]
  · have h1 : Chapter7.handleClick s = s := Chapter7.handleClick_of_done s h
    refine ⟨h1, ?_, by rw [h1, h1]⟩
    simp only [Chapter7.step, Chapter7.allDone, Chapter7.PASSAGES_length]
    rw [if_pos (by simpa using h)]

set_option maxRecDepth 1000000 in
/-- C6, at the states reached by completing each sequence: 8, 6 and 7 clicks,
and the whole of Chapter 7 read; one more click changes nothing. -/
theorem click_when_complete_witness :
    ((Chapter1.run Chapter1.init (List.replicate 8 .click)).revealedCount ≥ 8 ∧
      Chapter1.handleClick (Chapter1.run Chapter1.init (List.replicate 8 .click)) =
        Chapter1.run Chapter1.init (List.replicate 8 .click)) ∧
    ((Chapter3.run Chapter3.init (List.replicate 6 .click)).currentBeat ≥ 6 ∧
      Chapter3.handleClick (Chapter3.run Chapter3.init (List.replicate 6 .click)) =
        Chapter3.run Chapter3.init (List.replicate 6 .click)) ∧
    ((Chapter4.run Chapter4.init (List.replicate 7 .click)).currentScene ≥ 7 ∧
      Chapter4.handleClick (Chapter4.run Chapter4.init (List.replicate 7 .click)) =
        Chapter4.run Chapter4.init (List.replicate 7 .click)) ∧
    ((Chapter7.run Chapter7.init Chapter7.readAll).currentPassage > 10 ∧
      Chapter7.handleClick (Chapter7.run Chapter7.init Chapter7.readAll) =
        Chapter7.run Chapter7.init Chapter7.readAll) :=
  ⟨⟨by decide, (click_when_complete.1 _ (by decide)).1⟩,
   ⟨by decide, (click_when_complete.2.1 _ (by decide)).1⟩,
   ⟨by decide, (click_when_complete.2.2.1 _ (by decide)).1⟩,
   ⟨by decide, (click_when_complete.2.2.2 _ (by decide)).1⟩⟩

end Reveal

/-! ## Reveal sequences driven by a set of ids (Chapters 2, 5 and 6) -/

namespace Chapter2

theorem ICE_BLOCKS_length : ICE_BLOCKS.length = 5 := rfl

theorem blockIds_eq : blockIds = [1, 2, 3, 4, 5] := rfl

theorem breakIce_brokenIds (id : Nat) (s : State) :
    (breakIce id s).brokenIds = insert id s.brokenIds := rfl

theorem breakIce_idem (id : Nat) (s : State) : breakIce id (breakIce id s) = breakIce id s := by
  simp only [breakIce, Finset.insert_idem]

theorem iceBlockClick_brokenIds (id : Nat) (s : State) :
    (iceBlockClick id s).brokenIds = insert id s.brokenIds := by
  unfold iceBlockClick
  split
  · rfl
  · rename_i h
    rw [Finset.insert_eq_of_mem (by simpa using h)]

theorem completionEffect_brokenIds (old new : State) :
    (completionEffect old new).brokenIds = new.brokenIds := by
  unfold completionEffect
  split <;> rfl

theorem step_brokenIds_subset (s : State) (e : Event) :
    s.brokenIds ⊆ (step s e).brokenIds := by
  cases e with
  | iceClick id =>
      simp only [step]
      split
      · rw [completionEffect_brokenIds, iceBlockClick_brokenIds]
        exact Finset.subset_insert _ _
      · exact Finset.Subset.refl _
  | continueClick => exact Finset.Subset.refl _
  | finalTimeout =>
      simp only [step]
      split <;> exact Finset.Subset.refl _

/-- The set of broken blocks after a sequence of `breakIce` calls. -/
theorem foldl_breakIce_brokenIds (ids : List Nat) (s : State) :
    (ids.foldl (fun s id => breakIce id s) s).brokenIds = s.brokenIds ∪ ids.toFinset := by
  induction ids generalizing s with
  | nil => simp
  | cons id ids ih =>
      rw [List.foldl_cons, ih, breakIce_brokenIds, List.toFinset_cons]
      ext x
      simp only [Finset.mem_union, Finset.mem_insert]
      tauto

/-- The set of broken blocks after a sequence of clicks on blocks of the table. -/
theorem run_iceClick_brokenIds (ids : List Nat) (h : ∀ id ∈ ids, id ∈ blockIds) (s : State) :
    (run s (ids.map Event.iceClick)).brokenIds = s.brokenIds ∪ ids.toFinset := by
  induction ids generalizing s with
  | nil => simp [run]
  | cons id ids ih =>
      have hid : id ∈ blockIds := h id (List.mem_cons_self _ _)
      have hrest : ∀ i ∈ ids, i ∈ blockIds := fun i hi => h i (List.mem_cons_of_mem _ hi)
      have hstep : (step s (.iceClick id)).brokenIds = insert id s.brokenIds := by
        simp only [step]
        rw [if_pos hid, completionEffect_brokenIds, iceBlockClick_brokenIds]
      have := ih hrest (step s (.iceClick id))
      simp only [run, List.map_cons, List.foldl_cons] at this ⊢
      rw [this, hstep, List.toFinset_cons]
      ext x
      simp only [Finset.mem_union, Finset.mem_insert]
      tauto

/-- All five blocks are broken exactly when every id of the table is in the set. -/
theorem card_eq_five_iff (S : Finset Nat) (h : S ⊆ blockIds.toFinset) :
    S.card = ICE_BLOCKS.length ↔ ∀ id ∈ blockIds, id ∈ S := by
  constructor
  · intro hc id hid
    have heq : S = blockIds.toFinset :=
      Finset.eq_of_subset_of_card_le h (by rw [hc]; decide)
    rw [heq]
    exact List.mem_toFinset.mpr hid
  · intro hall
    have heq : S = blockIds.toFinset :=
      Finset.Subset.antisymm h (fun x hx => hall x (List.mem_toFinset.mp hx))
    rw [heq]
    decide

end Chapter2

namespace Chapter5

theorem STARS_length : STARS.length = 8 := rfl

theorem starIds_eq : starIds = [1, 2, 3, 4, 5, 6, 7, 8] := rfl

/-- A star of the table is found by `STARS.find`. -/
theorem find_star_of_mem (id : Nat) (h : id ∈ starIds) :
    ∃ star, STARS.find? (fun star => star.id == id) = some star := by
  rw [starIds_eq] at h
  simp only [List.mem_cons, List.mem_singleton, List.not_mem_nil, or_false] at h
  rcases h with rfl | rfl | rfl | rfl | rfl | rfl | rfl | rfl <;> exact ⟨_, rfl⟩

theorem activateStar_activeStars_of_mem (id : Nat) (s : State) (h : id ∈ starIds) :
    (activateStar id s).activeStars = insert id s.activeStars := by
  obtain ⟨star, hstar⟩ := find_star_of_mem id h
  simp only [activateStar, hstar]

theorem activateStar_activeStars_subset (id : Nat) (s : State) :
    s.activeStars ⊆ (activateStar id s).activeStars := by
  unfold activateStar
  split
  · exact Finset.Subset.refl _
  · exact Finset.subset_insert _ _

theorem activateStar_idem (id : Nat) (s : State) :
    activateStar id (activateStar id s) = activateStar id s := by
  unfold activateStar
  split
  · rfl
  · simp only [Finset.insert_idem]

theorem completionEffect_activeStars (old new : State) :
    (completionEffect old new).activeStars = new.activeStars := by
  unfold completionEffect
  split <;> rfl

theorem step_activeStars_subset (s : State) (e : Event) :
    s.activeStars ⊆ (step s e).activeStars := by
  cases e with
  | starClick id =>
      simp only [step]
      split
      · rw [completionEffect_activeStars]
        exact activateStar_activeStars_subset id s
      · exact Finset.Subset.refl _
  | starMouseEnter id =>
      simp only [step]
      split
      · rw [completionEffect_activeStars]
        exact activateStar_activeStars_subset id s
      · exact Finset.Subset.refl _
  | continueClick => exact Finset.Subset.refl _
  | hintTimeout => simp only [step]; split <;> exact Finset.Subset.refl _
  | finalTimeout => simp only [step]; split <;> exact Finset.Subset.refl _

end Chapter5

namespace Chapter6

theorem SHADOWS_length : SHADOWS.length = 6 := rfl

theorem shadowIds_eq : shadowIds = [1, 2, 3, 4, 5, 6] := rfl

/-- A shadow of the table is found by `SHADOWS.find`. -/
theorem find_shadow_of_mem (id : Nat) (h : id ∈ shadowIds) :
    ∃ shadow, SHADOWS.find? (fun shadow => shadow.id == id) = some shadow := by
  rw [shadowIds_eq] at h
  simp only [List.mem_cons, List.mem_singleton, List.not_mem_nil, or_false] at h
  rcases h with rfl | rfl | rfl | rfl | rfl | rfl <;> exact ⟨_, rfl⟩

theorem repelShadow_repelledIds_of_mem (id : Nat) (s : State) (h : id ∈ shadowIds) :
    (repelShadow id s).repelledIds = insert id s.repelledIds := by
  obtain ⟨shadow, hshadow⟩ := find_shadow_of_mem id h
  simp only [repelShadow, hshadow]

theorem repelShadow_repelledIds_subset (id : Nat) (s : State) :
    s.repelledIds ⊆ (repelShadow id s).repelledIds := by
  unfold repelShadow
  split
  · exact Finset.Subset.refl _
  · exact Finset.subset_insert _ _

theorem repelShadow_idem (id : Nat) (s : State) :
    repelShadow id (repelShadow id s) = repelShadow id s := by
  unfold repelShadow
  split
  · rfl
  · simp only [Finset.insert_idem]

theorem completionEffect_repelledIds (old new : State) :
    (completionEffect old new).repelledIds = new.repelledIds := by
  unfold completionEffect
  split <;> rfl

theorem step_repelledIds_subset (s : State) (e : Event) :
    s.repelledIds ⊆ (step s e).repelledIds := by
  cases e with
  | shadowClick id =>
      simp only [step]
      split
      · rw [completionEffect_repelledIds]
        exact repelShadow_repelledIds_subset id s
      · exact Finset.Subset.refl _
  | resize innerWidth =>
      simp only [step, updateSize]
      split
      · exact Finset.Subset.refl _
      · split <;> exact Finset.Subset.refl _
  | continueClick => exact Finset.Subset.refl _
  | hintTimeout => simp only [step]; split <;> exact Finset.Subset.refl _
  | finalTimeout => simp only [step]; split <;> exact Finset.Subset.refl _

end Chapter6

/-! ## Monotonicity of progress, event by event -/

namespace Chapter1

theorem step_revealedCount_le (s : State) (e : Event) :
    s.revealedCount ≤ (step s e).revealedCount := by
  by_cases h : e = .click
  · subst h
    rw [step_click_revealedCount]
    split <;> omega
  · rw [step_other_revealedCount s e h]

end Chapter1

namespace Chapter3

theorem handleClick_fallenPlates_subset (s : State) :
    s.fallenPlates ⊆ (handleClick s).fallenPlates := by
  unfold handleClick
  split
  · exact Finset.Subset.refl _
  · exact Finset.subset_insert _ _

theorem step_currentBeat_le (s : State) (e : Event) :
    s.currentBeat ≤ (step s e).currentBeat := by
  by_cases h : e = .click
  · subst h
    rw [step_click_currentBeat]
    split <;> omega
  · rw [step_other_currentBeat s e h]

theorem step_fallenPlates_subset (s : State) (e : Event) :
    s.fallenPlates ⊆ (step s e).fallenPlates := by
  cases e with
  | click =>
      simp only [step]
      split
      · exact Finset.Subset.refl _
      · rw [completionEffect_fallenPlates]
        exact handleClick_fallenPlates_subset s
  | continueClick => exact Finset.Subset.refl _
  | hintTimeout => simp only [step]; split <;> exact Finset.Subset.refl _
  | finalTimeout => simp only [step]; split <;> exact Finset.Subset.refl _
  | pulseTimeout => simp only [step]; split <;> exact Finset.Subset.refl _

end Chapter3

namespace Chapter4

theorem step_currentScene_le (s : State) (e : Event) :
    s.currentScene ≤ (step s e).currentScene := by
  by_cases h : e = .click
  · subst h
    rw [step_click_currentScene]
    split <;> omega
  · rw [step_other_currentScene s e h]

end Chapter4

namespace Chapter7

theorem rerender_currentPassage (old new : State) :
    (rerender old new).currentPassage = new.currentPassage := by
  unfold rerender
  split
  · simp only
    split <;> rfl
  · rfl

theorem step_currentPassage_le (s : State) (e : Event) :
    s.currentPassage ≤ (step s e).currentPassage := by
  cases e with
  | click =>
      simp only [step]
      split
      · exact Nat.le_refl _
      · rw [rerender_currentPassage]
        exact handleClick_currentPassage_le s
  | typewriterTick =>
      simp only [step]
      split <;> exact Nat.le_refl _
  | endingClick => simp only [step]; split <;> exact Nat.le_refl _
  | hintTimeout => simp only [step]; split <;> exact Nat.le_refl _
  | finalTimeout => simp only [step]; split <;> exact Nat.le_refl _

end Chapter7

/-! ## The claims on the item sets and on monotone progress -/

namespace Reveal

/-- C7. No double counting in the set-based chapters. For every state and every
id of an item of the chapter's table (for `breakIce`, every id at all), applying
`breakIce`, `activateStar` or `repelShadow` twice with the same id gives the same
set (indeed the same state) as applying it once; one application adds exactly 1
to the size of the set when the id was absent and 0 when it was present. A star
entered with the mouse and then clicked counts once. -/
theorem no_double_counting :
    (∀ (s : Chapter2.State) (id : Nat),
      Chapter2.breakIce id (Chapter2.breakIce id s) = Chapter2.breakIce id s ∧
      (id ∉ s.brokenIds → (Chapter2.breakIce id s).brokenIds.card = s.brokenIds.card + 1) ∧
      (id ∈ s.brokenIds → (Chapter2.breakIce id s).brokenIds.card = s.brokenIds.card)) ∧
    (∀ (s : Chapter5.State) (id : Nat), id ∈ Chapter5.starIds →
      Chapter5.activateStar id (Chapter5.activateStar id s) = Chapter5.activateStar id s ∧
      (id ∉ s.activeStars →
        (Chapter5.activateStar id s).activeStars.card = s.activeStars.card + 1) ∧
      (id ∈ s.activeStars →
        (Chapter5.activateStar id s).activeStars.card = s.activeStars.card)) ∧
    (∀ (s : Chapter6.State) (id : Nat), id ∈ Chapter6.shadowIds →
      Chapter6.repelShadow id (Chapter6.repelShadow id s) = Chapter6.repelShadow id s ∧
      (id ∉ s.repelledIds →
        (Chapter6.repelShadow id s).repelledIds.card = s.repelledIds.card + 1) ∧
      (id ∈ s.repelledIds →
        (Chapter6.repelShadow id s).repelledIds.card = s.repelledIds.card)) ∧
    (∀ (s : Chapter5.State) (id : Nat),
      (Chapter5.step (Chapter5.step s (.starMouseEnter id)) (.starClick id)).activeStars =
        (Chapter5.step s (.starMouseEnter id)).activeStars) := by
  refine ⟨fun s id => ⟨Chapter2.breakIce_idem id s, fun h => ?_, fun h => ?_⟩,
    fun s id hid => ⟨Chapter5.activateStar_idem id s, fun h => ?_, fun h => ?_⟩,
    fun s id hid => ⟨Chapter6.repelShadow_idem id s, fun h => ?_, fun h => ?_⟩,
    fun s id => ?_⟩
  · rw [Chapter2.breakIce_brokenIds, Finset.card_insert_of_not_mem h]
  · rw [Chapter2.breakIce_brokenIds, Finset.insert_eq_of_mem h]
  · rw [Chapter5.activateStar_activeStars_of_mem id s hid, Finset.card_insert_of_not_mem h]
  · rw [Chapter5.activateStar_activeStars_of_mem id s hid, Finset.insert_eq_of_mem h]
  · rw [Chapter6.repelShadow_repelledIds_of_mem id s hid, Finset.card_insert_of_not_mem h]
  · rw [Chapter6.repelShadow_repelledIds_of_mem id s hid, Finset.insert_eq_of_mem h]
  · by_cases hid : id ∈ Chapter5.starIds
    · simp only [Chapter5.step, if_pos hid, Chapter5.completionEffect_activeStars,
        Chapter5.activateStar_activeStars_of_mem _ _ hid, Finset.insert_idem]
    · simp only [Chapter5.step, if_neg hid]

/-- C7, at block 1, star 1 and shadow 1: the first application takes the size
from 0 to 1, the second leaves it at 1. -/
theorem no_double_counting_witness :
    (1 ∉ Chapter2.init.brokenIds ∧ 1 ∈ (Chapter2.breakIce 1 Chapter2.init).brokenIds ∧
      (Chapter2.breakIce 1 Chapter2.init).brokenIds.card = 0 + 1 ∧
      (Chapter2.breakIce 1 (Chapter2.breakIce 1 Chapter2.init)).brokenIds.card = 1) ∧
    (1 ∈ Chapter5.starIds ∧ 1 ∉ Chapter5.init.activeStars ∧
      1 ∈ (Chapter5.activateStar 1 Chapter5.init).activeStars ∧
      (Chapter5.activateStar 1 Chapter5.init).activeStars.card = 0 + 1 ∧
      (Chapter5.activateStar 1 (Chapter5.activateStar 1 Chapter5.init)).activeStars.card = 1) ∧
    (1 ∈ Chapter6.shadowIds ∧ 1 ∉ Chapter6.init.repelledIds ∧
      1 ∈ (Chapter6.repelShadow 1 Chapter6.init).repelledIds ∧
      (Chapter6.repelShadow 1 Chapter6.init).repelledIds.card = 0 + 1 ∧
      (Chapter6.repelShadow 1 (Chapter6.repelShadow 1 Chapter6.init)).repelledIds.card = 1) :=
  ⟨⟨by decide, by decide,
    (no_double_counting.1 Chapter2.init 1).2.1 (by decide),
    ((no_double_counting.1 (Chapter2.breakIce 1 Chapter2.init) 1).2.2 (by decide)).trans
      (by decide)⟩,
   ⟨by decide, by decide, by decide,
    (no_double_counting.2.1 Chapter5.init 1 (by decide)).2.1 (by decide),
    ((no_double_counting.2.1 (Chapter5.activateStar 1 Chapter5.init) 1 (by decide)).2.2
      (by decide)).trans (by decide)⟩,
   ⟨by decide, by decide, by decide,
    (no_double_counting.2.2.1 Chapter6.init 1 (by decide)).2.1 (by decide),
    ((no_double_counting.2.2.1 (Chapter6.repelShadow 1 Chapter6.init) 1 (by decide)).2.2
      (by decide)).trans (by decide)⟩⟩

end Reveal

namespace Chapter2

/-- C8. In Chapter 2, for every sequence of `breakIce` calls with ids of
`ICE_BLOCKS` (made directly or through clicks on the blocks), the size of
`brokenIds` is the number of distinct ids in the sequence, and the completion
test `brokenIds.size === ICE_BLOCKS.length` holds exactly when all five ids have
been clicked. Clicking 1, 2, 3, 4, 5 in order gives progress `k` after `k` clicks,
and the test holds after the fifth click and not before. -/
theorem progress_counts_distinct_ids :
    ICE_BLOCKS.length = 5 ∧ blockIds = [1, 2, 3, 4, 5] ∧
    (∀ ids : List Nat, (∀ id ∈ ids, id ∈ blockIds) →
      (ids.foldl (fun s id => breakIce id s) init).brokenIds.card = ids.dedup.length ∧
      (run init (ids.map Event.iceClick)).brokenIds.card = ids.dedup.length ∧
      (completionTest (ids.foldl (fun s id => breakIce id s) init) = true ↔
        ∀ id ∈ blockIds, id ∈ ids) ∧
      (completionTest (run init (ids.map Event.iceClick)) = true ↔
        ∀ id ∈ blockIds, id ∈ ids)) ∧
    (∀ k : Nat, k ≤ 5 →
      (run init (([1, 2, 3, 4, 5].take k).map Event.iceClick)).brokenIds.card = k ∧
      (completionTest (run init (([1, 2, 3, 4, 5].take k).map Event.iceClick)) = true ↔
        k = 5)) := by
  refine ⟨rfl, rfl, fun ids hids => ?_, fun k hk => ?_⟩
  · have h1 : (ids.foldl (fun s id => breakIce id s) init).brokenIds = ids.toFinset := by
      rw [foldl_breakIce_brokenIds]
      simp [init]
    have h2 : (run init (ids.map Event.iceClick)).brokenIds = ids.toFinset := by
      rw [run_iceClick_brokenIds ids hids]
      simp [init]
    have hsub : ids.toFinset ⊆ blockIds.toFinset := fun x hx =>
      List.mem_toFinset.mpr (hids x (List.mem_toFinset.mp hx))
    have hiff := card_eq_five_iff ids.toFinset hsub
    simp only [List.mem_toFinset] at hiff
    refine ⟨?_, ?_, ?_, ?_⟩
    · rw [h1, List.card_toFinset]
    · rw [h2, List.card_toFinset]
    · simp only [completionTest, h1, decide_eq_true_eq]
      exact hiff
    · simp only [completionTest, h2, decide_eq_true_eq]
      exact hiff
  · interval_cases k <;> decide

/-- C8, on the sequence 1, 2, 3, 2, 1 (three distinct ids, the test fails) and on
the sequence 1, 2, 3, 4, 5 cut after four and after five clicks. -/
theorem progress_counts_distinct_ids_witness :
    (∀ id ∈ [1, 2, 3, 2, 1], id ∈ blockIds) ∧
    (run init ([1, 2, 3, 2, 1].map Event.iceClick)).brokenIds.card = 3 ∧
    ((run init (([1, 2, 3, 4, 5].take 4).map Event.iceClick)).brokenIds.card = 4 ∧
      (completionTest (run init (([1, 2, 3, 4, 5].take 4).map Event.iceClick)) = true ↔
        4 = 5)) ∧
    ((run init (([1, 2, 3, 4, 5].take 5).map Event.iceClick)).brokenIds.card = 5 ∧
      (completionTest (run init (([1, 2, 3, 4, 5].take 5).map Event.iceClick)) = true ↔
        5 = 5)) :=
  ⟨by decide,
   ((progress_counts_distinct_ids.2.2.1 [1, 2, 3, 2, 1] (by decide)).2.1).trans (by decide),
   progress_counts_distinct_ids.2.2.2 4 (by decide),
   progress_counts_distinct_ids.2.2.2 5 (by decide)⟩

end Chapter2

namespace Reveal

/-- C9. Progress never goes back and no item is ever un-revealed: each handler
(`handleClick` of Chapters 1, 3, 4 and 7, `breakIce`, `activateStar`,
`repelShadow`) returns a state whose counter is at least the counter before and
whose set of completed ids contains the set before; the same holds for every
event of every chapter, timers included. -/
theorem progress_monotone :
    (∀ s : Chapter1.State, s.revealedCount ≤ (Chapter1.handleClick s).revealedCount) ∧
    (∀ s : Chapter3.State,
      s.currentBeat ≤ (Chapter3.handleClick s).currentBeat ∧
      s.fallenPlates ⊆ (Chapter3.handleClick s).fallenPlates) ∧
    (∀ s : Chapter4.State, s.currentScene ≤ (Chapter4.handleClick s).currentScene) ∧
    (∀ s : Chapter7.State, s.currentPassage ≤ (Chapter7.handleClick s).currentPassage) ∧
    (∀ (s : Chapter2.State) (id : Nat),
      s.brokenIds ⊆ (Chapter2.breakIce id s).brokenIds ∧
      s.brokenIds.card ≤ (Chapter2.breakIce id s).brokenIds.card) ∧
    (∀ (s : Chapter5.State) (id : Nat),
      s.activeStars ⊆ (Chapter5.activateStar id s).activeStars ∧
      s.activeStars.card ≤ (Chapter5.activateStar id s).activeStars.card) ∧
    (∀ (s : Chapter6.State) (id : Nat),
      s.repelledIds ⊆ (Chapter6.repelShadow id s).repelledIds ∧
      s.repelledIds.card ≤ (Chapter6.repelShadow id s).repelledIds.card) ∧
    (∀ (s : Chapter1.State) (e : Chapter1.Event),
      s.revealedCount ≤ (Chapter1.step s e).revealedCount) ∧
    (∀ (s : Chapter2.State) (e : Chapter2.Event),
      s.brokenIds ⊆ (Chapter2.step s e).brokenIds) ∧
    (∀ (s : Chapter3.State) (e : Chapter3.Event),
      s.currentBeat ≤ (Chapter3.step s e).currentBeat ∧
      s.fallenPlates ⊆ (Chapter3.step s e).fallenPlates) ∧
    (∀ (s : Chapter4.State) (e : Chapter4.Event),
      s.currentScene ≤ (Chapter4.step s e).currentScene) ∧
    (∀ (s : Chapter5.State) (e : Chapter5.Event),
      s.activeStars ⊆ (Chapter5.step s e).activeStars) ∧
    (∀ (s : Chapter6.State) (e : Chapter6.Event),
      s.repelledIds ⊆ (Chapter6.step s e).repelledIds) ∧
    (∀ (s : Chapter7.State) (e : Chapter7.Event),
      s.currentPassage ≤ (Chapter7.step s e).currentPassage) := by
  refine ⟨fun s => Chapter1.step_revealedCount_le s .click,
    fun s => ⟨?_, Chapter3.handleClick_fallenPlates_subset s⟩, fun s => ?_,
    Chapter7.handleClick_currentPassage_le,
    fun s id => ⟨Finset.subset_insert _ _, Finset.card_le_card (Finset.subset_insert _ _)⟩,
    fun s id => ⟨Chapter5.activateStar_activeStars_subset id s,
      Finset.card_le_card (Chapter5.activateStar_activeStars_subset id s)⟩,
    fun s id => ⟨Chapter6.repelShadow_repelledIds_subset id s,
      Finset.card_le_card (Chapter6.repelShadow_repelledIds_subset id s)⟩,
    Chapter1.step_revealedCount_le, Chapter2.step_brokenIds_subset,
    fun s e => ⟨Chapter3.step_currentBeat_le s e, Chapter3.step_fallenPlates_subset s e⟩,
    Chapter4.step_currentScene_le, Chapter5.step_activeStars_subset,
    Chapter6.step_repelledIds_subset, Chapter7.step_currentPassage_le⟩
  · rw [Chapter3.handleClick_currentBeat]
    split <;> omega
  · rw [Chapter4.handleClick_currentScene]
    split <;> omega

/-- C10. In Chapters 1, 3 and 4 the counter of every reachable state (the state
after any sequence of events from the mounted state) is at most the length of the
table, so the completion test `counter >= N` of the code holds exactly when the
counter equals `N`. -/
theorem complete_iff_counter_eq_length :
    (∀ es : List Chapter1.Event,
      (Chapter1.run Chapter1.init es).revealedCount ≤ Chapter1.TEXTS.length ∧
      ((Chapter1.run Chapter1.init es).revealedCount ≥ Chapter1.TEXTS.length ↔
        (Chapter1.run Chapter1.init es).revealedCount = Chapter1.TEXTS.length) ∧
      (Chapter1.continueShown (Chapter1.run Chapter1.init es) = true ↔
        (Chapter1.run Chapter1.init es).revealedCount = Chapter1.TEXTS.length)) ∧
    (∀ es : List Chapter3.Event,
      (Chapter3.run Chapter3.init es).currentBeat ≤ Chapter3.HEARTBEATS.length ∧
      ((Chapter3.run Chapter3.init es).currentBeat ≥ Chapter3.HEARTBEATS.length ↔
        (Chapter3.run Chapter3.init es).currentBeat = Chapter3.HEARTBEATS.length) ∧
      (Chapter3.allDone (Chapter3.run Chapter3.init es) = true ↔
        (Chapter3.run Chapter3.init es).currentBeat = Chapter3.HEARTBEATS.length)) ∧
    (∀ es : List Chapter4.Event,
      (Chapter4.run Chapter4.init es).currentScene ≤ Chapter4.SCENES.length ∧
      ((Chapter4.run Chapter4.init es).currentScene ≥ Chapter4.SCENES.length ↔
        (Chapter4.run Chapter4.init es).currentScene = Chapter4.SCENES.length) ∧
      (Chapter4.allDone (Chapter4.run Chapter4.init es) = true ↔
        (Chapter4.run Chapter4.init es).currentScene = Chapter4.SCENES.length)) := by
  refine ⟨fun es => ?_, fun es => ?_, fun es => ?_⟩
  · have h := Chapter1.run_revealedCount es
    have hle : (Chapter1.run Chapter1.init es).revealedCount ≤ Chapter1.TEXTS.length := by
      rw [h, Chapter1.TEXTS_length]; omega
    refine ⟨hle, by omega, ?_⟩
    simp only [Chapter1.continueShown, decide_eq_true_eq]
    omega
  · have h := Chapter3.run_currentBeat es
    have hle : (Chapter3.run Chapter3.init es).currentBeat ≤ Chapter3.HEARTBEATS.length := by
      rw [h, Chapter3.HEARTBEATS_length]; omega
    refine ⟨hle, by omega, ?_⟩
    simp only [Chapter3.allDone, decide_eq_true_eq]
    omega
  · have h := Chapter4.run_currentScene es
    have hle : (Chapter4.run Chapter4.init es).currentScene ≤ Chapter4.SCENES.length := by
      rw [h, Chapter4.SCENES_length]; omega
    refine ⟨hle, by omega, ?_⟩
    simp only [Chapter4.allDone, decide_eq_true_eq]
    omega

end Reveal

/-! ## Chapter 3: one plate per beat -/

namespace Chapter3

theorem armor_invariant_init : Invariant init := by
  refine ⟨rfl, by decide, ?_, ?_⟩ <;> simp [init]

theorem armor_invariant_step (s : State) (e : Event) (h : Invariant s) : Invariant (step s e) := by
  obtain ⟨hf, hle, ht, hm⟩ := h
  rw [HEARTBEATS_length] at hle ht hm
  cases e with
  | click =>
      simp only [step, allDone, HEARTBEATS_length]
      split
      · exact ⟨hf, hle, ht, hm⟩
      · rename_i hnd
        have hlt : s.currentBeat < 6 := by simpa using hnd
        have hne : ¬ (6 ≤ s.currentBeat) := by omega
        have hnofinal : s.showFinalMessage = false := by
          cases hsm : s.showFinalMessage
          · rfl
          · have := hm hsm; omega
        simp only [Invariant, completionEffect, completionTest, handleClick, HEARTBEATS_length,
          ARMOR_PLATES_length, ge_iff_le, if_neg hne, hf]
        rw [if_pos (Or.inr (by omega))]
        refine ⟨Finset.range_succ.symm, by simp only; omega, ?_, ?_⟩
        · simp only [Bool.and_eq_true, decide_eq_true_eq]
          intro h6
          omega
        · simp [hnofinal]
  | continueClick => exact ⟨hf, hle, ht, hm⟩
  | hintTimeout =>
      simp only [step]
      split <;> exact ⟨hf, hle, ht, hm⟩
  | finalTimeout =>
      simp only [step]
      split
      · rename_i hft
        exact ⟨hf, hle, by simp, fun _ => ht hft⟩
      · exact ⟨hf, hle, ht, hm⟩
  | pulseTimeout =>
      simp only [step]
      split <;> exact ⟨hf, hle, ht, hm⟩

theorem armor_invariant_run (es : List Event) (s : State) (h : Invariant s) :
    Invariant (run s es) := by
  induction es generalizing s with
  | nil => exact h
  | cons e es ih => exact ih (step s e) (armor_invariant_step s e h)

/-- C16. In Chapter 3 each effective click makes exactly one plate fall: in every
reachable state `fallenPlates` is the set of the plate ids below `currentBeat`, so
its size is `currentBeat`; after 6 clicks (or more) all the plates of
`ARMOR_PLATES` have fallen; and the two conjuncts of the completion test are
equivalent. -/
theorem one_plate_per_beat :
    (∀ es : List Event,
      (run init es).fallenPlates = Finset.range (run init es).currentBeat ∧
      (run init es).fallenPlates.card = (run init es).currentBeat ∧
      ((run init es).fallenPlates.card = ARMOR_PLATES.length ↔
        (run init es).currentBeat ≥ HEARTBEATS.length) ∧
      (completionTest (run init es) = allDone (run init es))) ∧
    (∀ s : State, s.currentBeat < HEARTBEATS.length →
      (handleClick s).fallenPlates = insert s.currentBeat s.fallenPlates ∧
      (handleClick s).currentBeat = s.currentBeat + 1) ∧
    (∀ es : List Event, 6 ≤ es.count .click →
      (run init es).fallenPlates = (ARMOR_PLATES.map (·.id)).toFinset ∧
      (run init es).fallenPlates.card = 6) := by
  refine ⟨fun es => ?_, fun s hs => ?_, fun es hes => ?_⟩
  · obtain ⟨hf, hle, -, -⟩ := armor_invariant_run es init armor_invariant_init
    have hcard : (run init es).fallenPlates.card = (run init es).currentBeat := by
      rw [hf, Finset.card_range]
    rw [HEARTBEATS_length] at hle
    refine ⟨hf, hcard, ?_, ?_⟩
    · rw [hcard, ARMOR_PLATES_length, HEARTBEATS_length]; omega
    · simp only [completionTest, allDone, hcard, ARMOR_PLATES_length, HEARTBEATS_length]
      by_cases h6 : (run init es).currentBeat = 6
      · simp [h6]
      · have : ¬ (6 ≤ (run init es).currentBeat) := by omega
        simp [h6, this]
  · rw [HEARTBEATS_length] at hs
    have hne : ¬ (s.currentBeat ≥ HEARTBEATS.length) := by rw [HEARTBEATS_length]; omega
    simp only [handleClick, if_neg hne, and_self]
  · obtain ⟨hf, -, -, -⟩ := armor_invariant_run es init armor_invariant_init
    have hb : (run init es).currentBeat = 6 := by
      rw [run_currentBeat]; omega
    rw [hf, hb]
    exact ⟨by decide, by decide⟩

/-- C16, after one click (plate 0 has fallen, beat 1) and after six clicks (all
six plates have fallen). -/
theorem one_plate_per_beat_witness :
    (init.currentBeat < HEARTBEATS.length ∧
      (handleClick init).fallenPlates = insert 0 ∅ ∧ (handleClick init).currentBeat = 0 + 1) ∧
    (6 ≤ (List.replicate 6 Event.click).count .click ∧
      (run init (List.replicate 6 .click)).fallenPlates = (ARMOR_PLATES.map (·.id)).toFinset ∧
      (run init (List.replicate 6 .click)).fallenPlates.card = 6) :=
  ⟨⟨by decide, one_plate_per_beat.2.1 init (by decide)⟩,
   ⟨by decide, one_plate_per_beat.2.2 (List.replicate 6 .click) (by decide)⟩⟩

end Chapter3

/-! ## Chapter 7: the passages and the state past the last one -/

namespace Chapter7

theorem passage_text_nonempty : ∀ p ∈ PASSAGES, 0 < p.text.length := by decide

theorem currentData_mem (s : State) (p : Passage) (h : currentData s = some p) :
    p ∈ PASSAGES := by
  unfold currentData at h
  split at h
  · exact List.get?_mem h
  · cases h

theorem mount_not_complete (p : Passage) (hp : p ∈ PASSAGES) :
    (TypewriterText.mount p.text true).2 = false := by
  have hlen := passage_text_nonempty p hp
  simp only [TypewriterText.mount, TypewriterText.tickEffect]
  rw [if_pos hlen]

theorem rerender_typingComplete (old new : State) :
    (rerender old new).typingComplete = new.typingComplete := by
  unfold rerender
  split
  · simp only
    split
    · rfl
    · rename_i passage hp
      have := mount_not_complete passage (currentData_mem _ _ hp)
      simp [this]
  · rfl

theorem rerender_finalTimer (old new : State) :
    (rerender old new).finalTimer =
      if new.currentPassage ≠ old.currentPassage then decide (new.currentPassage > PASSAGES.length)
      else new.finalTimer := by
  unfold rerender
  split
  · simp only
    split <;> rfl
  · rfl

theorem rerender_showFinalMessage (old new : State) :
    (rerender old new).showFinalMessage = new.showFinalMessage := by
  unfold rerender
  split
  · simp only
    split <;> rfl
  · rfl

theorem handleClick_cases (s : State) :
    handleClick s = s ∨
    (s.typingComplete = true ∧ s.currentPassage ≤ PASSAGES.length ∧
      handleClick s =
        { s with currentPassage := s.currentPassage + 1, typingComplete := false,
                 showHint := false }) := by
  unfold handleClick
  cases htc : s.typingComplete
  · exact Or.inl rfl
  · by_cases hcp : s.currentPassage > PASSAGES.length
    · exact Or.inl (by simp [hcp])
    · exact Or.inr ⟨rfl, by omega, by simp [hcp]⟩

theorem passage_invariant_init : Invariant init := by
  refine ⟨by decide, ?_⟩
  simp [init, PASSAGES_length]

theorem passage_invariant_step (s : State) (e : Event) (h : Invariant s) : Invariant (step s e) := by
  obtain ⟨hle, hiff⟩ := h
  cases e with
  | click =>
      simp only [step]
      split
      · exact ⟨hle, hiff⟩
      · rename_i hnd
        have hlt : s.currentPassage ≤ PASSAGES.length := by
          simpa [allDone] using hnd
        rcases handleClick_cases s with hsame | ⟨_, _, hadv⟩
        · rw [hsame]
          have : rerender s s = s := by simp [rerender]
          rw [this]
          exact ⟨hle, hiff⟩
        · have hft : s.finalTimer = false ∧ s.showFinalMessage = false := by
            have hne : ¬ (s.finalTimer = true ∨ s.showFinalMessage = true) := by
              rw [hiff]; omega
            constructor
            · cases hx : s.finalTimer
              · rfl
              · exact absurd (Or.inl hx) hne
            · cases hx : s.showFinalMessage
              · rfl
              · exact absurd (Or.inr hx) hne
          refine ⟨?_, ?_⟩
          · rw [rerender_currentPassage, hadv]
            simp only
            omega
          · rw [rerender_currentPassage, rerender_finalTimer, rerender_showFinalMessage, hadv]
            simp only [ne_eq, Nat.succ_ne_self, not_false_eq_true, if_true, hft.2,
              decide_eq_true_eq, Bool.false_eq_true, or_false]
            omega
  | typewriterTick =>
      simp only [step]
      split <;> exact ⟨hle, hiff⟩
  | endingClick =>
      simp only [step]
      split <;> exact ⟨hle, hiff⟩
  | hintTimeout =>
      simp only [step]
      split <;> exact ⟨hle, hiff⟩
  | finalTimeout =>
      simp only [step]
      split
      · rename_i hft
        refine ⟨hle, ?_⟩
        simp only [Bool.false_eq_true, false_or, true_iff]
        exact hiff.mp (Or.inl hft)
      · exact ⟨hle, hiff⟩

theorem passage_invariant_run (es : List Event) (s : State) (h : Invariant s) :
    Invariant (run s es) := by
  induction es generalizing s with
  | nil => exact h
  | cons e es ih => exact ih (step s e) (passage_invariant_step s e h)

end Chapter7

namespace Chapter7

set_option maxRecDepth 1000000 in
/-- C11, as stated, fails: after the ten passages have been read to the end
(`currentPassage` equals `PASSAGES.length` and the tenth text is fully typed), the
sequence is not complete: `allDone` is false and no final-message timer is
armed. -/
theorem complete_at_ten_counterexample :
    (run init readAll.dropLast).currentPassage = PASSAGES.length ∧
    (run init readAll.dropLast).typingComplete = true ∧
    allDone (run init readAll.dropLast) = false ∧
    (run init readAll.dropLast).finalTimer = false ∧
    (run init readAll.dropLast).showFinalMessage = false := by
  decide

/-- C11, amended. In every reachable state of Chapter 7 the passage counter is at
most `PASSAGES.length + 1`, and the sequence is complete (`allDone` is true, and
the final-message timer is armed or has fired) exactly when `currentPassage`
equals `PASSAGES.length + 1`, that is after one more click past the tenth
passage; the final-message timer is armed only in such a state. -/
theorem complete_iff_past_last_passage :
    PASSAGES.length = 10 ∧
    ∀ es : List Event,
      (run init es).currentPassage ≤ PASSAGES.length + 1 ∧
      (allDone (run init es) = true ↔ (run init es).currentPassage = PASSAGES.length + 1) ∧
      (((run init es).finalTimer = true ∨ (run init es).showFinalMessage = true) ↔
        (run init es).currentPassage = PASSAGES.length + 1) ∧
      ((run init es).currentPassage = PASSAGES.length → allDone (run init es) = false) := by
  refine ⟨rfl, fun es => ?_⟩
  obtain ⟨hle, hiff⟩ := passage_invariant_run es init passage_invariant_init
  refine ⟨hle, ?_, hiff, ?_⟩
  · simp only [allDone, decide_eq_true_eq]
    omega
  · intro h10
    simp only [allDone, decide_eq_false_iff_not]
    omega

set_option maxRecDepth 1000000 in
/-- C11, amended, at the state reached by reading the whole chapter: the counter
is 11, `allDone` holds and the final-message timer is armed; one click earlier the
counter is 10 and `allDone` is false. -/
theorem complete_iff_past_last_passage_witness :
    (run init readAll).currentPassage = PASSAGES.length + 1 ∧
    allDone (run init readAll) = true ∧
    ((run init readAll).finalTimer = true ∨ (run init readAll).showFinalMessage = true) ∧
    (run init readAll.dropLast).currentPassage = PASSAGES.length ∧
    allDone (run init readAll.dropLast) = false :=
  ⟨by decide,
   ((complete_iff_past_last_passage.2 readAll).2.1).mpr (by decide),
   ((complete_iff_past_last_passage.2 readAll).2.2.1).mpr (by decide),
   by decide,
   (complete_iff_past_last_passage.2 readAll.dropLast).2.2.2 (by decide)⟩

/-- C17. In Chapter 7 a click does nothing while the current text is being typed:
with `typingComplete = false`, `handleClick` (and the click event of the page)
returns the state unchanged. A click that does advance sets `typingComplete` to
false and adds exactly one to `currentPassage`, in the handler and in the render
that follows it. -/
theorem click_while_typing :
    (∀ s : State, s.typingComplete = false → handleClick s = s ∧ step s .click = s) ∧
    (∀ s : State, handleClick s ≠ s →
      (handleClick s).typingComplete = false ∧
      (handleClick s).currentPassage = s.currentPassage + 1) ∧
    (∀ s : State, step s .click ≠ s →
      (step s .click).typingComplete = false ∧
      (step s .click).currentPassage = s.currentPassage + 1) := by
  refine ⟨fun s h => ?_, fun s h => ?_, fun s h => ?_⟩
  · have h1 : handleClick s = s := by
      unfold handleClick
      simp [h]
    refine ⟨h1, ?_⟩
    simp only [step, h1]
    split
    · rfl
    · simp [rerender]
  · rcases handleClick_cases s with hsame | ⟨_, _, hadv⟩
    · exact absurd hsame h
    · rw [hadv]
      exact ⟨rfl, rfl⟩
  · simp only [step] at h ⊢
    split at h
    · exact absurd rfl h
    · rename_i hnd
      rw [if_neg hnd]
      rcases handleClick_cases s with hsame | ⟨_, _, hadv⟩
      · rw [hsame] at h
        exact absurd (by simp [rerender]) h
      · rw [rerender_typingComplete, rerender_currentPassage, hadv]
        exact ⟨rfl, rfl⟩

set_option maxRecDepth 1000000 in
/-- C17, at the state just after the first click (the first text is being typed:
a second click changes nothing) and at the initial state (the first click
advances to passage 1). -/
theorem click_while_typing_witness :
    ((step init .click).typingComplete = false ∧
      handleClick (step init .click) = step init .click ∧
      step (step init .click) .click = step init .click) ∧
    (handleClick init ≠ init ∧ (handleClick init).typingComplete = false ∧
      (handleClick init).currentPassage = 0 + 1) ∧
    (step init .click ≠ init ∧ (step init .click).currentPassage = 0 + 1) :=
  ⟨⟨by decide, click_while_typing.1 (step init .click) (by decide)⟩,
   ⟨by decide, click_while_typing.2.1 init (by decide)⟩,
   ⟨by decide, (click_while_typing.2.2 init (by decide)).2⟩⟩

end Chapter7

/-! ## Completion is never early (Chapters 2 to 6) -/

namespace Reveal

/-- Inserting an id of the table into a set of ids of the table: the result is
still within the table, and nothing changes when the set was already full. -/
theorem insert_within (ids S : Finset Nat) (id : Nat) (hid : id ∈ ids) (hS : S ⊆ ids) :
    insert id S ⊆ ids ∧ (S.card = ids.card → insert id S = S) := by
  refine ⟨Finset.insert_subset hid hS, fun hc => ?_⟩
  have heq : S = ids := Finset.eq_of_subset_of_card_le hS (by omega)
  rw [heq]
  exact Finset.insert_eq_of_mem hid

end Reveal

namespace Chapter2

theorem blockIds_card : blockIds.toFinset.card = ICE_BLOCKS.length := by decide

theorem ice_invariant_init : Invariant init := by
  refine ⟨by simp [init], ?_, ?_⟩ <;> simp [init]

theorem ice_invariant_step (s : State) (e : Event) (h : Invariant s) : Invariant (step s e) := by
  obtain ⟨hsub, ht, hm⟩ := h
  cases e with
  | iceClick id =>
      simp only [step]
      split
      · rename_i hid
        have hid' : id ∈ blockIds.toFinset := List.mem_toFinset.mpr hid
        obtain ⟨hins, hfull⟩ := Reveal.insert_within _ _ id hid' hsub
        by_cases hmem : id ∈ s.brokenIds
        · have h1 : iceBlockClick id s = s := by
            unfold iceBlockClick
            rw [if_neg (by simpa using hmem)]
          have h2 : completionEffect s s = s := by simp [completionEffect]
          rw [h1, h2]
          exact ⟨hsub, ht, hm⟩
        · have h1 : iceBlockClick id s = breakIce id s := by
            unfold iceBlockClick
            rw [if_pos hmem]
          have hcard : (breakIce id s).brokenIds.card = s.brokenIds.card + 1 := by
            rw [breakIce_brokenIds, Finset.card_insert_of_not_mem hmem]
          have hnot : s.brokenIds.card ≠ ICE_BLOCKS.length := by
            intro hc
            have := hfull (hc.trans blockIds_card.symm)
            exact hmem (this ▸ Finset.mem_insert_self id s.brokenIds)
          rw [h1]
          unfold completionEffect
          rw [if_pos (by omega)]
          refine ⟨hins, ?_, ?_⟩
          · intro hft
            simpa [completionTest] using hft
          · intro hsm
            exact absurd (hm hsm) hnot
      · exact ⟨hsub, ht, hm⟩
  | continueClick => exact ⟨hsub, ht, hm⟩
  | finalTimeout =>
      simp only [step]
      split
      · rename_i hft
        exact ⟨hsub, by simp, fun _ => ht hft⟩
      · exact ⟨hsub, ht, hm⟩

theorem ice_invariant_run (es : List Event) (s : State) (h : Invariant s) :
    Invariant (run s es) := by
  induction es generalizing s with
  | nil => exact h
  | cons e es ih => exact ih (step s e) (ice_invariant_step s e h)

theorem ice_completes_imp (s : State) (e : Event) (h : completes s e = true) :
    s.showFinalMessage = true := by
  cases e <;> simp_all [completes]

end Chapter2

namespace Chapter4

theorem scene_invariant_init : Invariant init := by
  refine ⟨by decide, ?_, ?_⟩ <;> simp [init]

theorem scene_invariant_step (s : State) (e : Event) (h : Invariant s) : Invariant (step s e) := by
  obtain ⟨hle, ht, hm⟩ := h
  rw [SCENES_length] at hle ht hm
  cases e with
  | click =>
      simp only [step, allDone, SCENES_length]
      split
      · exact ⟨hle, ht, hm⟩
      · rename_i hnd
        have hlt : s.currentScene < 7 := by simpa using hnd
        have hnofinal : s.showFinalMessage = false := by
          cases hsm : s.showFinalMessage
          · rfl
          · have := hm hsm; omega
        simp only [Invariant, completionEffect, handleClick, SCENES_length, if_pos hlt]
        rw [if_pos (by simp)]
        refine ⟨by simp only; omega, ?_, ?_⟩
        · simp only [ge_iff_le, decide_eq_true_eq]
          intro h7
          omega
        · simp [hnofinal]
  | continueClick => exact ⟨hle, ht, hm⟩
  | hintTimeout =>
      simp only [step]
      split <;> exact ⟨hle, ht, hm⟩
  | finalTimeout =>
      simp only [step]
      split
      · rename_i hft
        exact ⟨hle, by simp, fun _ => ht hft⟩
      · exact ⟨hle, ht, hm⟩

theorem scene_invariant_run (es : List Event) (s : State) (h : Invariant s) :
    Invariant (run s es) := by
  induction es generalizing s with
  | nil => exact h
  | cons e es ih => exact ih (step s e) (scene_invariant_step s e h)

theorem scene_completes_imp (s : State) (e : Event) (h : completes s e = true) :
    s.showFinalMessage = true := by
  cases e <;> simp_all [completes]

end Chapter4

namespace Chapter3

theorem armor_completes_imp (s : State) (e : Event) (h : completes s e = true) :
    s.showFinalMessage = true := by
  cases e <;> simp_all [completes]

end Chapter3

namespace Chapter5

theorem starIds_card : starIds.toFinset.card = STARS.length := by decide

/-- An id that is not in `STARS` is not found. -/
theorem find_star_of_not_mem (id : Nat) (h : id ∉ starIds) :
    STARS.find? (fun star => star.id == id) = none := by
  rw [List.find?_eq_none]
  intro star hstar hid
  exact h (by rw [← beq_iff_eq.mp hid]; exact List.mem_map_of_mem _ hstar)

theorem activateStar_of_not_mem (id : Nat) (s : State) (h : id ∉ starIds) :
    activateStar id s = s := by
  simp only [activateStar, find_star_of_not_mem id h]

theorem activateStar_of_mem (id : Nat) (s : State) (h : id ∈ starIds) :
    ∃ star : StarData, activateStar id s =
      { s with activeStars := insert id s.activeStars, currentText := star.text,
               showHint := false } := by
  obtain ⟨star, hstar⟩ := find_star_of_mem id h
  exact ⟨star, by simp only [activateStar, hstar]⟩

/-- The effect of `onActivate(star.id)` followed by the render: the invariant is
kept. -/
theorem star_invariant_activate (s : State) (id : Nat) (h : Invariant s) :
    Invariant (completionEffect s (activateStar id s)) := by
  obtain ⟨hsub, ht, hm⟩ := h
  by_cases hid : id ∈ starIds
  · obtain ⟨star, hact⟩ := activateStar_of_mem id s hid
    have hid' : id ∈ starIds.toFinset := List.mem_toFinset.mpr hid
    obtain ⟨hins, hfull⟩ := Reveal.insert_within _ _ id hid' hsub
    rw [hact]
    by_cases hmem : id ∈ s.activeStars
    · have hcard : (insert id s.activeStars).card = s.activeStars.card := by
        rw [Finset.insert_eq_of_mem hmem]
      simp only [completionEffect, hcard, ne_eq, not_true_eq_false, if_false]
      exact ⟨hins, fun hft => by rw [hcard]; exact ht hft,
        fun hsm => by rw [hcard]; exact hm hsm⟩
    · have hcard : (insert id s.activeStars).card = s.activeStars.card + 1 :=
        Finset.card_insert_of_not_mem hmem
      have hnot : s.activeStars.card ≠ STARS.length := by
        intro hc
        have := hfull (hc.trans starIds_card.symm)
        exact hmem (this ▸ Finset.mem_insert_self id s.activeStars)
      simp only [completionEffect, hcard, ne_eq, Nat.succ_ne_self, not_false_eq_true, if_true]
      refine ⟨hins, ?_, ?_⟩
      · intro hft
        simpa [completionTest, hcard] using hft
      · intro hsm
        exact absurd (hm hsm) hnot
  · rw [activateStar_of_not_mem id s hid]
    have : completionEffect s s = s := by simp [completionEffect]
    rw [this]
    exact ⟨hsub, ht, hm⟩

theorem star_invariant_init : Invariant init := by
  refine ⟨by simp [init], ?_, ?_⟩ <;> simp [init]

theorem star_invariant_step (s : State) (e : Event) (h : Invariant s) :
    Invariant (step s e) := by
  cases e with
  | starClick id =>
      simp only [step]
      split
      · exact star_invariant_activate s id h
      · exact h
  | starMouseEnter id =>
      simp only [step]
      split
      · exact star_invariant_activate s id h
      · exact h
  | continueClick => exact h
  | hintTimeout =>
      obtain ⟨hsub, ht, hm⟩ := h
      simp only [step]
      split <;> exact ⟨hsub, ht, hm⟩
  | finalTimeout =>
      obtain ⟨hsub, ht, hm⟩ := h
      simp only [step]
      split
      · rename_i hft
        exact ⟨hsub, by simp, fun _ => ht hft⟩
      · exact ⟨hsub, ht, hm⟩

theorem star_invariant_run (es : List Event) (s : State) (h : Invariant s) :
    Invariant (run s es) := by
  induction es generalizing s with
  | nil => exact h
  | cons e es ih => exact ih (step s e) (star_invariant_step s e h)

theorem star_completes_imp (s : State) (e : Event) (h : completes s e = true) :
    s.showFinalMessage = true := by
  cases e <;> simp_all [completes]

/-- After any sequence of calls of `activateStar`, with any ids, only stars of the
table are active. -/
theorem foldl_activateStar_subset (ids : List Nat) (s : State)
    (h : s.activeStars ⊆ starIds.toFinset) :
    (ids.foldl (fun s id => activateStar id s) s).activeStars ⊆ starIds.toFinset := by
  induction ids generalizing s with
  | nil => exact h
  | cons id ids ih =>
      apply ih
      show (activateStar id s).activeStars ⊆ starIds.toFinset
      by_cases hid : id ∈ starIds
      · rw [activateStar_activeStars_of_mem id s hid]
        exact Finset.insert_subset (List.mem_toFinset.mpr hid) h
      · rw [activateStar_of_not_mem id s hid]
        exact h

end Chapter5

namespace Chapter6

theorem shadowIds_card : shadowIds.toFinset.card = SHADOWS.length := by decide

/-- An id that is not in `SHADOWS` is not found. -/
theorem find_shadow_of_not_mem (id : Nat) (h : id ∉ shadowIds) :
    SHADOWS.find? (fun shadow => shadow.id == id) = none := by
  rw [List.find?_eq_none]
  intro shadow hshadow hid
  exact h (by rw [← beq_iff_eq.mp hid]; exact List.mem_map_of_mem _ hshadow)

theorem repelShadow_of_not_mem (id : Nat) (s : State) (h : id ∉ shadowIds) :
    repelShadow id s = s := by
  simp only [repelShadow, find_shadow_of_not_mem id h]

theorem repelShadow_of_mem (id : Nat) (s : State) (h : id ∈ shadowIds) :
    ∃ shadow : ShadowData, repelShadow id s =
      { s with repelledIds := insert id s.repelledIds, currentTruth := shadow.truth,
               showHint := false } := by
  obtain ⟨shadow, hshadow⟩ := find_shadow_of_mem id h
  exact ⟨shadow, by simp only [repelShadow, hshadow]⟩

/-- The effect of `onRepel(shadow.id)` followed by the render: the invariant is
kept. -/
theorem shadow_invariant_repel (s : State) (id : Nat) (h : Invariant s) :
    Invariant (completionEffect s (repelShadow id s)) := by
  obtain ⟨hsub, ht, hm⟩ := h
  by_cases hid : id ∈ shadowIds
  · obtain ⟨shadow, hact⟩ := repelShadow_of_mem id s hid
    have hid' : id ∈ shadowIds.toFinset := List.mem_toFinset.mpr hid
    obtain ⟨hins, hfull⟩ := Reveal.insert_within _ _ id hid' hsub
    rw [hact]
    by_cases hmem : id ∈ s.repelledIds
    · have hcard : (insert id s.repelledIds).card = s.repelledIds.card := by
        rw [Finset.insert_eq_of_mem hmem]
      simp only [completionEffect, hcard, ne_eq, not_true_eq_false, if_false]
      exact ⟨hins, fun hft => by rw [hcard]; exact ht hft,
        fun hsm => by rw [hcard]; exact hm hsm⟩
    · have hcard : (insert id s.repelledIds).card = s.repelledIds.card + 1 :=
        Finset.card_insert_of_not_mem hmem
      have hnot : s.repelledIds.card ≠ SHADOWS.length := by
        intro hc
        have := hfull (hc.trans shadowIds_card.symm)
        exact hmem (this ▸ Finset.mem_insert_self id s.repelledIds)
      simp only [completionEffect, hcard, ne_eq, Nat.succ_ne_self, not_false_eq_true, if_true]
      refine ⟨hins, ?_, ?_⟩
      · intro hft
        simpa [allDone, hcard] using hft
      · intro hsm
        exact absurd (hm hsm) hnot
  · rw [repelShadow_of_not_mem id s hid]
    have : completionEffect s s = s := by simp [completionEffect]
    rw [this]
    exact ⟨hsub, ht, hm⟩

theorem shadow_invariant_init : Invariant init := by
  refine ⟨by simp [init], ?_, ?_⟩ <;> simp [init]

theorem shadow_invariant_step (s : State) (e : Event) (h : Invariant s) :
    Invariant (step s e) := by
  cases e with
  | shadowClick id =>
      simp only [step]
      split
      · exact shadow_invariant_repel s id h
      · exact h
  | resize innerWidth =>
      obtain ⟨hsub, ht, hm⟩ := h
      simp only [step, updateSize]
      split
      · exact ⟨hsub, ht, hm⟩
      · split <;> exact ⟨hsub, ht, hm⟩
  | continueClick => exact h
  | hintTimeout =>
      obtain ⟨hsub, ht, hm⟩ := h
      simp only [step]
      split <;> exact ⟨hsub, ht, hm⟩
  | finalTimeout =>
      obtain ⟨hsub, ht, hm⟩ := h
      simp only [step]
      split
      · rename_i hft
        exact ⟨hsub, by simp, fun _ => ht hft⟩
      · exact ⟨hsub, ht, hm⟩

theorem shadow_invariant_run (es : List Event) (s : State) (h : Invariant s) :
    Invariant (run s es) := by
  induction es generalizing s with
  | nil => exact h
  | cons e es ih => exact ih (step s e) (shadow_invariant_step s e h)

theorem shadow_completes_imp (s : State) (e : Event) (h : completes s e = true) :
    s.showFinalMessage = true := by
  cases e <;> simp_all [completes]

/-- After any sequence of calls of `repelShadow`, with any ids, only shadows of the
table are repelled. -/
theorem foldl_repelShadow_subset (ids : List Nat) (s : State)
    (h : s.repelledIds ⊆ shadowIds.toFinset) :
    (ids.foldl (fun s id => repelShadow id s) s).repelledIds ⊆ shadowIds.toFinset := by
  induction ids generalizing s with
  | nil => exact h
  | cons id ids ih =>
      apply ih
      show (repelShadow id s).repelledIds ⊆ shadowIds.toFinset
      by_cases hid : id ∈ shadowIds
      · rw [repelShadow_repelledIds_of_mem id s hid]
        exact Finset.insert_subset (List.mem_toFinset.mpr hid) h
      · rw [repelShadow_of_not_mem id s hid]
        exact h

end Chapter6

namespace Reveal

/-- C12. Completion never fires early. In every reachable state of Chapters 2 to
6 (after any sequence of user events and timer firings from the mounted state),
`showFinalMessage = true` implies that every item is completed: the id set has the
size of its table (Chapters 2, 5, 6), `currentBeat >= 6` with all 6 plates fallen
(Chapter 3), `currentScene >= 7` (Chapter 4). Hence an event invokes `onComplete`
only in such a state. -/
theorem completion_never_early :
    (∀ es : List Chapter2.Event,
      ((Chapter2.run Chapter2.init es).showFinalMessage = true →
        (Chapter2.run Chapter2.init es).brokenIds.card = Chapter2.ICE_BLOCKS.length) ∧
      (∀ e, Chapter2.completes (Chapter2.run Chapter2.init es) e = true →
        (Chapter2.run Chapter2.init es).brokenIds.card = Chapter2.ICE_BLOCKS.length)) ∧
    (∀ es : List Chapter3.Event,
      ((Chapter3.run Chapter3.init es).showFinalMessage = true →
        (Chapter3.run Chapter3.init es).currentBeat ≥ Chapter3.HEARTBEATS.length ∧
        (Chapter3.run Chapter3.init es).fallenPlates.card = Chapter3.ARMOR_PLATES.length) ∧
      (∀ e, Chapter3.completes (Chapter3.run Chapter3.init es) e = true →
        (Chapter3.run Chapter3.init es).currentBeat ≥ Chapter3.HEARTBEATS.length ∧
        (Chapter3.run Chapter3.init es).fallenPlates.card = Chapter3.ARMOR_PLATES.length)) ∧
    (∀ es : List Chapter4.Event,
      ((Chapter4.run Chapter4.init es).showFinalMessage = true →
        (Chapter4.run Chapter4.init es).currentScene ≥ Chapter4.SCENES.length) ∧
      (∀ e, Chapter4.completes (Chapter4.run Chapter4.init es) e = true →
        (Chapter4.run Chapter4.init es).currentScene ≥ Chapter4.SCENES.length)) ∧
    (∀ es : List Chapter5.Event,
      ((Chapter5.run Chapter5.init es).showFinalMessage = true →
        (Chapter5.run Chapter5.init es).activeStars.card = Chapter5.STARS.length) ∧
      (∀ e, Chapter5.completes (Chapter5.run Chapter5.init es) e = true →
        (Chapter5.run Chapter5.init es).activeStars.card = Chapter5.STARS.length)) ∧
    (∀ es : List Chapter6.Event,
      ((Chapter6.run Chapter6.init es).showFinalMessage = true →
        (Chapter6.run Chapter6.init es).repelledIds.card = Chapter6.SHADOWS.length) ∧
      (∀ e, Chapter6.completes (Chapter6.run Chapter6.init es) e = true →
        (Chapter6.run Chapter6.init es).repelledIds.card = Chapter6.SHADOWS.length)) := by
  refine ⟨fun es => ?_, fun es => ?_, fun es => ?_, fun es => ?_, fun es => ?_⟩
  · obtain ⟨-, -, hm⟩ := Chapter2.ice_invariant_run es _ Chapter2.ice_invariant_init
    exact ⟨hm, fun e he => hm (Chapter2.ice_completes_imp _ e he)⟩
  · obtain ⟨hf, -, -, hm⟩ := Chapter3.armor_invariant_run es _ Chapter3.armor_invariant_init
    have key : (Chapter3.run Chapter3.init es).showFinalMessage = true →
        (Chapter3.run Chapter3.init es).currentBeat ≥ Chapter3.HEARTBEATS.length ∧
        (Chapter3.run Chapter3.init es).fallenPlates.card = Chapter3.ARMOR_PLATES.length := by
      intro hsm
      have hb := hm hsm
      refine ⟨by omega, ?_⟩
      rw [hf, Finset.card_range, hb]
      rfl
    exact ⟨key, fun e he => key (Chapter3.armor_completes_imp _ e he)⟩
  · obtain ⟨-, -, hm⟩ := Chapter4.scene_invariant_run es _ Chapter4.scene_invariant_init
    have key : (Chapter4.run Chapter4.init es).showFinalMessage = true →
        (Chapter4.run Chapter4.init es).currentScene ≥ Chapter4.SCENES.length := by
      intro hsm
      have hb := hm hsm
      omega
    exact ⟨key, fun e he => key (Chapter4.scene_completes_imp _ e he)⟩
  · obtain ⟨-, -, hm⟩ := Chapter5.star_invariant_run es _ Chapter5.star_invariant_init
    exact ⟨hm, fun e he => hm (Chapter5.star_completes_imp _ e he)⟩
  · obtain ⟨-, -, hm⟩ := Chapter6.shadow_invariant_run es _ Chapter6.shadow_invariant_init
    exact ⟨hm, fun e he => hm (Chapter6.shadow_completes_imp _ e he)⟩

/-- C12, at the states in which the final message of each chapter is shown: all
items revealed, then the final-message timer fired. -/
theorem completion_never_early_witness :
    ((Chapter2.run Chapter2.init
        ([1, 2, 3, 4, 5].map Chapter2.Event.iceClick ++ [.finalTimeout])).showFinalMessage = true ∧
      (Chapter2.run Chapter2.init
        ([1, 2, 3, 4, 5].map Chapter2.Event.iceClick ++ [.finalTimeout])).brokenIds.card = 5) ∧
    ((Chapter3.run Chapter3.init
        (List.replicate 6 .click ++ [.finalTimeout])).showFinalMessage = true ∧
      (Chapter3.run Chapter3.init
        (List.replicate 6 .click ++ [.finalTimeout])).fallenPlates.card = 6) ∧
    ((Chapter4.run Chapter4.init
        (List.replicate 7 .click ++ [.finalTimeout])).showFinalMessage = true ∧
      (Chapter4.run Chapter4.init
        (List.replicate 7 .click ++ [.finalTimeout])).currentScene ≥ 7) ∧
    ((Chapter5.run Chapter5.init
        ([1, 2, 3, 4, 5, 6, 7, 8].map Chapter5.Event.starClick ++
          [.finalTimeout])).showFinalMessage = true ∧
      (Chapter5.run Chapter5.init
        ([1, 2, 3, 4, 5, 6, 7, 8].map Chapter5.Event.starClick ++
          [.finalTimeout])).activeStars.card = 8) ∧
    ((Chapter6.run Chapter6.init
        ([1, 2, 3, 4, 5, 6].map Chapter6.Event.shadowClick ++
          [.finalTimeout])).showFinalMessage = true ∧
      (Chapter6.run Chapter6.init
        ([1, 2, 3, 4, 5, 6].map Chapter6.Event.shadowClick ++
          [.finalTimeout])).repelledIds.card = 6) :=
  ⟨⟨by decide, (completion_never_early.1 _).1 (by decide)⟩,
   ⟨by decide, ((completion_never_early.2.1 _).1 (by decide)).2⟩,
   ⟨by decide, (completion_never_early.2.2.1 _).1 (by decide)⟩,
   ⟨by decide, (completion_never_early.2.2.2.1 _).1 (by decide)⟩,
   ⟨by decide, (completion_never_early.2.2.2.2 _).1 (by decide)⟩⟩

/-- C20. `activateStar` and `repelShadow` ignore unknown ids: called with an id
that is not in `STARS` / `SHADOWS` they return the state as it was. Hence in every
reachable state, and after any sequence of calls of the handler with any ids, the
set of completed ids is within the ids of the table and has at most 8, resp. 6,
elements. -/
theorem unknown_ids_ignored :
    (∀ (s : Chapter5.State) (id : Nat), id ∉ Chapter5.starIds →
      Chapter5.activateStar id s = s) ∧
    (∀ (s : Chapter6.State) (id : Nat), id ∉ Chapter6.shadowIds →
      Chapter6.repelShadow id s = s) ∧
    (∀ es : List Chapter5.Event,
      (Chapter5.run Chapter5.init es).activeStars ⊆ Chapter5.starIds.toFinset ∧
      (Chapter5.run Chapter5.init es).activeStars.card ≤ 8) ∧
    (∀ es : List Chapter6.Event,
      (Chapter6.run Chapter6.init es).repelledIds ⊆ Chapter6.shadowIds.toFinset ∧
      (Chapter6.run Chapter6.init es).repelledIds.card ≤ 6) ∧
    (∀ ids : List Nat,
      (ids.foldl (fun s id => Chapter5.activateStar id s) Chapter5.init).activeStars ⊆
        Chapter5.starIds.toFinset ∧
      (ids.foldl (fun s id => Chapter5.activateStar id s) Chapter5.init).activeStars.card ≤ 8) ∧
    (∀ ids : List Nat,
      (ids.foldl (fun s id => Chapter6.repelShadow id s) Chapter6.init).repelledIds ⊆
        Chapter6.shadowIds.toFinset ∧
      (ids.foldl (fun s id => Chapter6.repelShadow id s) Chapter6.init).repelledIds.card ≤ 6) := by
  have h5 : ∀ S : Finset Nat, S ⊆ Chapter5.starIds.toFinset → S.card ≤ 8 := fun S hS =>
    (Finset.card_le_card hS).trans (by decide)
  have h6 : ∀ S : Finset Nat, S ⊆ Chapter6.shadowIds.toFinset → S.card ≤ 6 := fun S hS =>
    (Finset.card_le_card hS).trans (by decide)
  refine ⟨fun s id h => Chapter5.activateStar_of_not_mem id s h,
    fun s id h => Chapter6.repelShadow_of_not_mem id s h,
    fun es => ?_, fun es => ?_, fun ids => ?_, fun ids => ?_⟩
  · obtain ⟨hsub, -, -⟩ := Chapter5.star_invariant_run es _ Chapter5.star_invariant_init
    exact ⟨hsub, h5 _ hsub⟩
  · obtain ⟨hsub, -, -⟩ := Chapter6.shadow_invariant_run es _ Chapter6.shadow_invariant_init
    exact ⟨hsub, h6 _ hsub⟩
  · have hsub := Chapter5.foldl_activateStar_subset ids Chapter5.init (by simp [Chapter5.init])
    exact ⟨hsub, h5 _ hsub⟩
  · have hsub := Chapter6.foldl_repelShadow_subset ids Chapter6.init (by simp [Chapter6.init])
    exact ⟨hsub, h6 _ hsub⟩

/-- C20, with the ids 0 and 9 (star 1 being active) and 0 and 7 (shadow 1 being
repelled): the state comes back unchanged. -/
theorem unknown_ids_ignored_witness :
    (9 ∉ Chapter5.starIds ∧ 0 ∉ Chapter5.starIds ∧
      Chapter5.activateStar 9 (Chapter5.activateStar 1 Chapter5.init) =
        Chapter5.activateStar 1 Chapter5.init ∧
      Chapter5.activateStar 0 Chapter5.init = Chapter5.init) ∧
    (7 ∉ Chapter6.shadowIds ∧ 0 ∉ Chapter6.shadowIds ∧
      Chapter6.repelShadow 7 (Chapter6.repelShadow 1 Chapter6.init) =
        Chapter6.repelShadow 1 Chapter6.init ∧
      Chapter6.repelShadow 0 Chapter6.init = Chapter6.init) :=
  ⟨⟨by decide, by decide, unknown_ids_ignored.1 _ 9 (by decide),
    unknown_ids_ignored.1 _ 0 (by decide)⟩,
   ⟨by decide, by decide, unknown_ids_ignored.2.1 _ 7 (by decide),
    unknown_ids_ignored.2.1 _ 0 (by decide)⟩⟩

end Reveal

/-! ## The completion callback, instance by instance -/

namespace Site

theorem step_of_fires (s : State) (e : Event) (h : fires s e = true) :
    step s e = invokeOnComplete s ∧ s.child.component ≠ .Chapter7 := by
  cases e with
  | chapter1 e =>
      cases hc : s.child with
      | chapter1 c =>
          have hcomp : Chapter1.completes c e = true := by simpa [fires, hc] using h
          exact ⟨by simp only [step, hc, hcomp, if_true], by simp [Mounted.component]⟩
      | _ => simp [fires, hc] at h
  | chapter2 e =>
      cases hc : s.child with
      | chapter2 c =>
          have hcomp : Chapter2.completes c e = true := by simpa [fires, hc] using h
          exact ⟨by simp only [step, hc, hcomp, if_true], by simp [Mounted.component]⟩
      | _ => simp [fires, hc] at h
  | chapter3 e =>
      cases hc : s.child with
      | chapter3 c =>
          have hcomp : Chapter3.completes c e = true := by simpa [fires, hc] using h
          exact ⟨by simp only [step, hc, hcomp, if_true], by simp [Mounted.component]⟩
      | _ => simp [fires, hc] at h
  | chapter4 e =>
      cases hc : s.child with
      | chapter4 c =>
          have hcomp : Chapter4.completes c e = true := by simpa [fires, hc] using h
          exact ⟨by simp only [step, hc, hcomp, if_true], by simp [Mounted.component]⟩
      | _ => simp [fires, hc] at h
  | chapter5 e =>
      cases hc : s.child with
      | chapter5 c =>
          have hcomp : Chapter5.completes c e = true := by simpa [fires, hc] using h
          exact ⟨by simp only [step, hc, hcomp, if_true], by simp [Mounted.component]⟩
      | _ => simp [fires, hc] at h
  | chapter6 e =>
      cases hc : s.child with
      | chapter6 c =>
          have hcomp : Chapter6.completes c e = true := by simpa [fires, hc] using h
          exact ⟨by simp only [step, hc, hcomp, if_true], by simp [Mounted.component]⟩
      | _ => simp [fires, hc] at h
  | chapter7 e => simp [fires] at h

theorem step_of_not_fires (s : State) (e : Event) (h : fires s e = false) :
    (step s e).app = s.app ∧ (step s e).scrolls = s.scrolls := by
  cases e with
  | chapter1 e =>
      cases hc : s.child with
      | chapter1 c =>
          have hcomp : Chapter1.completes c e = false := by simpa [fires, hc] using h
          simp [step, hc, hcomp]
      | _ => simp [step, hc]
  | chapter2 e =>
      cases hc : s.child with
      | chapter2 c =>
          have hcomp : Chapter2.completes c e = false := by simpa [fires, hc] using h
          simp [step, hc, hcomp]
      | _ => simp [step, hc]
  | chapter3 e =>
      cases hc : s.child with
      | chapter3 c =>
          have hcomp : Chapter3.completes c e = false := by simpa [fires, hc] using h
          simp [step, hc, hcomp]
      | _ => simp [step, hc]
  | chapter4 e =>
      cases hc : s.child with
      | chapter4 c =>
          have hcomp : Chapter4.completes c e = false := by simpa [fires, hc] using h
          simp [step, hc, hcomp]
      | _ => simp [step, hc]
  | chapter5 e =>
      cases hc : s.child with
      | chapter5 c =>
          have hcomp : Chapter5.completes c e = false := by simpa [fires, hc] using h
          simp [step, hc, hcomp]
      | _ => simp [step, hc]
  | chapter6 e =>
      cases hc : s.child with
      | chapter6 c =>
          have hcomp : Chapter6.completes c e = false := by simpa [fires, hc] using h
          simp [step, hc, hcomp]
      | _ => simp [step, hc]
  | chapter7 e =>
      cases hc : s.child with
      | chapter7 c => simp [step, hc]
      | _ => simp [step, hc]

theorem step_of_not_fires_component (s : State) (e : Event) (h : fires s e = false) :
    (step s e).child.component = s.child.component := by
  cases e with
  | chapter1 e =>
      cases hc : s.child with
      | chapter1 c =>
          have hcomp : Chapter1.completes c e = false := by simpa [fires, hc] using h
          simp [step, hc, hcomp, Mounted.component]
      | _ => simp [step, hc]
  | chapter2 e =>
      cases hc : s.child with
      | chapter2 c =>
          have hcomp : Chapter2.completes c e = false := by simpa [fires, hc] using h
          simp [step, hc, hcomp, Mounted.component]
      | _ => simp [step, hc]
  | chapter3 e =>
      cases hc : s.child with
      | chapter3 c =>
          have hcomp : Chapter3.completes c e = false := by simpa [fires, hc] using h
          simp [step, hc, hcomp, Mounted.component]
      | _ => simp [step, hc]
  | chapter4 e =>
      cases hc : s.child with
      | chapter4 c =>
          have hcomp : Chapter4.completes c e = false := by simpa [fires, hc] using h
          simp [step, hc, hcomp, Mounted.component]
      | _ => simp [step, hc]
  | chapter5 e =>
      cases hc : s.child with
      | chapter5 c =>
          have hcomp : Chapter5.completes c e = false := by simpa [fires, hc] using h
          simp [step, hc, hcomp, Mounted.component]
      | _ => simp [step, hc]
  | chapter6 e =>
      cases hc : s.child with
      | chapter6 c =>
          have hcomp : Chapter6.completes c e = false := by simpa [fires, hc] using h
          simp [step, hc, hcomp, Mounted.component]
      | _ => simp [step, hc]
  | chapter7 e =>
      cases hc : s.child with
      | chapter7 c => simp [step, hc, Mounted.component]
      | _ => simp [step, hc]

/-- A call of `onComplete` by one of Chapters 1 to 6 moves `App` to the next
index, and the child is replaced by a new instance, in its initial state, of
another component. -/
theorem invokeOnComplete_next (s : State) (h : Coherent s)
    (h7 : s.child.component ≠ .Chapter7) :
    (invokeOnComplete s).app.currentChapter = s.app.currentChapter + 1 ∧
    (invokeOnComplete s).child =
      mount (App.renderChapter (s.app.currentChapter + 1)).component ∧
    (invokeOnComplete s).child.component ≠ s.child.component ∧
    s.app.currentChapter ≤ 6 := by
  obtain ⟨h1, h2, h3⟩ := h
  have hlt : s.app.currentChapter ≤ 6 := by
    by_contra hne
    have h77 : s.app.currentChapter = 7 := by omega
    rw [h77] at h3
    exact h7 h3
  obtain ⟨⟨i⟩, child, scrolls⟩ := s
  simp only at h1 hlt h3
  simp only [h3]
  interval_cases i <;>
    simp [invokeOnComplete, App.renderChapter, App.goToNextChapter, mount, Mounted.component]

/-- An event by which the mounted chapter calls `onComplete` ends the instance:
the child after it is a new instance. -/
theorem instanceAfter_of_fires (i : Nat) (s : State) (e : Event) (h : Coherent s)
    (hf : fires s e = true) : instanceAfter i s e = i + 1 := by
  obtain ⟨hstep, h7⟩ := step_of_fires s e hf
  obtain ⟨_, _, hne, _⟩ := invokeOnComplete_next s h h7
  simp [instanceAfter, keepsInstance, hstep, hne]

/-- Any other event leaves the instance in place. -/
theorem instanceAfter_of_not_fires (i : Nat) (s : State) (e : Event)
    (hf : fires s e = false) : instanceAfter i s e = i := by
  simp [instanceAfter, keepsInstance, step_of_not_fires_component s e hf]

/-- Along a run from a coherent state, the calls of `onComplete` come from
instances of strictly increasing number, none below the one mounted at the start,
and there are no more of them than chapters left before Chapter 7. -/
theorem onCompleteCalls_sorted (es : List Event) (i : Nat) (s : State) (h : Coherent s) :
    List.Pairwise (· < ·) (onCompleteCalls i s es) ∧
    ∀ k ∈ onCompleteCalls i s es, i ≤ k ∧ k + s.app.currentChapter < i + 7 := by
  induction es generalizing i s with
  | nil => simp [onCompleteCalls]
  | cons e es ih =>
      have hcoh := coherent_step s e h
      by_cases hf : fires s e = true
      · obtain ⟨hstep, h7⟩ := step_of_fires s e hf
        obtain ⟨hidx, _, _, hle⟩ := invokeOnComplete_next s h h7
        have hidx' : (step s e).app.currentChapter = s.app.currentChapter + 1 := by
          rw [hstep, hidx]
        obtain ⟨hp, hall⟩ := ih (i + 1) (step s e) hcoh
        simp only [onCompleteCalls, hf, if_true, instanceAfter_of_fires i s e h hf]
        refine ⟨List.pairwise_cons.mpr ⟨fun k hk => ?_, hp⟩, fun k hk => ?_⟩
        · have := (hall k hk).1
          omega
        · rcases List.mem_cons.mp hk with rfl | hk
          · exact ⟨Nat.le_refl _, by omega⟩
          · have := hall k hk
            omega
      · have hf' : fires s e = false := by simpa using hf
        obtain ⟨happ, _⟩ := step_of_not_fires s e hf'
        obtain ⟨hp, hall⟩ := ih i (step s e) hcoh
        simp only [onCompleteCalls, hf', Bool.false_eq_true, if_false,
          instanceAfter_of_not_fires i s e hf']
        rw [happ] at hall
        exact ⟨hp, hall⟩

/-- C13. The completion callback fires at most once per chapter instance. The
instances of the child of `App` are numbered in the order in which they are
mounted, the number changing exactly when the child is replaced. Along any
sequence of events of the application no instance calls `onComplete` twice, and
the calls come from the first six instances only (Chapters 1 to 6). This is so
because the event that makes the call ends the instance: `App` replaces it by a
new instance, in its initial state, of the next chapter, while every other event
leaves the instance in place. A full visit makes exactly one call per chapter. -/
theorem onComplete_at_most_once :
    (∀ (es : List Event) (k : Nat), (onCompleteCalls 0 init es).count k ≤ 1) ∧
    (∀ es : List Event, (onCompleteCalls 0 init es).Nodup ∧
      (onCompleteCalls 0 init es).length ≤ 6 ∧
      ∀ k ∈ onCompleteCalls 0 init es, k < 6) ∧
    (∀ s : State, Reachable s → ∀ e : Event, fires s e = true →
      keepsInstance s.child (step s e).child = false ∧
      (step s e).child = mount (App.renderChapter (s.app.currentChapter + 1)).component ∧
      ∀ i : Nat, instanceAfter i s e = i + 1) ∧
    (∀ (s : State) (e : Event), fires s e = false →
      keepsInstance s.child (step s e).child = true ∧
      ∀ i : Nat, instanceAfter i s e = i) ∧
    onCompleteCalls 0 init fullVisit = [0, 1, 2, 3, 4, 5] := by
  have key := fun es => onCompleteCalls_sorted es 0 init coherent_init
  have hnodup : ∀ es : List Event, (onCompleteCalls 0 init es).Nodup := fun es =>
    (key es).1.imp (fun hlt => Nat.ne_of_lt hlt)
  have hlt : ∀ es : List Event, ∀ k ∈ onCompleteCalls 0 init es, k < 6 := fun es k hk => by
    have := ((key es).2 k hk).2
    simp only [init, App.init] at this
    omega
  refine ⟨fun es k => List.nodup_iff_count_le_one.mp (hnodup es) k,
    fun es => ⟨hnodup es, ?_, hlt es⟩, fun s hs e hf => ?_, fun s e hf => ?_, by decide⟩
  · have hsub : (onCompleteCalls 0 init es).toFinset ⊆ Finset.range 6 := fun k hk =>
      Finset.mem_range.mpr (hlt es k (List.mem_toFinset.mp hk))
    have := Finset.card_le_card hsub
    rw [List.toFinset_card_of_nodup (hnodup es), Finset.card_range] at this
    exact this
  · have hcoh := coherent_of_reachable hs
    obtain ⟨hstep, h7⟩ := step_of_fires s e hf
    obtain ⟨_, hchild, hne, _⟩ := invokeOnComplete_next s hcoh h7
    refine ⟨?_, by rw [hstep, hchild], fun i => instanceAfter_of_fires i s e hcoh hf⟩
    simp [keepsInstance, hstep, hne]
  · exact ⟨by simp [keepsInstance, step_of_not_fires_component s e hf],
      fun i => instanceAfter_of_not_fires i s e hf⟩

/-- The first instance of the application (Chapter 1) with its eight lines
revealed: the click on the continue button makes the call, and the child after it
is a new instance, number 1, of Chapter 2 in its initial state. -/
theorem onComplete_at_most_once_witness :
    fires (run init (List.replicate 8 (.chapter1 .click))) (.chapter1 .continueClick) = true ∧
    keepsInstance (run init (List.replicate 8 (.chapter1 .click))).child
      (step (run init (List.replicate 8 (.chapter1 .click))) (.chapter1 .continueClick)).child
      = false ∧
    (step (run init (List.replicate 8 (.chapter1 .click))) (.chapter1 .continueClick)).child
      = .chapter2 Chapter2.init ∧
    instanceAfter 0 (run init (List.replicate 8 (.chapter1 .click)))
      (.chapter1 .continueClick) = 1 :=
  have h := onComplete_at_most_once.2.2.1 (run init (List.replicate 8 (.chapter1 .click)))
    (reachable_run Reachable.init _) (.chapter1 .continueClick) (by decide)
  ⟨by decide, h.1, h.2.1, h.2.2 0⟩

end Site

/-! ## The typewriter -/

namespace TypewriterText

theorem typewriter_invariant_tickEffect (text : String) (hasOnComplete : Bool) (s : State)
    (hle : s.displayedCount ≤ text.length)
    (hc : s.completed = true → s.displayedCount = text.length) :
    Invariant text hasOnComplete (tickEffect text hasOnComplete s).1 ∧
    (tickEffect text hasOnComplete s).1.displayedCount = s.displayedCount ∧
    ((tickEffect text hasOnComplete s).2 = true →
      s.completed = false ∧ s.displayedCount = text.length ∧
      (tickEffect text hasOnComplete s).1.completed = true) := by
  unfold tickEffect
  by_cases hlt : s.displayedCount < text.length
  · rw [if_pos hlt]
    refine ⟨⟨hle, by simp [hlt], hc, fun _ heq => ?_⟩, rfl, by simp⟩
    simp only at heq
    omega
  · rw [if_neg hlt]
    have heq : s.displayedCount = text.length := by omega
    by_cases hcall : (!s.completed && hasOnComplete) = true
    · rw [if_pos hcall]
      simp only [Bool.and_eq_true, Bool.not_eq_true'] at hcall
      exact ⟨⟨hle, by simp [hlt], fun _ => heq, fun _ _ => rfl⟩, rfl, fun _ => ⟨hcall.1, heq, rfl⟩⟩
    · rw [if_neg hcall]
      refine ⟨⟨hle, by simp [hlt], hc, fun hh _ => ?_⟩, rfl, by simp⟩
      cases hx : s.completed
      · simp [hx, hh] at hcall
      · rfl

theorem typewriter_invariant_mount (text : String) (hasOnComplete : Bool) :
    Invariant text hasOnComplete (mount text hasOnComplete).1 ∧
    (mount text hasOnComplete).1.displayedCount = 0 ∧
    ((mount text hasOnComplete).2 = true →
      text.length = 0 ∧ (mount text hasOnComplete).1.completed = true) := by
  have h := typewriter_invariant_tickEffect text hasOnComplete
    { displayedCount := 0, completed := false, timer := false } (Nat.zero_le _)
    (by simp)
  refine ⟨h.1, h.2.1, fun hcall => ?_⟩
  obtain ⟨-, h0, hcomp⟩ := h.2.2 hcall
  exact ⟨by simpa using h0.symm, hcomp⟩

theorem typewriter_invariant_step (text : String) (hasOnComplete : Bool) (s : State)
    (e : Event) (h : Invariant text hasOnComplete s) :
    Invariant text hasOnComplete (step text hasOnComplete s e).1 ∧
    (step text hasOnComplete s e).1.displayedCount =
      (if e = .tick ∧ s.displayedCount < text.length then s.displayedCount + 1
       else s.displayedCount) ∧
    ((step text hasOnComplete s e).2 = true →
      s.completed = false ∧ (step text hasOnComplete s e).1.displayedCount = text.length ∧
      (step text hasOnComplete s e).1.completed = true) := by
  obtain ⟨hle, ht, hc, hd⟩ := h
  cases e with
  | tick =>
      simp only [step, tick, true_and]
      by_cases hlt : s.displayedCount < text.length
      · have htimer : s.timer = true := by rw [ht]; simpa using hlt
        have hnc : s.completed = false := by
          cases hx : s.completed
          · rfl
          · have := hc hx; omega
        rw [if_pos htimer, if_pos hlt]
        have h := typewriter_invariant_tickEffect text hasOnComplete
          { s with displayedCount := s.displayedCount + 1, timer := false }
          (by simp only; omega) (by simp [hnc])
        refine ⟨h.1, h.2.1, fun hcall => ?_⟩
        obtain ⟨-, heq, hcomp⟩ := h.2.2 hcall
        exact ⟨hnc, by rw [h.2.1]; exact heq, hcomp⟩
      · have htimer : s.timer = false := by rw [ht]; simpa using hlt
        rw [if_neg (by simp [htimer]), if_neg hlt]
        exact ⟨⟨hle, ht, hc, hd⟩, rfl, by simp⟩
  | parentRender =>
      simp only [step, reduceCtorEq, false_and, if_false]
      have h := typewriter_invariant_tickEffect text hasOnComplete { s with timer := false }
        hle hc
      refine ⟨h.1, h.2.1, fun hcall => ?_⟩
      obtain ⟨hnc, heq, hcomp⟩ := h.2.2 hcall
      exact ⟨hnc, by rw [h.2.1]; exact heq, hcomp⟩

theorem typewriter_invariant_run (text : String) (hasOnComplete : Bool) (es : List Event)
    (s : State) (h : Invariant text hasOnComplete s) :
    Invariant text hasOnComplete (run text hasOnComplete s es) ∧
    (run text hasOnComplete s es).displayedCount =
      min (s.displayedCount + es.count .tick) text.length := by
  induction es generalizing s with
  | nil => exact ⟨h, by simp [run, h.1]⟩
  | cons e es ih =>
      obtain ⟨hinv, hdc, -⟩ := typewriter_invariant_step text hasOnComplete s e h
      obtain ⟨hinv', hrun⟩ := ih _ hinv
      refine ⟨hinv', ?_⟩
      have hle := h.1
      show (run text hasOnComplete (step text hasOnComplete s e).1 es).displayedCount = _
      rw [hrun, hdc]
      cases e with
      | tick =>
          rw [List.count_cons_self]
          by_cases hlt : s.displayedCount < text.length
          · rw [if_pos ⟨rfl, hlt⟩]; omega
          · rw [if_neg (fun hx => hlt hx.2)]; omega
      | parentRender =>
          rw [List.count_cons_of_ne (by decide)]
          simp

/-- Once the ref is set, no event calls `onComplete`. -/
theorem calls_of_completed (text : String) (hasOnComplete : Bool) (es : List Event)
    (s : State) (h : Invariant text hasOnComplete s) (hc : s.completed = true) :
    calls text hasOnComplete s es = [] := by
  induction es generalizing s with
  | nil => rfl
  | cons e es ih =>
      obtain ⟨hinv, hdc, hcall⟩ := typewriter_invariant_step text hasOnComplete s e h
      have hno : (step text hasOnComplete s e).2 = false := by
        cases hx : (step text hasOnComplete s e).2
        · rfl
        · have := (hcall hx).1
          rw [hc] at this
          cases this
      have hcomp : (step text hasOnComplete s e).1.completed = true := by
        have heq := h.2.2.1 hc
        cases e with
        | tick =>
            have htimer : s.timer = false := by rw [h.2.1]; simp [heq]
            simp only [step, tick, htimer, Bool.false_eq_true, if_false, hc]
        | parentRender =>
            simp only [step, tickEffect, heq, Nat.lt_irrefl, if_false, hc, Bool.not_true,
              Bool.false_and, Bool.false_eq_true]
      simp only [calls, hno, Bool.false_eq_true, if_false, List.nil_append]
      exact ih _ hinv hcomp

/-- The calls of `onComplete` along a run: none, or one, made at the end of the
text. -/
theorem calls_cases (text : String) (hasOnComplete : Bool) (es : List Event)
    (s : State) (h : Invariant text hasOnComplete s) :
    calls text hasOnComplete s es = [] ∨ calls text hasOnComplete s es = [text.length] := by
  induction es generalizing s with
  | nil => exact Or.inl rfl
  | cons e es ih =>
      obtain ⟨hinv, hdc, hcall⟩ := typewriter_invariant_step text hasOnComplete s e h
      cases hx : (step text hasOnComplete s e).2
      · simp only [calls, hx, Bool.false_eq_true, if_false, List.nil_append]
        exact ih _ hinv
      · obtain ⟨-, heq, hcomp⟩ := hcall hx
        refine Or.inr ?_
        simp only [calls, hx, if_true, heq,
          calls_of_completed text hasOnComplete es _ hinv hcomp, List.append_nil]

end TypewriterText

namespace TypewriterText

/-- With an `onComplete` to call and enough ticks left to reach the end of the
text, the call is made, once. -/
theorem calls_of_enough_ticks (text : String) (es : List Event) (s : State)
    (h : Invariant text true s) (hc : s.completed = false)
    (hticks : text.length ≤ s.displayedCount + es.count .tick) :
    calls text true s es = [text.length] := by
  induction es generalizing s with
  | nil =>
      have heq : s.displayedCount = text.length := by
        have := h.1
        simp only [List.count_nil] at hticks
        omega
      have := h.2.2.2 rfl heq
      rw [hc] at this
      cases this
  | cons e es ih =>
      obtain ⟨hinv, hdc, hcall⟩ := typewriter_invariant_step text true s e h
      cases hx : (step text true s e).2
      · simp only [calls, hx, Bool.false_eq_true, if_false, List.nil_append]
        have hlt : s.displayedCount < text.length := by
          rcases Nat.lt_or_ge s.displayedCount text.length with hlt | hge
          · exact hlt
          · have heq : s.displayedCount = text.length := by have := h.1; omega
            have := h.2.2.2 rfl heq
            rw [hc] at this
            cases this
        have hc' : (step text true s e).1.completed = false := by
          cases hy : (step text true s e).1.completed
          · rfl
          · cases e with
            | tick =>
                have htimer : s.timer = true := by rw [h.2.1]; simpa using hlt
                simp only [step, tick, htimer, if_true, tickEffect] at hx hy
                by_cases hlt' : s.displayedCount + 1 < text.length
                · simp [hlt', hc] at hy
                · simp [hlt', hc] at hx
            | parentRender =>
                simp only [step, tickEffect, hlt, if_true, hc] at hy
                cases hy
        apply ih _ hinv hc'
        rw [hdc]
        cases e with
        | tick =>
            rw [List.count_cons_self] at hticks
            rw [if_pos ⟨rfl, hlt⟩]
            omega
        | parentRender =>
            rw [List.count_cons_of_ne (by decide)] at hticks
            simp only [reduceCtorEq, false_and, if_false]
            exact hticks
      · obtain ⟨-, heq, hcomp⟩ := hcall hx
        simp only [calls, hx, if_true, heq, calls_of_completed text true es _ hinv hcomp,
          List.append_nil]

/-- C15. For every text, within one `TypewriterText` instance showing it:
`displayedCount` starts at 0; a tick adds exactly one while the count is below
`text.length` and changes nothing otherwise, so after any sequence of events the
count is the number of ticks capped at `text.length` and the displayed string is a
prefix of the text; `onComplete` is called only with `displayedCount` equal to
`text.length`, and at most once over the life of the instance (exactly once when
it is given and the ticks reach the end of the text). -/
theorem typewriter_progress (text : String) (hasOnComplete : Bool) (es : List Event) :
    (mount text hasOnComplete).1.displayedCount = 0 ∧
    (run text hasOnComplete (mount text hasOnComplete).1 es).displayedCount =
      min (es.count .tick) text.length ∧
    (run text hasOnComplete (mount text hasOnComplete).1 es).displayedCount ≤ text.length ∧
    (step text hasOnComplete (run text hasOnComplete (mount text hasOnComplete).1 es)
        .tick).1.displayedCount =
      (if (run text hasOnComplete (mount text hasOnComplete).1 es).displayedCount < text.length
       then (run text hasOnComplete (mount text hasOnComplete).1 es).displayedCount + 1
       else (run text hasOnComplete (mount text hasOnComplete).1 es).displayedCount) ∧
    (displayed text (run text hasOnComplete (mount text hasOnComplete).1 es)).data <+:
      text.data ∧
    (lifeCalls text hasOnComplete es).length ≤ 1 ∧
    (∀ k ∈ lifeCalls text hasOnComplete es, k = text.length) ∧
    (hasOnComplete = true → text.length ≤ es.count .tick →
      lifeCalls text hasOnComplete es = [text.length]) := by
  obtain ⟨hinv0, hdc0, hcall0⟩ := typewriter_invariant_mount text hasOnComplete
  obtain ⟨hinv, hrun⟩ := typewriter_invariant_run text hasOnComplete es _ hinv0
  rw [hdc0, Nat.zero_add] at hrun
  have hstep := (typewriter_invariant_step text hasOnComplete _ .tick hinv).2.1
  simp only [true_and] at hstep
  have hlife : lifeCalls text hasOnComplete es = [] ∨
      lifeCalls text hasOnComplete es = [text.length] := by
    unfold lifeCalls
    cases hx : (mount text hasOnComplete).2
    · simpa using calls_cases text hasOnComplete es _ hinv0
    · obtain ⟨hlen, hcomp⟩ := hcall0 hx
      refine Or.inr ?_
      simp only [if_true, hdc0, hlen, calls_of_completed text hasOnComplete es _ hinv0 hcomp,
        List.append_nil]
  refine ⟨hdc0, hrun, hinv.1, hstep, List.take_prefix _ _, ?_, ?_, ?_⟩
  · rcases hlife with h | h <;> simp [h]
  · intro k hk
    rcases hlife with h | h
    · simp [h] at hk
    · simpa [h] using hk
  · intro hoc hticks
    subst hoc
    unfold lifeCalls
    cases hx : (mount text true).2
    · have hnc : (mount text true).1.completed = false := by
        cases hy : (mount text true).1.completed
        · rfl
        · simp only [mount, tickEffect] at hx hy
          by_cases hlt : 0 < text.length
          · simp [hlt] at hy
          · simp [hlt] at hx
      simp only [Bool.false_eq_true, if_false, List.nil_append]
      exact calls_of_enough_ticks text es _ hinv0 hnc (by rw [hdc0]; omega)
    · obtain ⟨hlen, hcomp⟩ := hcall0 hx
      simp only [if_true, hdc0, hlen, calls_of_completed text true es _ hinv0 hcomp,
        List.append_nil]

/-- C15, on the text "ab" with the events tick, render of the parent, tick, tick:
the count goes 0, 1, 1, 2, 2 and `onComplete` is called once, at 2. -/
theorem typewriter_progress_witness :
    "ab".length ≤ [Event.tick, .parentRender, .tick, .tick].count .tick ∧
    (run "ab" true (mount "ab" true).1 [.tick, .parentRender, .tick, .tick]).displayedCount = 2 ∧
    lifeCalls "ab" true [.tick, .parentRender, .tick, .tick] = ["ab".length] :=
  ⟨by decide,
   ((typewriter_progress "ab" true [.tick, .parentRender, .tick, .tick]).2.1).trans
     (by decide),
   (typewriter_progress "ab" true [.tick, .parentRender, .tick, .tick]).2.2.2.2.2.2.2 rfl
     (by decide)⟩

end TypewriterText

/-! ## Timers and unmounting -/

namespace Chapter3

/-- An event of the component with its timers is the event of the component, or
is refused (a timer that cannot fire yet). -/
theorem scheduled_step_state (t : Scheduled) (e : Event) :
    (Scheduled.step t e).state = step t.state e ∨ Scheduled.step t e = t := by
  cases e with
  | click =>
      by_cases h : allDone t.state = true
      · right; simp [Scheduled.step, h]
      · left; simp [Scheduled.step, h]
  | continueClick => right; rfl
  | hintTimeout =>
      by_cases h : mayFire t.queue .hint = true
      · left; simp [Scheduled.step, Scheduled.fire, h]
      · right; simp [Scheduled.step, Scheduled.fire, h]
  | finalTimeout =>
      by_cases h : mayFire t.queue .final = true
      · left; simp [Scheduled.step, Scheduled.fire, h]
      · right; simp [Scheduled.step, Scheduled.fire, h]
  | pulseTimeout =>
      by_cases h : mayFire t.queue .pulse = true
      · left; simp [Scheduled.step, Scheduled.fire, h]
      · right; simp [Scheduled.step, Scheduled.fire, h]

/-- A timer that can fire is pending. -/
theorem mem_of_mayFire (queue : List Timer) (k : Timer) (h : mayFire queue k = true) :
    k ∈ queue := by
  simp only [mayFire, Bool.and_eq_true, decide_eq_true_eq] at h
  exact h.1

/-- When the final-message timer can fire and no pulse-reset timer was set after
it, no pulse-reset timer is pending: one set before it has the shorter delay and
fires first. -/
theorem no_pulse_of_mayFire_final (queue : List Timer)
    (hp : queue.Pairwise (fun a b => ¬ (a = Timer.final ∧ b = Timer.pulse)))
    (h : mayFire queue .final = true) : Timer.pulse ∉ queue := by
  induction queue with
  | nil => simp
  | cons a l ih =>
      obtain ⟨hhead, htail⟩ := List.pairwise_cons.mp hp
      cases a with
      | final =>
          intro hmem
          rcases List.mem_cons.mp hmem with h1 | h1
          · cases h1
          · exact hhead _ h1 ⟨rfl, rfl⟩
      | pulse =>
          simp [mayFire, List.takeWhile, Timer.delay] at h
      | hint =>
          have hl : mayFire l .final = true := by
            simp only [mayFire, Bool.and_eq_true, decide_eq_true_eq] at h ⊢
            obtain ⟨hc, ha⟩ := h
            refine ⟨?_, ?_⟩
            · rcases List.mem_cons.mp hc with h1 | h1
              · cases h1
              · exact h1
            · simpa [List.takeWhile, Timer.delay] using ha
          intro hmem
          rcases List.mem_cons.mp hmem with h1 | h1
          · cases h1
          · exact ih htail hl h1

theorem scheduled_invariant_init : Scheduled.Invariant Scheduled.init := by
  refine ⟨armor_invariant_init, ?_, ?_, ?_, ?_, ?_⟩ <;> simp [Scheduled.init, init]

theorem scheduled_invariant_step (t : Scheduled) (e : Event) (h : Scheduled.Invariant t) :
    Scheduled.Invariant (Scheduled.step t e) := by
  obtain ⟨hinv, hpulse, hhint, hfinal, hord, hshow⟩ := h
  have hinv' := fun e => armor_invariant_step t.state e hinv
  cases e with
  | click =>
      by_cases hd : allDone t.state = true
      · have hst : Scheduled.step t .click = t := by simp [Scheduled.step, hd]
        rw [hst]
        exact ⟨hinv, hpulse, hhint, hfinal, hord, hshow⟩
      · have hlt : t.state.currentBeat < HEARTBEATS.length := by
          simpa [allDone] using hd
        have hft : t.state.finalTimer = false := by
          cases hf : t.state.finalTimer with
          | false => rfl
          | true => have := hinv.2.2.1 hf; omega
        have hsf : t.state.showFinalMessage = false := by
          cases hf : t.state.showFinalMessage with
          | false => rfl
          | true => have := hinv.2.2.2 hf; omega
        have hnf : Timer.final ∉ t.queue := by
          rw [← List.count_eq_zero, hfinal, hft]; rfl
        have hq : effectQueue t.state (handleClick t.state) (t.queue ++ [.pulse]) =
            t.queue ++ [.pulse] ++
              (if completionTest (handleClick t.state) then [.final] else []) := by
          have hne : (handleClick t.state).currentBeat ≠ t.state.currentBeat := by
            simp [handleClick, Nat.not_le.mpr hlt]
          have hnf' : Timer.final ∉ t.queue ++ [.pulse] := by simp [hnf]
          simp only [effectQueue, hne, ne_eq, not_false_eq_true, or_true, if_true,
            List.erase_of_not_mem hnf']
        have hs : step t.state .click =
            { handleClick t.state with finalTimer := completionTest (handleClick t.state) } := by
          have hne : (handleClick t.state).currentBeat ≠ t.state.currentBeat := by
            simp [handleClick, Nat.not_le.mpr hlt]
          simp only [step, hd, Bool.false_eq_true, if_false, completionEffect, hne, ne_eq,
            not_false_eq_true, or_true, if_true]
        have hh : handleClick t.state =
            { t.state with
              isPulsing := true
              pulseTimers := t.state.pulseTimers + 1
              fallenPlates := insert t.state.currentBeat t.state.fallenPlates
              currentBeat := t.state.currentBeat + 1
              showHint := false } := by
          simp [handleClick, Nat.not_le.mpr hlt]
        have hstep : Scheduled.step t .click =
            { state := step t.state .click
              queue := t.queue ++ [.pulse] ++
                (if completionTest (handleClick t.state) then [.final] else []) } := by
          simp only [Scheduled.step, hd, Bool.false_eq_true, if_false, hq]
        have e1 : (step t.state .click).pulseTimers = t.state.pulseTimers + 1 := by
          rw [hs, hh]
        have e2 : (step t.state .click).hintTimer = t.state.hintTimer := by rw [hs, hh]
        have e3 : (step t.state .click).finalTimer = completionTest (handleClick t.state) := by
          rw [hs]
        have e4 : (step t.state .click).showFinalMessage = t.state.showFinalMessage := by
          rw [hs, hh]
        rw [hstep]
        refine ⟨hinv' .click, ?_, ?_, ?_, ?_, ?_⟩
        · show List.count Timer.pulse (t.queue ++ [.pulse] ++ _) = (step t.state .click).pulseTimers
          rw [e1]
          cases completionTest (handleClick t.state) <;> simp [List.count_append, hpulse]
        · show List.count Timer.hint (t.queue ++ [.pulse] ++ _) = (step t.state .click).hintTimer.toNat
          rw [e2]
          cases completionTest (handleClick t.state) <;> simp [List.count_append, hhint]
        · show List.count Timer.final (t.queue ++ [.pulse] ++ _) =
            (step t.state .click).finalTimer.toNat
          rw [e3]
          cases completionTest (handleClick t.state) <;>
            simp [List.count_append, List.count_eq_zero.mpr hnf]
        · refine List.pairwise_append.mpr ⟨List.pairwise_append.mpr ⟨hord, by simp, ?_⟩,
            ?_, ?_⟩
          · intro a ha b hb hab
            exact hnf (hab.1 ▸ ha)
          · by_cases hc : completionTest (handleClick t.state) = true <;> simp [hc]
          · intro a _ b hb hab
            by_cases hc : completionTest (handleClick t.state) = true
            · simp only [hc, if_true, List.mem_singleton] at hb
              rw [hb] at hab
              exact absurd hab.2 (by decide)
            · simp [hc] at hb
        · intro hsh
          have hsh' : (step t.state .click).showFinalMessage = true := hsh
          rw [e4, hsf] at hsh'
          exact absurd hsh' (by decide)
  | continueClick => exact ⟨hinv, hpulse, hhint, hfinal, hord, hshow⟩
  | hintTimeout =>
      by_cases hm : mayFire t.queue .hint = true
      · have hmem := mem_of_mayFire _ _ hm
        have hht : t.state.hintTimer = true := by
          cases hf : t.state.hintTimer with
          | true => rfl
          | false =>
              rw [hf] at hhint
              exact absurd (List.count_eq_zero.mp hhint) (not_not.mpr hmem)
        have hstep : Scheduled.step t .hintTimeout =
            { state := { t.state with showHint := true, hintTimer := false }
              queue := t.queue.erase .hint } := by
          simp [Scheduled.step, Scheduled.fire, hm, step, hht]
        have hs : step t.state .hintTimeout =
            { t.state with showHint := true, hintTimer := false } := by
          simp [step, hht]
        rw [hstep]
        refine ⟨hs ▸ hinv' .hintTimeout, ?_, ?_, ?_, ?_, hshow⟩
        · simpa [List.count_erase_of_ne] using hpulse
        · simp [List.count_erase_self, hhint, hht]
        · simpa [List.count_erase_of_ne] using hfinal
        · exact hord.sublist (List.erase_sublist _ _)
      · have hst : Scheduled.step t .hintTimeout = t := by
          simp [Scheduled.step, Scheduled.fire, hm]
        rw [hst]
        exact ⟨hinv, hpulse, hhint, hfinal, hord, hshow⟩
  | finalTimeout =>
      by_cases hm : mayFire t.queue .final = true
      · have hmem := mem_of_mayFire _ _ hm
        have hft : t.state.finalTimer = true := by
          cases hf : t.state.finalTimer with
          | true => rfl
          | false =>
              rw [hf] at hfinal
              exact absurd (List.count_eq_zero.mp hfinal) (not_not.mpr hmem)
        have hnp : t.state.pulseTimers = 0 := by
          rw [← hpulse]
          exact List.count_eq_zero.mpr (no_pulse_of_mayFire_final _ hord hm)
        have hstep : Scheduled.step t .finalTimeout =
            { state := { t.state with showFinalMessage := true, finalTimer := false }
              queue := t.queue.erase .final } := by
          simp [Scheduled.step, Scheduled.fire, hm, step, hft]
        have hs : step t.state .finalTimeout =
            { t.state with showFinalMessage := true, finalTimer := false } := by
          simp [step, hft]
        rw [hstep]
        refine ⟨hs ▸ hinv' .finalTimeout, ?_, ?_, ?_, ?_, fun _ => hnp⟩
        · simpa [List.count_erase_of_ne] using hpulse
        · simpa [List.count_erase_of_ne] using hhint
        · simp [List.count_erase_self, hfinal, hft]
        · exact hord.sublist (List.erase_sublist _ _)
      · have hst : Scheduled.step t .finalTimeout = t := by
          simp [Scheduled.step, Scheduled.fire, hm]
        rw [hst]
        exact ⟨hinv, hpulse, hhint, hfinal, hord, hshow⟩
  | pulseTimeout =>
      by_cases hm : mayFire t.queue .pulse = true
      · have hmem := mem_of_mayFire _ _ hm
        have hpos : 0 < t.state.pulseTimers := by
          rw [← hpulse]
          exact List.count_pos_iff.mpr hmem
        have hstep : Scheduled.step t .pulseTimeout =
            { state := { t.state with isPulsing := false,
                                      pulseTimers := t.state.pulseTimers - 1 }
              queue := t.queue.erase .pulse } := by
          simp [Scheduled.step, Scheduled.fire, hm, step, hpos]
        have hs : step t.state .pulseTimeout =
            { t.state with isPulsing := false, pulseTimers := t.state.pulseTimers - 1 } := by
          simp [step, hpos]
        rw [hstep]
        refine ⟨hs ▸ hinv' .pulseTimeout, ?_, ?_, ?_, ?_, fun hsh => ?_⟩
        · simp [List.count_erase_self, hpulse]
        · simpa [List.count_erase_of_ne] using hhint
        · simpa [List.count_erase_of_ne] using hfinal
        · exact hord.sublist (List.erase_sublist _ _)
        · have := hshow hsh
          simp [this]
      · have hst : Scheduled.step t .pulseTimeout = t := by
          simp [Scheduled.step, Scheduled.fire, hm]
        rw [hst]
        exact ⟨hinv, hpulse, hhint, hfinal, hord, hshow⟩

theorem scheduled_invariant_run (es : List Event) (t : Scheduled)
    (h : Scheduled.Invariant t) : Scheduled.Invariant (Scheduled.run t es) := by
  induction es generalizing t with
  | nil => exact h
  | cons e es ih => exact ih (Scheduled.step t e) (scheduled_invariant_step t e h)

/-- With no pulse-reset timer pending, the cleanups of the two effects leave no
timer at all. -/
theorem scheduled_unmount_queue (t : Scheduled) (h : Scheduled.Invariant t)
    (hp : t.state.pulseTimers = 0) : (Scheduled.unmount t).queue = [] := by
  obtain ⟨-, hpulse, hhint, hfinal, -, -⟩ := h
  have hle : ∀ b : Bool, b.toNat ≤ 1 := fun b => by cases b <;> simp
  have hh := hle t.state.hintTimer
  have hf := hle t.state.finalTimer
  apply List.eq_nil_iff_forall_not_mem.mpr
  intro k
  rw [← List.count_eq_zero]
  cases k with
  | hint =>
      simp only [Scheduled.unmount]
      rw [List.count_erase_of_ne (by decide), List.count_erase_self]
      omega
  | final =>
      simp only [Scheduled.unmount]
      rw [List.count_erase_self, List.count_erase_of_ne (by decide)]
      omega
  | pulse =>
      simp only [Scheduled.unmount]
      rw [List.count_erase_of_ne (by decide), List.count_erase_of_ne (by decide)]
      omega

end Chapter3

namespace Reveal

/-- C14. No timer outlives the view that set it. The timers set inside an effect
(the hint timers, the final-message timers, the tick of `TypewriterText`) are
cleared by the cleanup of their effect, so unmounting Chapters 1, 2, 4, 5, 6, 7
or a typewriter leaves none pending, in whatever state. In `Chapter3` the
cleanups clear the hint timer and the final-message timer; a pulse-reset timer
is cleared by nothing, but none is pending when the component can be unmounted:
`App` unmounts it on the click of the continue button, which exists only once
the final-message timer (2000 ms) has fired, and this timer was set after every
pulse-reset timer (600 ms), so it fires after them. Hence, after any sequence of
events, if the component can call `onComplete` then unmounting leaves no pending
timer at all. -/
theorem no_timer_survives_unmount :
    (∀ s : Chapter1.State, Chapter1.pendingTimers (Chapter1.unmount s) = 0) ∧
    (∀ s : Chapter2.State, Chapter2.pendingTimers (Chapter2.unmount s) = 0) ∧
    (∀ s : Chapter4.State, Chapter4.pendingTimers (Chapter4.unmount s) = 0) ∧
    (∀ s : Chapter5.State, Chapter5.pendingTimers (Chapter5.unmount s) = 0) ∧
    (∀ s : Chapter6.State, Chapter6.pendingTimers (Chapter6.unmount s) = 0) ∧
    (∀ s : Chapter7.State, Chapter7.pendingTimers (Chapter7.unmount s) = 0) ∧
    (∀ s : TypewriterText.State, TypewriterText.pendingTimers (TypewriterText.unmount s) = 0) ∧
    (∀ s : Chapter3.State, Chapter3.pendingTimers (Chapter3.unmount s) = s.pulseTimers) ∧
    (∀ (es : List Chapter3.Event) (e : Chapter3.Event),
      Chapter3.completes (Chapter3.Scheduled.run Chapter3.Scheduled.init es).state e = true →
      (Chapter3.Scheduled.run Chapter3.Scheduled.init es).state.pulseTimers = 0 ∧
      Chapter3.pendingTimers
        (Chapter3.unmount (Chapter3.Scheduled.run Chapter3.Scheduled.init es).state) = 0 ∧
      (Chapter3.Scheduled.unmount (Chapter3.Scheduled.run Chapter3.Scheduled.init es)).queue
        = []) ∧
    (∀ (t : Chapter3.Scheduled) (e : Chapter3.Event),
      (Chapter3.Scheduled.step t e).state = Chapter3.step t.state e ∨
      Chapter3.Scheduled.step t e = t) := by
  refine ⟨fun s => rfl, fun s => rfl, fun s => rfl, fun s => rfl, fun s => rfl, fun s => ?_,
    fun s => rfl, fun s => ?_, fun es e he => ?_, Chapter3.scheduled_step_state⟩
  · cases ht : s.typewriter <;>
      simp [Chapter7.pendingTimers, Chapter7.unmount, ht, TypewriterText.pendingTimers,
        TypewriterText.unmount]
  · simp [Chapter3.pendingTimers, Chapter3.unmount]
  · have hshow : (Chapter3.Scheduled.run Chapter3.Scheduled.init es).state.showFinalMessage
        = true := by
      cases e <;> simp_all [Chapter3.completes]
    have hinv := Chapter3.scheduled_invariant_run es Chapter3.Scheduled.init
      Chapter3.scheduled_invariant_init
    have hp := hinv.2.2.2.2.2 hshow
    exact ⟨hp, by simp [Chapter3.pendingTimers, Chapter3.unmount, hp],
      Chapter3.scheduled_unmount_queue _ hinv hp⟩

/-- C14, on a visit of Chapter 3: the six clicks, the six pulse-reset timers, the
final-message timer, then the continue button is there and unmounting leaves no
timer. (The final-message timer does not fire before the pulse-reset timers: the
same visit without their firing does not show the final message.) -/
theorem no_timer_survives_unmount_witness :
    Chapter3.completes (Chapter3.Scheduled.run Chapter3.Scheduled.init
      (List.replicate 6 .click ++ List.replicate 6 .pulseTimeout ++ [.finalTimeout])).state
      .continueClick = true ∧
    (Chapter3.Scheduled.unmount (Chapter3.Scheduled.run Chapter3.Scheduled.init
      (List.replicate 6 .click ++ List.replicate 6 .pulseTimeout ++ [.finalTimeout]))).queue
      = [] ∧
    (Chapter3.Scheduled.run Chapter3.Scheduled.init
      (List.replicate 6 .click ++ [.finalTimeout])).state.showFinalMessage = false := by
  have hc : Chapter3.completes (Chapter3.Scheduled.run Chapter3.Scheduled.init
      (List.replicate 6 .click ++ List.replicate 6 .pulseTimeout ++ [.finalTimeout])).state
      .continueClick = true := by decide
  exact ⟨hc, (no_timer_survives_unmount.2.2.2.2.2.2.2.2.1 _ _ hc).2.2, by decide⟩

end Reveal

/-! ## The keys of the lines of the constellation -/

namespace Chapter5

theorem char_eq_of_toNat_eq {a b : Char} (h : a.toNat = b.toNat) : a = b := by
  rw [← Char.ofNat_toNat a, ← Char.ofNat_toNat b, h]

theorem stringLt_asymm (a b : List Char) (h : stringLt a b = true) : stringLt b a = false := by
  induction a generalizing b with
  | nil =>
      cases b with
      | nil => simp [stringLt] at h
      | cons y ys => simp [stringLt]
  | cons x xs ih =>
      cases b with
      | nil => simp [stringLt] at h
      | cons y ys =>
          simp only [stringLt] at h ⊢
          by_cases h1 : x.toNat < y.toNat
          · rw [if_neg (by omega), if_pos h1]
          · rw [if_neg h1] at h
            by_cases h2 : y.toNat < x.toNat
            · simp [h2] at h
            · rw [if_neg h2] at h
              rw [if_neg h2, if_neg h1]
              exact ih ys h

theorem stringLt_total (a b : List Char) (h1 : stringLt a b = false)
    (h2 : stringLt b a = false) : a = b := by
  induction a generalizing b with
  | nil =>
      cases b with
      | nil => rfl
      | cons y ys => simp [stringLt] at h1
  | cons x xs ih =>
      cases b with
      | nil => simp [stringLt] at h2
      | cons y ys =>
          simp only [stringLt] at h1 h2
          by_cases hxy : x.toNat < y.toNat
          · simp [hxy] at h1
          · by_cases hyx : y.toNat < x.toNat
            · simp [hyx] at h2
            · rw [if_neg hxy, if_neg hyx] at h1
              rw [if_neg hyx, if_neg hxy] at h2
              have hc : x = y := char_eq_of_toNat_eq (by omega)
              rw [hc, ih ys h1 h2]

theorem lineKey_eq (a b : Nat) :
    lineKey a b =
      if stringLt (toString b).data (toString a).data then toString b ++ "-" ++ toString a
      else toString a ++ "-" ++ toString b := by
  unfold lineKey sortPair
  split <;> rfl

theorem digitChar_toNat : ∀ k : Nat, k < 10 → (Nat.digitChar k).toNat = 48 + k := by
  decide

theorem toDigitsCore_value (fuel n : Nat) (ds : List Char) (h : n < fuel) :
    (Nat.toDigitsCore 10 fuel n ds).foldl (fun acc c => 10 * acc + (c.toNat - 48)) 0 =
      ds.foldl (fun acc c => 10 * acc + (c.toNat - 48)) n := by
  induction fuel generalizing n ds with
  | zero => omega
  | succ fuel ih =>
      have hd := digitChar_toNat (n % 10) (Nat.mod_lt _ (by decide))
      simp only [Nat.toDigitsCore]
      split
      · rename_i h0
        simp only [List.foldl_cons]
        rw [hd]
        congr 1
        omega
      · rename_i h0
        rw [ih (n / 10) _ (by omega)]
        simp only [List.foldl_cons]
        rw [hd]
        congr 1
        omega

theorem toDigitsCore_no_dash (fuel n : Nat) (ds : List Char) (h : '-' ∉ ds) :
    '-' ∉ Nat.toDigitsCore 10 fuel n ds := by
  induction fuel generalizing n ds with
  | zero => exact h
  | succ fuel ih =>
      have hd := digitChar_toNat (n % 10) (Nat.mod_lt _ (by decide))
      have hne : '-' ≠ Nat.digitChar (n % 10) := by
        intro heq
        rw [← heq] at hd
        have : ('-' : Char).toNat = 45 := rfl
        omega
      have h' : '-' ∉ Nat.digitChar (n % 10) :: ds := by
        simp only [List.mem_cons, not_or]
        exact ⟨hne, h⟩
      simp only [Nat.toDigitsCore]
      split
      · exact h'
      · exact ih _ _ h'

theorem toString_data (n : Nat) : (toString n).data = Nat.toDigits 10 n := rfl

theorem toString_injective (a b : Nat) (h : toString a = toString b) : a = b := by
  have hd : Nat.toDigits 10 a = Nat.toDigits 10 b := by
    rw [← toString_data, ← toString_data, h]
  have ha := toDigitsCore_value (a + 1) a [] (Nat.lt_succ_self a)
  have hb := toDigitsCore_value (b + 1) b [] (Nat.lt_succ_self b)
  simp only [List.foldl_nil] at ha hb
  unfold Nat.toDigits at hd
  rw [← ha, ← hb, hd]

theorem toString_no_dash (n : Nat) : '-' ∉ (toString n).data := by
  rw [toString_data]
  exact toDigitsCore_no_dash _ _ _ (by simp)

/-- Two strings without a dash, each followed by a dash and a rest: equal wholes
have equal parts. -/
theorem append_dash_inj (la lb lc ld : List Char) (ha : '-' ∉ la) (hc : '-' ∉ lc)
    (h : la ++ '-' :: lb = lc ++ '-' :: ld) : la = lc ∧ lb = ld := by
  induction la generalizing lc with
  | nil =>
      cases lc with
      | nil => simpa using h
      | cons c lc =>
          simp only [List.nil_append, List.cons_append, List.cons.injEq] at h
          exact absurd (by simp [← h.1]) hc
  | cons a la ih =>
      cases lc with
      | nil =>
          simp only [List.nil_append, List.cons_append, List.cons.injEq] at h
          exact absurd (by simp [h.1]) ha
      | cons c lc =>
          simp only [List.cons_append, List.cons.injEq] at h
          simp only [List.mem_cons, not_or] at ha hc
          obtain ⟨h1, h2⟩ := ih lc ha.2 hc.2 h.2
          exact ⟨by rw [h.1, h1], h2⟩

theorem dash_key_inj (a b c d : Nat)
    (h : toString a ++ "-" ++ toString b = toString c ++ "-" ++ toString d) :
    a = c ∧ b = d := by
  have hdata := congrArg String.data h
  simp only [String.data_append] at hdata
  simp only [List.append_assoc, List.singleton_append] at hdata
  obtain ⟨h1, h2⟩ := append_dash_inj _ _ _ _ (toString_no_dash a) (toString_no_dash c) hdata
  exact ⟨toString_injective a c (String.ext h1), toString_injective b d (String.ext h2)⟩

theorem lineKey_comm (a b : Nat) : lineKey a b = lineKey b a := by
  rw [lineKey_eq, lineKey_eq]
  by_cases h1 : stringLt (toString b).data (toString a).data = true
  · rw [if_pos h1, if_neg (by rw [stringLt_asymm _ _ h1]; simp)]
  · rw [if_neg h1]
    by_cases h2 : stringLt (toString a).data (toString b).data = true
    · rw [if_pos h2]
    · rw [if_neg h2]
      have := stringLt_total _ _ (by simpa using h1) (by simpa using h2)
      have hab : b = a := toString_injective b a (String.ext this)
      rw [hab]

theorem lineKey_cases (a b : Nat) :
    lineKey a b = toString a ++ "-" ++ toString b ∨
    lineKey a b = toString b ++ "-" ++ toString a := by
  rw [lineKey_eq]
  split
  · exact Or.inr rfl
  · exact Or.inl rfl

theorem lineKey_inj (a b c d : Nat) :
    lineKey a b = lineKey c d ↔ (a = c ∧ b = d) ∨ (a = d ∧ b = c) := by
  constructor
  · intro h
    rcases lineKey_cases a b with h1 | h1 <;> rcases lineKey_cases c d with h2 | h2 <;>
      rw [h1, h2] at h <;> have := dash_key_inj _ _ _ _ h <;> omega
  · rintro (⟨rfl, rfl⟩ | ⟨rfl, rfl⟩)
    · rfl
    · exact lineKey_comm _ _

end Chapter5

/-! ## The lines of the constellation -/

namespace Chapter5

/-- One target: the array is unchanged, or the line of this star and target is
pushed, no line of the array having its key. -/
theorem addLine_cases (stars : List StarData) (A : Finset Nat) (star : StarData)
    (lines : List Line) (t : Nat) :
    addLine stars A star lines t = lines ∨
    (t ∈ A ∧ ∃ target : StarData, stars.find? (fun s => s.id == t) = some target ∧
      (∀ l ∈ lines, l.key ≠ lineKey star.id t) ∧
      addLine stars A star lines t =
        lines ++ [{ key := lineKey star.id t,
                    x1 := star.x, y1 := star.y, x2 := target.x, y2 := target.y }]) := by
  unfold addLine
  by_cases ht : t ∈ A
  · rw [if_pos ht]
    cases hfind : stars.find? (fun s => s.id == t) with
    | none => exact Or.inl rfl
    | some target =>
        simp only
        by_cases hnone : (lines.find? (fun l => l.key == lineKey star.id t)).isNone = true
        · rw [if_pos hnone]
          refine Or.inr ⟨ht, target, rfl, fun l hl => ?_, rfl⟩
          rw [Option.isNone_iff_eq_none, List.find?_eq_none] at hnone
          simpa using hnone l hl
        · rw [if_neg hnone]
          exact Or.inl rfl
  · rw [if_neg ht]
    exact Or.inl rfl

theorem addLine_mem (stars : List StarData) (A : Finset Nat) (star : StarData)
    (lines : List Line) (t : Nat) (line : Line) (h : line ∈ lines) :
    line ∈ addLine stars A star lines t := by
  rcases addLine_cases stars A star lines t with h1 | ⟨_, _, _, _, h1⟩ <;> rw [h1]
  · exact h
  · exact List.mem_append_left _ h

theorem addLine_has (stars : List StarData) (A : Finset Nat) (star : StarData)
    (lines : List Line) (t : Nat) (ht : t ∈ A) (target : StarData)
    (hfind : stars.find? (fun s => s.id == t) = some target) :
    ∃ line ∈ addLine stars A star lines t, line.key = lineKey star.id t := by
  unfold addLine
  rw [if_pos ht, hfind]
  simp only
  by_cases hnone : (lines.find? (fun l => l.key == lineKey star.id t)).isNone = true
  · rw [if_pos hnone]
    exact ⟨_, List.mem_append_right _ (List.mem_singleton_self _), rfl⟩
  · rw [if_neg hnone]
    rw [Option.isNone_iff_eq_none] at hnone
    obtain ⟨l, hl⟩ := Option.ne_none_iff_exists'.mp hnone
    exact ⟨l, List.mem_of_find?_eq_some hl, by simpa using List.find?_some hl⟩

theorem addLine_good (stars : List StarData) (A : Finset Nat) (star : StarData)
    (hstar : star ∈ stars) (hact : star.id ∈ A) (lines : List Line) (t : Nat)
    (ht : t ∈ star.connectsTo)
    (hnodup : (lines.map (·.key)).Nodup) (hsrc : ∀ line ∈ lines, LineOf stars A line) :
    ((addLine stars A star lines t).map (·.key)).Nodup ∧
    ∀ line ∈ addLine stars A star lines t, LineOf stars A line := by
  rcases addLine_cases stars A star lines t with h1 | ⟨htA, target, hfind, hnew, h1⟩ <;> rw [h1]
  · exact ⟨hnodup, hsrc⟩
  · refine ⟨?_, fun line hline => ?_⟩
    · rw [List.map_append, List.map_singleton]
      refine List.Nodup.append hnodup (List.nodup_singleton _) ?_
      intro k hk1 hk2
      rw [List.mem_singleton] at hk2
      obtain ⟨l, hl, hkey⟩ := List.mem_map.mp hk1
      exact hnew l hl (hkey.trans hk2)
    · rcases List.mem_append.mp hline with hl | hl
      · exact hsrc line hl
      · rw [List.mem_singleton] at hl
        exact ⟨star, hstar, hact, t, ht, htA, target, hfind, hl⟩

theorem addLine_length (stars : List StarData) (A : Finset Nat) (star : StarData)
    (lines : List Line) (t : Nat) :
    (addLine stars A star lines t).length ≤ lines.length + 1 := by
  rcases addLine_cases stars A star lines t with h1 | ⟨_, _, _, _, h1⟩ <;> rw [h1]
  · omega
  · simp

theorem foldl_addLine_mem (stars : List StarData) (A : Finset Nat) (star : StarData)
    (ts : List Nat) (lines : List Line) (line : Line) (h : line ∈ lines) :
    line ∈ ts.foldl (addLine stars A star) lines := by
  induction ts generalizing lines with
  | nil => exact h
  | cons t ts ih => exact ih _ (addLine_mem stars A star lines t line h)

theorem foldl_addLine_has (stars : List StarData) (A : Finset Nat) (star : StarData)
    (ts : List Nat) (lines : List Line) (t : Nat) (hts : t ∈ ts) (ht : t ∈ A)
    (target : StarData) (hfind : stars.find? (fun s => s.id == t) = some target) :
    ∃ line ∈ ts.foldl (addLine stars A star) lines, line.key = lineKey star.id t := by
  induction ts generalizing lines with
  | nil => cases hts
  | cons u ts ih =>
      rcases List.mem_cons.mp hts with rfl | hmem
      · obtain ⟨line, hline, hkey⟩ := addLine_has stars A star lines t ht target hfind
        exact ⟨line, foldl_addLine_mem stars A star ts _ line hline, hkey⟩
      · exact ih _ hmem

theorem foldl_addLine_good (stars : List StarData) (A : Finset Nat) (star : StarData)
    (hstar : star ∈ stars) (hact : star.id ∈ A) (ts : List Nat)
    (hts : ∀ t ∈ ts, t ∈ star.connectsTo) (lines : List Line)
    (hnodup : (lines.map (·.key)).Nodup) (hsrc : ∀ line ∈ lines, LineOf stars A line) :
    ((ts.foldl (addLine stars A star) lines).map (·.key)).Nodup ∧
    ∀ line ∈ ts.foldl (addLine stars A star) lines, LineOf stars A line := by
  induction ts generalizing lines with
  | nil => exact ⟨hnodup, hsrc⟩
  | cons t ts ih =>
      obtain ⟨h1, h2⟩ := addLine_good stars A star hstar hact lines t
        (hts t (List.mem_cons_self _ _)) hnodup hsrc
      exact ih (fun u hu => hts u (List.mem_cons_of_mem _ hu)) _ h1 h2

theorem foldl_addLine_length (stars : List StarData) (A : Finset Nat) (star : StarData)
    (ts : List Nat) (lines : List Line) :
    (ts.foldl (addLine stars A star) lines).length ≤ lines.length + ts.length := by
  induction ts generalizing lines with
  | nil => simp
  | cons t ts ih =>
      have h1 := ih (addLine stars A star lines t)
      have h2 := addLine_length stars A star lines t
      simp only [List.foldl_cons, List.length_cons]
      omega

theorem addStar_mem (stars : List StarData) (A : Finset Nat) (lines : List Line)
    (star : StarData) (line : Line) (h : line ∈ lines) :
    line ∈ addStar stars A lines star := by
  unfold addStar
  split
  · exact foldl_addLine_mem stars A star _ lines line h
  · exact h

theorem addStar_good (stars : List StarData) (A : Finset Nat) (lines : List Line)
    (star : StarData) (hstar : star ∈ stars)
    (hnodup : (lines.map (·.key)).Nodup) (hsrc : ∀ line ∈ lines, LineOf stars A line) :
    ((addStar stars A lines star).map (·.key)).Nodup ∧
    ∀ line ∈ addStar stars A lines star, LineOf stars A line := by
  unfold addStar
  split
  · rename_i hact
    exact foldl_addLine_good stars A star hstar hact _ (fun _ h => h) lines hnodup hsrc
  · exact ⟨hnodup, hsrc⟩

theorem addStar_length (stars : List StarData) (A : Finset Nat) (lines : List Line)
    (star : StarData) :
    (addStar stars A lines star).length ≤
      lines.length + (if star.id ∈ A then star.connectsTo.length else 0) := by
  unfold addStar
  split
  · exact foldl_addLine_length stars A star _ lines
  · omega

theorem foldl_addStar_mem (stars : List StarData) (A : Finset Nat) (l : List StarData)
    (lines : List Line) (line : Line) (h : line ∈ lines) :
    line ∈ l.foldl (addStar stars A) lines := by
  induction l generalizing lines with
  | nil => exact h
  | cons star l ih => exact ih _ (addStar_mem stars A lines star line h)

theorem foldl_addStar_good (stars : List StarData) (A : Finset Nat) (l : List StarData)
    (hl : ∀ star ∈ l, star ∈ stars) (lines : List Line)
    (hnodup : (lines.map (·.key)).Nodup) (hsrc : ∀ line ∈ lines, LineOf stars A line) :
    ((l.foldl (addStar stars A) lines).map (·.key)).Nodup ∧
    ∀ line ∈ l.foldl (addStar stars A) lines, LineOf stars A line := by
  induction l generalizing lines with
  | nil => exact ⟨hnodup, hsrc⟩
  | cons star l ih =>
      obtain ⟨h1, h2⟩ := addStar_good stars A lines star (hl star (List.mem_cons_self _ _))
        hnodup hsrc
      exact ih (fun u hu => hl u (List.mem_cons_of_mem _ hu)) _ h1 h2

theorem foldl_addStar_has (stars : List StarData) (A : Finset Nat) (l : List StarData)
    (lines : List Line) (star : StarData) (hstar : star ∈ l) (hact : star.id ∈ A)
    (t : Nat) (hts : t ∈ star.connectsTo) (ht : t ∈ A)
    (target : StarData) (hfind : stars.find? (fun s => s.id == t) = some target) :
    ∃ line ∈ l.foldl (addStar stars A) lines, line.key = lineKey star.id t := by
  induction l generalizing lines with
  | nil => cases hstar
  | cons u l ih =>
      rcases List.mem_cons.mp hstar with rfl | hmem
      · have hadd : addStar stars A lines star =
            star.connectsTo.foldl (addLine stars A star) lines := by
          unfold addStar
          rw [if_pos hact]
        obtain ⟨line, hline, hkey⟩ :=
          foldl_addLine_has stars A star star.connectsTo lines t hts ht target hfind
        refine ⟨line, ?_, hkey⟩
        rw [List.foldl_cons, hadd]
        exact foldl_addStar_mem stars A l _ line hline
      · exact ih _ hmem

theorem foldl_addStar_length (stars : List StarData) (A : Finset Nat) (l : List StarData)
    (lines : List Line) :
    (l.foldl (addStar stars A) lines).length ≤
      lines.length +
        (l.map (fun star => if star.id ∈ A then star.connectsTo.length else 0)).sum := by
  induction l generalizing lines with
  | nil => simp
  | cons star l ih =>
      have h1 := ih (addStar stars A lines star)
      have h2 := addStar_length stars A lines star
      simp only [List.foldl_cons, List.map_cons, List.sum_cons]
      omega

/-- A star with the given id is in the table exactly when `find` finds one. -/
theorem find_isSome_iff (stars : List StarData) (t : Nat) :
    (∃ target : StarData, stars.find? (fun s => s.id == t) = some target) ↔
      ∃ s ∈ stars, s.id = t := by
  constructor
  · rintro ⟨target, h⟩
    exact ⟨target, List.mem_of_find?_eq_some h, by simpa using List.find?_some h⟩
  · rintro ⟨s, hs, hid⟩
    cases hfind : stars.find? (fun s => s.id == t) with
    | some target => exact ⟨target, rfl⟩
    | none =>
        rw [List.find?_eq_none] at hfind
        exact absurd (by simpa using hid) (hfind s hs)

end Chapter5

namespace Chapter5

theorem constellationLines_good (stars : List StarData) (A : Finset Nat) :
    ((ConstellationLines stars A).map (·.key)).Nodup ∧
    ∀ line ∈ ConstellationLines stars A, LineOf stars A line :=
  foldl_addStar_good stars A stars (fun _ h => h) [] (by simp) (by simp)

/-- C18. `ConstellationLines` draws exactly one line per connected active pair.
For every star table and every set of active ids, the array `lines` has a line
with the key of the pair `(a, b)` if and only if `a` and `b` are both active, both
are ids of stars of the table, and the star `a` lists `b` in `connectsTo` or the
star `b` lists `a`. No two lines of the array have the same key, the key of
`(a, b)` is the key of `(b, a)`, and two pairs have the same key only if they are
the same unordered pair, so no pair is drawn twice. Each line joins the positions
of its two stars. -/
theorem constellation_lines_spec (stars : List StarData) (activeIds : Finset Nat) :
    (∀ a b : Nat,
      (∃ line ∈ ConstellationLines stars activeIds, line.key = lineKey a b) ↔
        (a ∈ activeIds ∧ b ∈ activeIds ∧ (∃ s ∈ stars, s.id = a) ∧ (∃ s ∈ stars, s.id = b) ∧
          ((∃ s ∈ stars, s.id = a ∧ b ∈ s.connectsTo) ∨
           (∃ s ∈ stars, s.id = b ∧ a ∈ s.connectsTo)))) ∧
    ((ConstellationLines stars activeIds).map (·.key)).Nodup ∧
    (∀ a b : Nat, lineKey a b = lineKey b a) ∧
    (∀ a b c d : Nat, lineKey a b = lineKey c d ↔ (a = c ∧ b = d) ∨ (a = d ∧ b = c)) ∧
    (∀ line ∈ ConstellationLines stars activeIds,
      ∃ star ∈ stars, ∃ target ∈ stars,
        star.id ∈ activeIds ∧ target.id ∈ activeIds ∧ target.id ∈ star.connectsTo ∧
        line = { key := lineKey star.id target.id,
                 x1 := star.x, y1 := star.y, x2 := target.x, y2 := target.y }) := by
  obtain ⟨hnodup, hsrc⟩ := constellationLines_good stars activeIds
  refine ⟨fun a b => ⟨?_, ?_⟩, hnodup, lineKey_comm, lineKey_inj, fun line hline => ?_⟩
  · rintro ⟨line, hline, hkey⟩
    obtain ⟨star, hstar, hact, t, hts, ht, target, hfind, hl⟩ := hsrc line hline
    have htarget : target ∈ stars := List.mem_of_find?_eq_some hfind
    have htid : target.id = t := by simpa using List.find?_some hfind
    rw [hl] at hkey
    simp only at hkey
    rcases (lineKey_inj _ _ _ _).mp hkey with ⟨h1, h2⟩ | ⟨h1, h2⟩
    · subst h1 h2
      exact ⟨hact, ht, ⟨star, hstar, rfl⟩, ⟨target, htarget, htid⟩,
        Or.inl ⟨star, hstar, rfl, hts⟩⟩
    · subst h1 h2
      exact ⟨ht, hact, ⟨target, htarget, htid⟩, ⟨star, hstar, rfl⟩,
        Or.inr ⟨star, hstar, rfl, hts⟩⟩
  · rintro ⟨ha, hb, hsa, hsb, hconn | hconn⟩
    · obtain ⟨s, hs, hid, hlist⟩ := hconn
      obtain ⟨target, hfind⟩ := (find_isSome_iff stars b).mpr hsb
      have := foldl_addStar_has stars activeIds stars [] s hs (hid ▸ ha) b hlist hb target hfind
      rw [hid] at this
      exact this
    · obtain ⟨s, hs, hid, hlist⟩ := hconn
      obtain ⟨target, hfind⟩ := (find_isSome_iff stars a).mpr hsa
      have := foldl_addStar_has stars activeIds stars [] s hs (hid ▸ hb) a hlist ha target hfind
      rw [hid, lineKey_comm] at this
      exact this
  · obtain ⟨star, hstar, hact, t, hts, ht, target, hfind, hl⟩ := hsrc line hline
    have htarget : target ∈ stars := List.mem_of_find?_eq_some hfind
    have htid : target.id = t := by simpa using List.find?_some hfind
    subst htid
    exact ⟨star, hstar, target, htarget, hact, ht, hts, hl⟩

/-- C18, with the table `STARS` and the stars 1, 2 and 8 active: the pair (8, 1)
is drawn, under the key of (1, 8), and the pair (2, 8) is not. -/
theorem constellation_lines_spec_witness :
    (∃ line ∈ ConstellationLines STARS {1, 2, 8}, line.key = lineKey 1 8) ∧
    ¬ (∃ line ∈ ConstellationLines STARS {1, 2, 8}, line.key = lineKey 2 8) ∧
    lineKey 1 8 = "1-8" ∧ lineKey 8 1 = "1-8" ∧ lineKey 10 9 = "10-9" :=
  ⟨((constellation_lines_spec STARS {1, 2, 8}).1 1 8).mpr (by decide),
   fun h => absurd (((constellation_lines_spec STARS {1, 2, 8}).1 2 8).mp h) (by decide),
   by decide, by decide, by decide⟩

end Chapter5

namespace Chapter5

theorem addLine_congr (stars : List StarData) (A B : Finset Nat) (star : StarData)
    (lines : List Line) (t : Nat) (h : t ∈ A ↔ t ∈ B) :
    addLine stars A star lines t = addLine stars B star lines t := by
  unfold addLine
  by_cases ht : t ∈ A
  · rw [if_pos ht, if_pos (h.mp ht)]
  · rw [if_neg ht, if_neg (fun hb => ht (h.mpr hb))]

theorem foldl_addLine_congr (stars : List StarData) (A B : Finset Nat) (star : StarData)
    (ts : List Nat) (h : ∀ t ∈ ts, (t ∈ A ↔ t ∈ B)) (lines : List Line) :
    ts.foldl (addLine stars A star) lines = ts.foldl (addLine stars B star) lines := by
  induction ts generalizing lines with
  | nil => rfl
  | cons t ts ih =>
      rw [List.foldl_cons, List.foldl_cons,
        addLine_congr stars A B star lines t (h t (List.mem_cons_self _ _))]
      exact ih (fun u hu => h u (List.mem_cons_of_mem _ hu)) _

theorem foldl_addStar_congr (stars : List StarData) (A B : Finset Nat) (l : List StarData)
    (h : ∀ star ∈ l, (star.id ∈ A ↔ star.id ∈ B) ∧ ∀ t ∈ star.connectsTo, (t ∈ A ↔ t ∈ B))
    (lines : List Line) :
    l.foldl (addStar stars A) lines = l.foldl (addStar stars B) lines := by
  induction l generalizing lines with
  | nil => rfl
  | cons star l ih =>
      obtain ⟨h1, h2⟩ := h star (List.mem_cons_self _ _)
      have hstar : addStar stars A lines star = addStar stars B lines star := by
        unfold addStar
        by_cases hs : star.id ∈ A
        · rw [if_pos hs, if_pos (h1.mp hs)]
          exact foldl_addLine_congr stars A B star _ h2 lines
        · rw [if_neg hs, if_neg (fun hb => hs (h1.mpr hb))]
      rw [List.foldl_cons, List.foldl_cons, hstar]
      exact ih (fun u hu => h u (List.mem_cons_of_mem _ hu)) _

/-- In `STARS` every star lists exactly one target, another star of the table. -/
theorem STARS_targets :
    ∀ star ∈ STARS, star.connectsTo.length = 1 ∧ star.id ∈ starIds ∧
      ∀ t ∈ star.connectsTo, t ≠ star.id ∧ t ∈ starIds := by
  decide

/-- The number of targets of the active stars of `STARS` is at most the number of
active ids. -/
theorem STARS_targets_le_card (A : Finset Nat) :
    (STARS.map (fun star => if star.id ∈ A then star.connectsTo.length else 0)).sum ≤
      A.card := by
  have hsum : ∀ l : List StarData, (∀ star ∈ l, star.connectsTo.length = 1) →
      (l.map (fun star => if star.id ∈ A then star.connectsTo.length else 0)).sum =
        ((l.map (·.id)).filter (fun id => decide (id ∈ A))).length := by
    intro l
    induction l with
    | nil => intro _; rfl
    | cons star l ih =>
        intro hl
        have h1 := (hl star (List.mem_cons_self _ _))
        have ih' := ih (fun u hu => hl u (List.mem_cons_of_mem _ hu))
        simp only [List.map_cons, List.sum_cons, ih', h1]
        by_cases hs : star.id ∈ A
        · rw [if_pos hs, List.filter_cons_of_pos (by simpa using hs), List.length_cons]
          omega
        · rw [if_neg hs, List.filter_cons_of_neg (by simpa using hs)]
          omega
  rw [hsum STARS (fun star hstar => (STARS_targets star hstar).1)]
  have hnodup : ((STARS.map (·.id)).filter (fun id => decide (id ∈ A))).Nodup :=
    List.Nodup.filter _ (by decide)
  rw [← List.toFinset_card_of_nodup hnodup]
  apply Finset.card_le_card
  intro x hx
  simpa using (List.mem_filter.mp (List.mem_toFinset.mp hx)).2

/-- C19. With the table `STARS`: no line is drawn when fewer than two stars are
active; the lines are never more than the active stars; and when all 8 stars are
active there are exactly 8 lines, those of the closed cycle 1-2-3-4-5-6-7-8-1. -/
theorem STARS_constellation :
    (∀ activeIds : Finset Nat, activeIds.card < 2 → ConstellationLines STARS activeIds = []) ∧
    (∀ activeIds : Finset Nat, (ConstellationLines STARS activeIds).length ≤ activeIds.card) ∧
    (∀ activeIds : Finset Nat, starIds.toFinset ⊆ activeIds →
      (ConstellationLines STARS activeIds).length = 8 ∧
      (ConstellationLines STARS activeIds).map (·.key) =
        [lineKey 1 2, lineKey 2 3, lineKey 3 4, lineKey 4 5, lineKey 5 6, lineKey 6 7,
         lineKey 7 8, lineKey 8 1] ∧
      ConstellationLines STARS activeIds =
        [{ key := "1-2", x1 := 25, y1 := 20, x2 := 40, y2 := 15 },
         { key := "2-3", x1 := 40, y1 := 15, x2 := 55, y2 := 25 },
         { key := "3-4", x1 := 55, y1 := 25, x2 := 70, y2 := 18 },
         { key := "4-5", x1 := 70, y1 := 18, x2 := 80, y2 := 35 },
         { key := "5-6", x1 := 80, y1 := 35, x2 := 65, y2 := 45 },
         { key := "6-7", x1 := 65, y1 := 45, x2 := 45, y2 := 42 },
         { key := "7-8", x1 := 45, y1 := 42, x2 := 30, y2 := 48 },
         { key := "1-8", x1 := 30, y1 := 48, x2 := 25, y2 := 20 }]) := by
  refine ⟨fun A hA => ?_, fun A => ?_, fun A hA => ?_⟩
  · rw [List.eq_nil_iff_forall_not_mem]
    intro line hline
    obtain ⟨star, hstar, hact, t, hts, ht, -, -, -⟩ :=
      (constellationLines_good STARS A).2 line hline
    have hne : t ≠ star.id := ((STARS_targets star hstar).2.2 t hts).1
    have hsub : ({t, star.id} : Finset Nat) ⊆ A := by
      intro x hx
      rcases Finset.mem_insert.mp hx with rfl | hx
      · exact ht
      · rw [Finset.mem_singleton.mp hx]
        exact hact
    have := Finset.card_le_card hsub
    rw [Finset.card_pair hne] at this
    omega
  · have h1 := foldl_addStar_length STARS A STARS []
    have h2 := STARS_targets_le_card A
    simp only [List.length_nil, Nat.zero_add] at h1
    exact Nat.le_trans h1 h2
  · have hcongr : ConstellationLines STARS A = ConstellationLines STARS starIds.toFinset := by
      apply foldl_addStar_congr
      intro star hstar
      obtain ⟨-, hid, htargets⟩ := STARS_targets star hstar
      refine ⟨⟨fun _ => List.mem_toFinset.mpr hid, fun h => hA h⟩, fun t ht => ?_⟩
      exact ⟨fun _ => List.mem_toFinset.mpr (htargets t ht).2, fun h => hA h⟩
    rw [hcongr]
    exact ⟨by decide, by decide, by decide⟩

/-- C19, with no star, with star 3 alone, and with all eight stars active. -/
theorem STARS_constellation_witness :
    ((∅ : Finset Nat).card < 2 ∧ ConstellationLines STARS ∅ = []) ∧
    (({3} : Finset Nat).card < 2 ∧ ConstellationLines STARS {3} = []) ∧
    (starIds.toFinset ⊆ {1, 2, 3, 4, 5, 6, 7, 8} ∧
      (ConstellationLines STARS {1, 2, 3, 4, 5, 6, 7, 8}).length = 8) :=
  ⟨⟨by decide, STARS_constellation.1 ∅ (by decide)⟩,
   ⟨by decide, STARS_constellation.1 {3} (by decide)⟩,
   ⟨by decide, (STARS_constellation.2.2 {1, 2, 3, 4, 5, 6, 7, 8} (by decide)).1⟩⟩

end Chapter5

/-! ## The derived quantities: light, armour, sky -/

namespace Double

theorem nearestNat_nonneg (p q : Nat) : 0 ≤ nearestNat p q := by
  unfold nearestNat
  split <;> positivity

/-- Rounding keeps a number that is not negative so. -/
theorem nearest_nonneg (x : ℚ) (hx : 0 ≤ x) : 0 ≤ nearest x := by
  unfold nearest
  rw [if_neg (not_lt.mpr hx)]
  exact nearestNat_nonneg _ _

/-- The doubles `k / 6` for `k` from 0 to 6, as JavaScript prints them:
`0`, `0.16666666666666666`, `0.3333333333333333`, `0.5`, `0.6666666666666666`,
`0.8333333333333334`, `1`. -/
theorem div_six_table :
    div 0 6 = 0 ∧ div 1 6 = 6004799503160661 / 2 ^ 55 ∧
    div 2 6 = 6004799503160661 / 2 ^ 54 ∧ div 3 6 = 1 / 2 ∧
    div 4 6 = 6004799503160661 / 2 ^ 53 ∧ div 5 6 = 7505999378950827 / 2 ^ 53 ∧
    div 6 6 = 1 := by
  refine ⟨?_, ?_, ?_, ?_, ?_, ?_, ?_⟩ <;> decide!

/-- The doubles `1 - k / 6` for `k` from 0 to 6, as JavaScript prints them: `1`,
`0.8333333333333334`, `0.6666666666666667`, `0.5`, `0.33333333333333337`,
`0.16666666666666663`, `0`. -/
theorem one_sub_div_six_table :
    sub 1 (div 0 6) = 1 ∧ sub 1 (div 1 6) = 7505999378950827 / 2 ^ 53 ∧
    sub 1 (div 2 6) = 3002399751580331 / 2 ^ 52 ∧ sub 1 (div 3 6) = 1 / 2 ∧
    sub 1 (div 4 6) = 3002399751580331 / 2 ^ 53 ∧
    sub 1 (div 5 6) = 1501199875790165 / 2 ^ 53 ∧
    sub 1 (div 6 6) = 0 := by
  refine ⟨?_, ?_, ?_, ?_, ?_, ?_, ?_⟩ <;> decide!

/-- The sixths in double arithmetic: the bounds, the order, the places where the
double is the exact quotient. -/
theorem div_six_facts (k : Nat) (hk : k ≤ 6) :
    0 ≤ div (k : ℚ) 6 ∧ div (k : ℚ) 6 ≤ 1 ∧ (div (k : ℚ) 6 = 1 ↔ k = 6) ∧
    (div (k : ℚ) 6 = (k : ℚ) / 6 ↔ k = 0 ∨ k = 3 ∨ k = 6) ∧
    (k < 6 → div (k : ℚ) 6 < div ((k + 1 : Nat) : ℚ) 6) := by
  interval_cases k <;> decide!

/-- One minus the sixths in double arithmetic: the bounds, the order, the distance
to the exact value. -/
theorem one_sub_div_six_facts (k : Nat) (hk : k ≤ 6) :
    0 ≤ sub 1 (div (k : ℚ) 6) ∧ sub 1 (div (k : ℚ) 6) ≤ 1 ∧
    (sub 1 (div (k : ℚ) 6) = 0 ↔ k = 6) ∧
    (sub 1 (div (k : ℚ) 6) = 1 - (k : ℚ) / 6 ↔ k = 0 ∨ k = 3 ∨ k = 6) ∧
    |sub 1 (div (k : ℚ) 6) - (1 - (k : ℚ) / 6)| < 1 / 2 ^ 53 ∧
    (k < 6 →
      sub 1 (div ((k + 1 : Nat) : ℚ) 6) < sub 1 (div (k : ℚ) 6) ∧
      |sub 1 (div (k : ℚ) 6) - sub 1 (div ((k + 1 : Nat) : ℚ) 6) - 1 / 6| < 1 / 2 ^ 53) := by
  interval_cases k <;> decide!

end Double

namespace Chapter6

theorem lightIntensity_eq (s : State) :
    lightIntensity s = Double.div (s.repelledIds.card : ℚ) 6 := by
  simp [lightIntensity, SHADOWS_length]

/-- C21. In Chapter 6 the light grows with the number of repelled shadows.
`lightIntensity` is `repelledIds.size / 6` in double arithmetic: a rational
number, at least 0 in every state. In every reachable state it lies in [0, 1] and
equals 1 if and only if `allDone` holds. In every state whose repelled shadows
are shadows of the table (the reachable states are such), it is strictly larger
after repelling a shadow of the table that was not yet repelled, and it equals 1
if and only if `allDone` holds; repelling a shadow that already was repelled
changes nothing. The double is the exact quotient at 0, 3 and 6 repelled shadows
and a rounded one at 1, 2, 4 and 5. -/
theorem light_grows :
    (∀ s : State, lightIntensity s = Double.div (s.repelledIds.card : ℚ) 6 ∧
      0 ≤ lightIntensity s) ∧
    lightIntensity init = 0 ∧
    (∀ es : List Event, 0 ≤ lightIntensity (run init es) ∧ lightIntensity (run init es) ≤ 1 ∧
      (lightIntensity (run init es) = 1 ↔ allDone (run init es) = true)) ∧
    (∀ (s : State) (id : Nat), s.repelledIds ⊆ shadowIds.toFinset →
      id ∈ shadowIds → id ∉ s.repelledIds →
      lightIntensity s < lightIntensity (repelShadow id s) ∧
      lightIntensity s < lightIntensity (step s (.shadowClick id))) ∧
    (∀ (es : List Event) (id : Nat), id ∈ shadowIds → id ∉ (run init es).repelledIds →
      lightIntensity (run init es) < lightIntensity (step (run init es) (.shadowClick id))) ∧
    (∀ (s : State) (id : Nat), id ∈ s.repelledIds →
      lightIntensity (repelShadow id s) = lightIntensity s) ∧
    (∀ s : State, s.repelledIds ⊆ shadowIds.toFinset →
      lightIntensity s ≤ 1 ∧ (lightIntensity s = 1 ↔ allDone s = true) ∧
      (lightIntensity s = (s.repelledIds.card : ℚ) / 6 ↔
        s.repelledIds.card = 0 ∨ s.repelledIds.card = 3 ∨ s.repelledIds.card = 6)) := by
  have hnonneg : ∀ s : State, 0 ≤ lightIntensity s := fun s => by
    rw [lightIntensity_eq]
    exact Double.nearest_nonneg _ (by positivity)
  have hcard : ∀ s : State, s.repelledIds ⊆ shadowIds.toFinset → s.repelledIds.card ≤ 6 :=
    fun s hsub => (Finset.card_le_card hsub).trans (by decide)
  have hsubset : ∀ s : State, s.repelledIds ⊆ shadowIds.toFinset →
      lightIntensity s ≤ 1 ∧ (lightIntensity s = 1 ↔ allDone s = true) ∧
      (lightIntensity s = (s.repelledIds.card : ℚ) / 6 ↔
        s.repelledIds.card = 0 ∨ s.repelledIds.card = 3 ∨ s.repelledIds.card = 6) :=
    fun s hsub => by
      obtain ⟨-, hle, hone, hexact, -⟩ := Double.div_six_facts _ (hcard s hsub)
      rw [lightIntensity_eq]
      refine ⟨hle, ?_, hexact⟩
      rw [hone]
      simp only [allDone, SHADOWS_length, decide_eq_true_eq]
  have hstrict : ∀ (s : State) (id : Nat), s.repelledIds ⊆ shadowIds.toFinset →
      id ∈ shadowIds → id ∉ s.repelledIds →
      lightIntensity s < lightIntensity (repelShadow id s) ∧
      lightIntensity s < lightIntensity (step s (.shadowClick id)) :=
    fun s id hsub hid hmem => by
      have hset := repelShadow_repelledIds_of_mem id s hid
      have hc : (repelShadow id s).repelledIds.card = s.repelledIds.card + 1 := by
        rw [hset, Finset.card_insert_of_not_mem hmem]
      have hsub' : (repelShadow id s).repelledIds ⊆ shadowIds.toFinset := by
        rw [hset]
        exact Finset.insert_subset (List.mem_toFinset.mpr hid) hsub
      have hlt : s.repelledIds.card < 6 := by
        have := hcard _ hsub'
        omega
      have hstep : lightIntensity (step s (.shadowClick id)) =
          lightIntensity (repelShadow id s) := by
        simp only [step, if_pos hid, lightIntensity, completionEffect_repelledIds]
      have hgrow := (Double.div_six_facts _ (Nat.le_of_lt hlt)).2.2.2.2 hlt
      have hmain : lightIntensity s < lightIntensity (repelShadow id s) := by
        rw [lightIntensity_eq, lightIntensity_eq, hc]
        exact hgrow
      exact ⟨hmain, hstep ▸ hmain⟩
  have hreach : ∀ es : List Event, (run init es).repelledIds ⊆ shadowIds.toFinset :=
    fun es => (shadow_invariant_run es init shadow_invariant_init).1
  refine ⟨fun s => ⟨lightIntensity_eq s, hnonneg s⟩, ?_,
    fun es => ⟨hnonneg _, (hsubset _ (hreach es)).1, (hsubset _ (hreach es)).2.1⟩,
    hstrict, fun es id hid hmem => (hstrict _ id (hreach es) hid hmem).2,
    fun s id hmem => ?_, hsubset⟩
  · rw [lightIntensity_eq]
    exact Double.div_six_table.1
  · have : (repelShadow id s).repelledIds = s.repelledIds := by
      unfold repelShadow
      split
      · rfl
      · exact Finset.insert_eq_of_mem hmem
    rw [lightIntensity_eq, lightIntensity_eq, this]

/-- C21, at the initial state and shadow 1 (the light goes up from 0) and at the
state with all six shadows repelled (the light is 1). -/
theorem light_grows_witness :
    (init.repelledIds ⊆ shadowIds.toFinset ∧ 1 ∈ shadowIds ∧ 1 ∉ init.repelledIds ∧
      lightIntensity init < lightIntensity (repelShadow 1 init)) ∧
    (allDone (run init ([1, 2, 3, 4, 5, 6].map Event.shadowClick)) = true ∧
      lightIntensity (run init ([1, 2, 3, 4, 5, 6].map Event.shadowClick)) = 1) :=
  ⟨⟨by decide, by decide, by decide,
      (light_grows.2.2.2.1 init 1 (by decide) (by decide) (by decide)).1⟩,
   ⟨by decide, (light_grows.2.2.1 _).2.2.mpr (by decide)⟩⟩

end Chapter6

namespace Chapter3

theorem armorRemaining_eq (s : State) :
    armorRemaining s = Double.sub 1 (Double.div (s.fallenPlates.card : ℚ) 6) := by
  simp [armorRemaining, ARMOR_PLATES_length]

/-- In a reachable state the armour left is computed from the current beat. -/
theorem armorRemaining_run (es : List Event) :
    armorRemaining (run init es) =
      Double.sub 1 (Double.div ((run init es).currentBeat : ℚ) 6) := by
  obtain ⟨hf, -, -, -⟩ := armor_invariant_run es init armor_invariant_init
  rw [armorRemaining_eq, hf, Finset.card_range]

/-- C22, as stated, fails: the fifth click is effective, and the armour left goes
from `0.33333333333333337` to `0.16666666666666663`. The decrease is not 1/6, and
the new value is not the old one minus 1/6 in double arithmetic either (that is
`0.1666666666666667`). -/
theorem armor_step_counterexample :
    (run init (List.replicate 4 .click)).currentBeat < HEARTBEATS.length ∧
    armorRemaining (run init (List.replicate 4 .click)) = 3002399751580331 / 2 ^ 53 ∧
    armorRemaining (step (run init (List.replicate 4 .click)) .click)
      = 1501199875790165 / 2 ^ 53 ∧
    armorRemaining (run init (List.replicate 4 .click)) -
      armorRemaining (step (run init (List.replicate 4 .click)) .click) ≠ 1 / 6 ∧
    armorRemaining (step (run init (List.replicate 4 .click)) .click) ≠
      Double.sub (armorRemaining (run init (List.replicate 4 .click))) (Double.div 1 6) := by
  have h4 : armorRemaining (run init (List.replicate 4 .click)) = 3002399751580331 / 2 ^ 53 := by
    rw [armorRemaining_eq,
      show (run init (List.replicate 4 .click)).fallenPlates.card = 4 from by decide]
    exact Double.one_sub_div_six_table.2.2.2.2.1
  have h5 : armorRemaining (step (run init (List.replicate 4 .click)) .click)
      = 1501199875790165 / 2 ^ 53 := by
    rw [armorRemaining_eq,
      show (step (run init (List.replicate 4 .click)) .click).fallenPlates.card = 5 from by
        decide]
    exact Double.one_sub_div_six_table.2.2.2.2.2.1
  refine ⟨by decide, h4, h5, ?_, ?_⟩
  · rw [h4, h5]
    norm_num
  · rw [h4, h5]
    decide!

/-- C22, amended. In Chapter 3 `armorRemaining` is `1 - fallenPlates.size / 6` in
double arithmetic. It is 1 in the initial state; in every reachable state it lies
in [0, 1], is computed from the number of clicks made so far, up to six, and is
within `2^-53` of one minus a sixth per click; a click made while beats remain
makes it strictly smaller, by 1/6 up to a rounding error below `2^-53`; and it is
0 exactly when six clicks have been made, that is when all six plates have
fallen. -/
theorem armor_falls :
    armorRemaining init = 1 ∧
    (∀ s : State,
      armorRemaining s = Double.sub 1 (Double.div (s.fallenPlates.card : ℚ) 6)) ∧
    (∀ es : List Event,
      0 ≤ armorRemaining (run init es) ∧ armorRemaining (run init es) ≤ 1 ∧
      armorRemaining (run init es) =
        Double.sub 1 (Double.div ((min (es.count .click) 6 : Nat) : ℚ) 6) ∧
      |armorRemaining (run init es) - (1 - ((min (es.count .click) 6 : Nat) : ℚ) / 6)|
        < 1 / 2 ^ 53 ∧
      (armorRemaining (run init es) = 0 ↔ 6 ≤ es.count .click) ∧
      (armorRemaining (run init es) = 0 ↔
        (run init es).fallenPlates.card = ARMOR_PLATES.length)) ∧
    (∀ es : List Event, (run init es).currentBeat < HEARTBEATS.length →
      armorRemaining (step (run init es) .click) < armorRemaining (run init es) ∧
      |armorRemaining (run init es) - armorRemaining (step (run init es) .click) - 1 / 6|
        < 1 / 2 ^ 53 ∧
      armorRemaining (handleClick (run init es)) =
        armorRemaining (step (run init es) .click)) := by
  refine ⟨?_, armorRemaining_eq, fun es => ?_, fun es hlt => ?_⟩
  · rw [armorRemaining_eq]
    exact Double.one_sub_div_six_table.1
  · obtain ⟨hf, hle, -, -⟩ := armor_invariant_run es init armor_invariant_init
    rw [HEARTBEATS_length] at hle
    have hb := run_currentBeat es
    have hrun := armorRemaining_run es
    obtain ⟨h0, h1, hzero, -, hnear, -⟩ := Double.one_sub_div_six_facts _ hle
    rw [← hrun] at h0 h1 hzero hnear
    refine ⟨h0, h1, by rw [hrun, hb], by rw [← hb]; exact hnear, ?_, ?_⟩
    · rw [hzero, hb]
      omega
    · rw [hzero, hf, Finset.card_range, ARMOR_PLATES_length]
  · have hinv := armor_invariant_run es init armor_invariant_init
    obtain ⟨hf', -, -, -⟩ := armor_invariant_step _ .click hinv
    obtain ⟨hf, -, -, -⟩ := hinv
    rw [HEARTBEATS_length] at hlt
    have hbeat : (step (run init es) .click).currentBeat = (run init es).currentBeat + 1 := by
      rw [step_click_currentBeat, if_pos hlt]
    have hafter : armorRemaining (step (run init es) .click) =
        Double.sub 1 (Double.div (((run init es).currentBeat + 1 : Nat) : ℚ) 6) := by
      rw [armorRemaining_eq, hf', Finset.card_range, hbeat]
    obtain ⟨hdec, hnear⟩ := (Double.one_sub_div_six_facts _ (Nat.le_of_lt hlt)).2.2.2.2.2 hlt
    rw [← armorRemaining_run es, ← hafter] at hdec hnear
    refine ⟨hdec, hnear, ?_⟩
    have hnd : allDone (run init es) = false := by
      simp only [allDone, HEARTBEATS_length, decide_eq_false_iff_not]
      omega
    simp only [step, hnd, Bool.false_eq_true, if_false, armorRemaining,
      completionEffect_fallenPlates]

/-- C22 amended, at the initial state (one click takes the armour from 1 to
`0.8333333333333334`) and after six clicks (no armour is left). -/
theorem armor_falls_witness :
    ((run init []).currentBeat < HEARTBEATS.length ∧
      armorRemaining (step (run init []) .click) < armorRemaining (run init [])) ∧
    (6 ≤ (List.replicate 6 Event.click).count .click ∧
      armorRemaining (run init (List.replicate 6 .click)) = 0) :=
  ⟨⟨by decide, (armor_falls.2.2.2 [] (by decide)).1⟩,
   ⟨by decide, ((armor_falls.2.2.1 (List.replicate 6 .click)).2.2.2.2.1).mpr (by decide)⟩⟩

end Chapter3

namespace Chapter7

theorem skyProgress_eq_at (s : State) : skyProgress s = skyProgressAt s.currentPassage := rfl

theorem skyProgressAt_of_gt (n : Nat) (h : 10 < n) : skyProgressAt n = 1 := by
  simp only [skyProgressAt, skyProgress, PASSAGES_length]
  rw [if_neg (by omega), if_pos h]

theorem skyProgressAt_table :
    skyProgressAt 0 = 0 ∧ skyProgressAt 1 = 5 / 100 ∧ skyProgressAt 2 = 12 / 100 ∧
    skyProgressAt 3 = 22 / 100 ∧ skyProgressAt 4 = 32 / 100 ∧ skyProgressAt 5 = 42 / 100 ∧
    skyProgressAt 6 = 52 / 100 ∧ skyProgressAt 7 = 62 / 100 ∧ skyProgressAt 8 = 72 / 100 ∧
    skyProgressAt 9 = 82 / 100 ∧ skyProgressAt 10 = 92 / 100 ∧ skyProgressAt 11 = 1 := by
  refine ⟨?_, ?_, ?_, ?_, ?_, ?_, ?_, ?_, ?_, ?_, ?_, skyProgressAt_of_gt 11 (by decide)⟩ <;>
    simp [skyProgressAt, skyProgress, PASSAGES, init]

theorem skyProgressAt_succ (n : Nat) (h : n ≤ 10) : skyProgressAt n < skyProgressAt (n + 1) := by
  obtain ⟨h0, h1, h2, h3, h4, h5, h6, h7, h8, h9, h10, h11⟩ := skyProgressAt_table
  interval_cases n <;> simp only [Nat.reduceAdd, h0, h1, h2, h3, h4, h5, h6, h7, h8, h9, h10, h11] <;>
    norm_num

theorem skyProgressAt_lt (m n : Nat) (hmn : m < n) (hn : n ≤ 11) :
    skyProgressAt m < skyProgressAt n := by
  induction n with
  | zero => omega
  | succ k ih =>
      rcases Nat.lt_or_ge m k with hlt | hge
      · exact lt_trans (ih hlt (by omega)) (skyProgressAt_succ k (by omega))
      · have hmk : m = k := by omega
        rw [hmk]
        exact skyProgressAt_succ k (by omega)

theorem skyProgressAt_bounds (n : Nat) : 0 ≤ skyProgressAt n ∧ skyProgressAt n ≤ 1 := by
  rcases Nat.lt_or_ge 10 n with h | h
  · rw [skyProgressAt_of_gt n h]
    norm_num
  · have h0 := skyProgressAt_table.1
    have h11 := skyProgressAt_table.2.2.2.2.2.2.2.2.2.2.2
    constructor
    · rcases Nat.eq_zero_or_pos n with hz | hpos
      · rw [hz, h0]
      · exact le_of_lt (h0 ▸ skyProgressAt_lt 0 n hpos (by omega))
    · exact le_of_lt (h11 ▸ skyProgressAt_lt n 11 (by omega) (by omega))

theorem skyProgressAt_mono (m n : Nat) (hmn : m ≤ n) : skyProgressAt m ≤ skyProgressAt n := by
  rcases Nat.lt_or_ge 10 n with h | h
  · rw [skyProgressAt_of_gt n h]
    exact (skyProgressAt_bounds m).2
  · rcases Nat.eq_or_lt_of_le hmn with heq | hlt
    · rw [heq]
    · exact le_of_lt (skyProgressAt_lt m n hlt (by omega))

/-- C23. In Chapter 7 `skyProgress` goes from 0 (night) to 1 (dawn). It depends on
`currentPassage` only: it is 0 at 0, the `skyProgress` of `PASSAGES[currentPassage -
1]` from 1 to 10, and 1 above 10. It always lies in [0, 1]; it never decreases when
`currentPassage` grows, and it is strictly increasing over 0..11; so no event of
the chapter makes the sky darker. -/
theorem sky_rises :
    (∀ s : State, skyProgress s = skyProgressAt s.currentPassage) ∧
    skyProgressAt 0 = 0 ∧
    (∀ n : Nat, 1 ≤ n → n ≤ 10 →
      ∃ p : Passage, PASSAGES.get? (n - 1) = some p ∧ skyProgressAt n = p.skyProgress) ∧
    (∀ n : Nat, 10 < n → skyProgressAt n = 1) ∧
    (∀ n : Nat, 0 ≤ skyProgressAt n ∧ skyProgressAt n ≤ 1) ∧
    (∀ m n : Nat, m ≤ n → skyProgressAt m ≤ skyProgressAt n) ∧
    (∀ m n : Nat, m < n → n ≤ 11 → skyProgressAt m < skyProgressAt n) ∧
    (∀ s t : State, s.currentPassage ≤ t.currentPassage → skyProgress s ≤ skyProgress t) ∧
    (∀ (s : State) (e : Event), skyProgress s ≤ skyProgress (step s e)) := by
  refine ⟨skyProgress_eq_at, skyProgressAt_table.1, fun n h1 h10 => ?_, skyProgressAt_of_gt,
    skyProgressAt_bounds, skyProgressAt_mono, skyProgressAt_lt,
    fun s t h => skyProgressAt_mono _ _ h,
    fun s e => skyProgressAt_mono _ _ (step_currentPassage_le s e)⟩
  interval_cases n <;> exact ⟨_, rfl, by simp [skyProgressAt, skyProgress, PASSAGES, init]⟩

set_option maxRecDepth 1000000 in
/-- C23, at the passages 3 and 4 (0.22 < 0.32), at the step from the last passage
to the state past it (0.92 < 1), and beyond (1 at 11 and at 12). -/
theorem sky_rises_witness :
    (3 < 4 ∧ 4 ≤ 11 ∧ skyProgressAt 3 < skyProgressAt 4) ∧
    (10 < 11 ∧ 11 ≤ 11 ∧ skyProgressAt 10 < skyProgressAt 11) ∧
    (10 < 12 ∧ skyProgressAt 12 = 1) ∧
    (11 ≤ 12 ∧ skyProgressAt 11 ≤ skyProgressAt 12) ∧
    skyProgress (run init readAll) = 1 :=
  ⟨⟨by decide, by decide, sky_rises.2.2.2.2.2.2.1 3 4 (by decide) (by decide)⟩,
   ⟨by decide, by decide, sky_rises.2.2.2.2.2.2.1 10 11 (by decide) (by decide)⟩,
   ⟨by decide, sky_rises.2.2.2.1 12 (by decide)⟩,
   ⟨by decide, sky_rises.2.2.2.2.2.1 11 12 (by decide)⟩,
   (sky_rises.1 (run init readAll)).trans
     ((congrArg skyProgressAt (by decide : (run init readAll).currentPassage = 11)).trans
       (sky_rises.2.2.2.1 11 (by decide)))⟩

end Chapter7
